import Mathlib

/-!
Verification of the module-graph / chunk-topology core (src/lib/ModuleGraph.js and
src/lib/Chunk.js) against its natural-language specification.

Modelling conventions:
* Modules, dependencies, blocks, chunks and chunk groups are opaque identities in the
  source (compared by reference); we model each as a `Nat` handle.
* JavaScript `Map` objects are modelled as association lists (`List (Nat × _)`) with
  first-match lookup; `Map.set` on a present key updates in place, on an absent key
  appends at the end, exactly mirroring JS insertion-order semantics.
* JavaScript `Set` objects are modelled as duplicate-free lists in insertion order:
  `add` appends when absent, `delete` removes.
* `ModuleGraphConnection` objects are shared mutable values stored in several sets at
  once; we model object identity by keeping a heap `List (Nat × ModuleGraphConnection)`
  of connection records keyed by an allocation counter, and the incoming/outgoing sets
  store connection ids.
* Fallible operations (`updateModule` / `addExplanation` dereference an absent
  connection and throw in JS) return `Option`.
-/

/-- JS `Map.prototype.get`: first-match lookup in an association list. -/
def assocGet {κ α : Type} [DecidableEq κ] (l : List (κ × α)) (k : κ) : Option α :=
  match l with
  | [] => none
  | (k', v) :: rest => if k' = k then some v else assocGet rest k

/-- JS `Map.prototype.set`: update the first entry for `k` in place, or append a new
entry at the end (JS Maps keep first-insertion position of a key). -/
def assocSet {κ α : Type} [DecidableEq κ] (l : List (κ × α)) (k : κ) (v : α) :
    List (κ × α) :=
  match l with
  | [] => [(k, v)]
  | (k', v') :: rest => if k' = k then (k, v) :: rest else (k', v') :: assocSet rest k v

/-- JS `Set.prototype.add`: append when absent, keep untouched when present. -/
def setAdd (l : List Nat) (a : Nat) : List Nat :=
  if a ∈ l then l else l ++ [a]

/-- JS `Set.prototype.delete`: remove the element. -/
def setDelete (l : List Nat) (a : Nat) : List Nat :=
  l.filter (fun x => x ≠ a)

/-- Modelled from the spec: the tree-shaking usage value stored per module
(`false | true | SortableSet<string>`, §3 "UsedExports lattice"); the fourth state
`unknown` is the absence of a stored value (`null`), modelled as `Option.none` at the
use site.  The spec's design notes ask for an explicit tagged enumeration. -/
inductive UsedExports where
  | valFalse : UsedExports
  | valTrue : UsedExports
  | names (l : List String) : UsedExports
deriving DecidableEq

/-- Modelled from the spec: the `ModuleGraphConnection` class
(`src/lib/ModuleGraphConnection.js` is required by ModuleGraph.js but is not part of
the given sources).  Per §3: `{ originModule, dependency, module, explanations }`,
with `originModule = null` for externally-forced references; per §4.1 the
"resolved" module/origin are the raw modules stored when the connection was created,
frozen across later repointing.  Explanations only grow (appended). -/
structure ModuleGraphConnection where
  originModule : Option Nat
  resolvedOriginModule : Option Nat
  dependency : Option Nat
  module : Nat
  resolvedModule : Nat
  explanations : List String
deriving DecidableEq

/-- Modelled from the spec: `new ModuleGraphConnection(origin, dependency, module,
explanation?)` — both resolved fields start equal to the given modules, and the
optional explanation seeds the explanation list. -/
def mkConnection (origin : Option Nat) (dep : Option Nat) (m : Nat)
    (expl : Option String) : ModuleGraphConnection :=
  { originModule := origin
    resolvedOriginModule := origin
    dependency := dep
    module := m
    resolvedModule := m
    explanations := match expl with | none => [] | some e => [e] }

/-- Modelled from the spec: `ModuleGraphConnection.addExplanation` appends a
justification (explanations only grow, §3). -/
def connAddExplanation (c : ModuleGraphConnection) (e : String) : ModuleGraphConnection :=
  { c with explanations := c.explanations ++ [e] }

/-- `ModuleGraphModule` (ModuleGraph.js lines 18-31): the lazily created per-module
record.  The incoming/outgoing sets hold connection ids.  `optimizationBailout`
entries may be strings or display-formatter closures in JS; the formatters are opaque
display-only values (spec §6), modelled by their string payload. -/
structure ModuleGraphModule where
  incomingConnections : List Nat
  outgoingConnections : List Nat
  issuer : Option Nat
  optimizationBailout : List String
  usedExports : Option UsedExports
deriving DecidableEq

/-- The freshly constructed (default) `ModuleGraphModule`. -/
def emptyMGM : ModuleGraphModule :=
  { incomingConnections := []
    outgoingConnections := []
    issuer := none
    optimizationBailout := []
    usedExports := none }

/-- `ModuleGraphDependency` (ModuleGraph.js lines 33-42): the lazily created
per-dependency record; all three fields start `undefined`. -/
structure ModuleGraphDependency where
  connection : Option Nat
  parentModule : Option Nat
  parentBlock : Option Nat
deriving DecidableEq

/-- The freshly constructed (default) `ModuleGraphDependency`. -/
def emptyMGD : ModuleGraphDependency :=
  { connection := none, parentModule := none, parentBlock := none }

/-- `ModuleGraph` (ModuleGraph.js lines 44-54) plus the connection heap that models
JS object identity for `ModuleGraphConnection` values.  `metaMap` values are opaque
empty extensible records, modelled as `Unit`.  (`_originMap` in the source is declared
but never read or written by any method, so it carries no state.) -/
structure ModuleGraph where
  dependencyMap : List (Nat × ModuleGraphDependency)
  moduleMap : List (Nat × ModuleGraphModule)
  metaMap : List (Nat × Unit)
  connHeap : List (Nat × ModuleGraphConnection)
  nextConnId : Nat
deriving DecidableEq

/-- The empty `ModuleGraph` produced by the constructor. -/
def emptyModuleGraph : ModuleGraph :=
  { dependencyMap := [], moduleMap := [], metaMap := [], connHeap := [], nextConnId := 0 }

namespace ModuleGraph

/-- `_getModuleGraphModule` (lines 60-67): get-or-create the per-module record. -/
def _getModuleGraphModule (g : ModuleGraph) (m : Nat) : ModuleGraphModule × ModuleGraph :=
  match assocGet g.moduleMap m with
  | some mgm => (mgm, g)
  | none => (emptyMGM, { g with moduleMap := assocSet g.moduleMap m emptyMGM })

/-- `_getModuleGraphDependency` (lines 73-80): get-or-create the per-dependency record. -/
def _getModuleGraphDependency (g : ModuleGraph) (d : Nat) :
    ModuleGraphDependency × ModuleGraph :=
  match assocGet g.dependencyMap d with
  | some mgd => (mgd, g)
  | none => (emptyMGD, { g with dependencyMap := assocSet g.dependencyMap d emptyMGD })

/-- Store an updated per-dependency record. -/
def setMGD (g : ModuleGraph) (d : Nat) (v : ModuleGraphDependency) : ModuleGraph :=
  { g with dependencyMap := assocSet g.dependencyMap d v }

/-- Store an updated per-module record. -/
def setMGM (g : ModuleGraph) (m : Nat) (v : ModuleGraphModule) : ModuleGraph :=
  { g with moduleMap := assocSet g.moduleMap m v }

/-- Get-or-create the per-module record and update it in place (the JS methods mutate
the record object obtained from `_getModuleGraphModule`). -/
def modifyMGM (g : ModuleGraph) (m : Nat) (f : ModuleGraphModule → ModuleGraphModule) :
    ModuleGraph :=
  let p := g._getModuleGraphModule m
  setMGM p.2 m (f p.1)

/-- `setParents` (lines 88-92). -/
def setParents (g : ModuleGraph) (d blk m : Nat) : ModuleGraph :=
  let p := g._getModuleGraphDependency d
  setMGD p.2 d { p.1 with parentBlock := some blk, parentModule := some m }

/-- `getParentModule` (lines 98-101). -/
def getParentModule (g : ModuleGraph) (d : Nat) : Option Nat × ModuleGraph :=
  let p := g._getModuleGraphDependency d
  (p.1.parentModule, p.2)

/-- `getParentBlock` (lines 107-110). -/
def getParentBlock (g : ModuleGraph) (d : Nat) : Option Nat × ModuleGraph :=
  let p := g._getModuleGraphDependency d
  (p.1.parentBlock, p.2)

/-- `setResolvedModule` (lines 118-131): allocate a fresh connection, install it as
the dependency's connection, and add it to the target's incoming and the origin's
outgoing set. -/
def setResolvedModule (g : ModuleGraph) (originModule d m : Nat) : ModuleGraph :=
  let cid := g.nextConnId
  let conn := mkConnection (some originModule) (some d) m none
  let g1 : ModuleGraph :=
    { g with connHeap := assocSet g.connHeap cid conn, nextConnId := cid + 1 }
  let p := g1._getModuleGraphDependency d
  let g2 := setMGD p.2 d { p.1 with connection := some cid }
  let g3 := modifyMGM g2 m
    (fun mgm => { mgm with incomingConnections := setAdd mgm.incomingConnections cid })
  modifyMGM g3 originModule
    (fun mgm => { mgm with outgoingConnections := setAdd mgm.outgoingConnections cid })

/-- `updateModule` (lines 138-146): repoint the dependency's connection to a new
target module, moving it between incoming sets.  Dereferencing the connection of a
never-resolved dependency throws in JS, modelled as `none`. -/
def updateModule (g : ModuleGraph) (d m : Nat) : Option ModuleGraph :=
  let p := g._getModuleGraphDependency d
  match p.1.connection with
  | none => none
  | some cid =>
    match assocGet p.2.connHeap cid with
    | none => none
    | some conn =>
      if conn.module = m then some p.2
      else
        let g1 := modifyMGM p.2 conn.module (fun mgm =>
          { mgm with incomingConnections := setDelete mgm.incomingConnections cid })
        let g2 : ModuleGraph :=
          { g1 with connHeap := assocSet g1.connHeap cid { conn with module := m } }
        some (modifyMGM g2 m (fun mgm =>
          { mgm with incomingConnections := setAdd mgm.incomingConnections cid }))

/-- `addExplanation` (lines 153-156): append an explanation to the dependency's
connection; throws (modelled `none`) if the dependency has no connection. -/
def addExplanation (g : ModuleGraph) (d : Nat) (e : String) : Option ModuleGraph :=
  let p := g._getModuleGraphDependency d
  match p.1.connection with
  | none => none
  | some cid =>
    match assocGet p.2.connHeap cid with
    | none => none
    | some conn =>
      some { p.2 with connHeap := assocSet p.2.connHeap cid (connAddExplanation conn e) }

/-- One step of the first `replaceModule` loop (lines 170-176): if the filter accepts
the connection, repoint its origin to `newModule` and move it from `oldModule`'s to
`newModule`'s outgoing set. -/
def replaceOutgoingStep (newModule : Nat) (pred : ModuleGraphConnection → Bool)
    (oldModule : Nat) (g : ModuleGraph) (cid : Nat) : ModuleGraph :=
  match assocGet g.connHeap cid with
  | none => g
  | some conn =>
    if pred conn then
      let g1 : ModuleGraph :=
        { g with connHeap := assocSet g.connHeap cid { conn with originModule := some newModule } }
      let g2 := modifyMGM g1 newModule (fun mgm =>
        { mgm with outgoingConnections := setAdd mgm.outgoingConnections cid })
      modifyMGM g2 oldModule (fun mgm =>
        { mgm with outgoingConnections := setDelete mgm.outgoingConnections cid })
    else g

/-- One step of the second `replaceModule` loop (lines 179-185): if the filter accepts
the connection, repoint its target to `newModule` and move it from `oldModule`'s to
`newModule`'s incoming set. -/
def replaceIncomingStep (newModule : Nat) (pred : ModuleGraphConnection → Bool)
    (oldModule : Nat) (g : ModuleGraph) (cid : Nat) : ModuleGraph :=
  match assocGet g.connHeap cid with
  | none => g
  | some conn =>
    if pred conn then
      let g1 : ModuleGraph :=
        { g with connHeap := assocSet g.connHeap cid { conn with module := newModule } }
      let g2 := modifyMGM g1 newModule (fun mgm =>
        { mgm with incomingConnections := setAdd mgm.incomingConnections cid })
      modifyMGM g2 oldModule (fun mgm =>
        { mgm with incomingConnections := setDelete mgm.incomingConnections cid })
    else g

/-- `replaceModule` (lines 164-186).  JS iterates the live sets while deleting only
the element under the iterator and adding to the other module's (distinct) set, which
is equivalent to iterating a snapshot taken when the respective loop starts. -/
def replaceModule (g : ModuleGraph) (oldModule newModule : Nat)
    (pred : ModuleGraphConnection → Bool) : ModuleGraph :=
  if oldModule = newModule then g
  else
    let p := g._getModuleGraphModule oldModule
    let q := p.2._getModuleGraphModule newModule
    let g1 := p.1.outgoingConnections.foldl (replaceOutgoingStep newModule pred oldModule) q.2
    let inSnap := (g1._getModuleGraphModule oldModule).1.incomingConnections
    inSnap.foldl (replaceIncomingStep newModule pred oldModule) g1

/-- `addExtraReason` (lines 193-196): insert a synthetic connection with null origin
and dependency into the module's incoming set. -/
def addExtraReason (g : ModuleGraph) (m : Nat) (e : String) : ModuleGraph :=
  let cid := g.nextConnId
  let conn := mkConnection none none m (some e)
  let g1 : ModuleGraph :=
    { g with connHeap := assocSet g.connHeap cid conn, nextConnId := cid + 1 }
  modifyMGM g1 m
    (fun mgm => { mgm with incomingConnections := setAdd mgm.incomingConnections cid })

/-- `getResolvedModule` (lines 202-205). -/
def getResolvedModule (g : ModuleGraph) (d : Nat) : Option Nat × ModuleGraph :=
  let p := g._getModuleGraphDependency d
  match p.1.connection with
  | none => (none, p.2)
  | some cid => ((assocGet p.2.connHeap cid).map (fun c => c.resolvedModule), p.2)

/-- `getConnection` (lines 211-214): returns the connection itself (`undefined` when
absent); the returned object reference is its heap id. -/
def getConnection (g : ModuleGraph) (d : Nat) : Option Nat × ModuleGraph :=
  let p := g._getModuleGraphDependency d
  (p.1.connection, p.2)

/-- `getModule` (lines 220-223). -/
def getModule (g : ModuleGraph) (d : Nat) : Option Nat × ModuleGraph :=
  let p := g._getModuleGraphDependency d
  match p.1.connection with
  | none => (none, p.2)
  | some cid => ((assocGet p.2.connHeap cid).map (fun c => c.module), p.2)

/-- `getOrigin` (lines 229-232). -/
def getOrigin (g : ModuleGraph) (d : Nat) : Option Nat × ModuleGraph :=
  let p := g._getModuleGraphDependency d
  match p.1.connection with
  | none => (none, p.2)
  | some cid => ((assocGet p.2.connHeap cid).bind (fun c => c.originModule), p.2)

/-- `getResolvedOrigin` (lines 238-241). -/
def getResolvedOrigin (g : ModuleGraph) (d : Nat) : Option Nat × ModuleGraph :=
  let p := g._getModuleGraphDependency d
  match p.1.connection with
  | none => (none, p.2)
  | some cid => ((assocGet p.2.connHeap cid).bind (fun c => c.resolvedOriginModule), p.2)

/-- `getIncomingConnections` (lines 247-250): `Array.from` of the incoming set. -/
def getIncomingConnections (g : ModuleGraph) (m : Nat) : List Nat × ModuleGraph :=
  let p := g._getModuleGraphModule m
  (p.1.incomingConnections, p.2)

/-- `getOutgoingConnection` (lines 256-259): `Array.from` of the outgoing set. -/
def getOutgoingConnection (g : ModuleGraph) (m : Nat) : List Nat × ModuleGraph :=
  let p := g._getModuleGraphModule m
  (p.1.outgoingConnections, p.2)

/-- `getIssuer` (lines 265-268). -/
def getIssuer (g : ModuleGraph) (m : Nat) : Option Nat × ModuleGraph :=
  let p := g._getModuleGraphModule m
  (p.1.issuer, p.2)

/-- `setIssuer` (lines 275-278). -/
def setIssuer (g : ModuleGraph) (m : Nat) (issuer : Option Nat) : ModuleGraph :=
  let p := g._getModuleGraphModule m
  setMGM p.2 m { p.1 with issuer := issuer }

/-- `getOptimizationBailout` (lines 284-287). -/
def getOptimizationBailout (g : ModuleGraph) (m : Nat) : List String × ModuleGraph :=
  let p := g._getModuleGraphModule m
  (p.1.optimizationBailout, p.2)

/-- `getUsedExports` (lines 298-301). -/
def getUsedExports (g : ModuleGraph) (m : Nat) : Option UsedExports × ModuleGraph :=
  let p := g._getModuleGraphModule m
  (p.1.usedExports, p.2)

/-- `setUsedExports` (lines 308-311). -/
def setUsedExports (g : ModuleGraph) (m : Nat) (u : UsedExports) : ModuleGraph :=
  let p := g._getModuleGraphModule m
  setMGM p.2 m { p.1 with usedExports := some u }

/-- `getMeta` (lines 317-324): get-or-create an opaque empty record per key. -/
def getMeta (g : ModuleGraph) (k : Nat) : Unit × ModuleGraph :=
  match assocGet g.metaMap k with
  | some u => (u, g)
  | none => ((), { g with metaMap := assocSet g.metaMap k () })

end ModuleGraph

/-- View of a module's record: lazily created records are observationally identical to
absent ones. -/
def mgmView (g : ModuleGraph) (m : Nat) : ModuleGraphModule :=
  (assocGet g.moduleMap m).getD emptyMGM

/-- View of a dependency's record. -/
def mgdView (g : ModuleGraph) (d : Nat) : ModuleGraphDependency :=
  (assocGet g.dependencyMap d).getD emptyMGD

/-- View of the connection heap. -/
def connView (g : ModuleGraph) (c : Nat) : Option ModuleGraphConnection :=
  assocGet g.connHeap c

/-- The incoming-connections set of a module. -/
def inConns (g : ModuleGraph) (m : Nat) : List Nat :=
  (mgmView g m).incomingConnections

/-- The outgoing-connections set of a module. -/
def outConns (g : ModuleGraph) (m : Nat) : List Nat :=
  (mgmView g m).outgoingConnections

/-- The dependency's current connection id. -/
def connOf (g : ModuleGraph) (d : Nat) : Option Nat :=
  (mgdView g d).connection

/-- Placeholder connection used only to totalize heap lookups that are known to
succeed. -/
def defaultConn : ModuleGraphConnection :=
  mkConnection none none 0 none

/-- The connection stored in the heap under an id (total version). -/
def heapConn (g : ModuleGraph) (c : Nat) : ModuleGraphConnection :=
  (connView g c).getD defaultConn

/-- Observational equivalence of graph states: equal record views for every
dependency and module, and an equal connection heap.  Lazily inserting a default
record leaves a state observationally equivalent. -/
def ObsEq (g g' : ModuleGraph) : Prop :=
  (∀ d, mgdView g d = mgdView g' d) ∧ (∀ m, mgmView g m = mgmView g' m) ∧
    g.connHeap = g'.connHeap

/-!
## Traces of mutating operations

`Op` enumerates the mutating operations of the ModuleGraph API; `run` executes a
sequence from a starting graph, aborting (like a thrown JS error) when an operation
dereferences an absent connection.
-/

/-- A mutating ModuleGraph operation. -/
inductive Op where
  | setParents (d blk m : Nat)
  | setResolvedModule (o d m : Nat)
  | updateModule (d m : Nat)
  | addExplanation (d : Nat) (e : String)
  | replaceModule (o n : Nat) (pred : ModuleGraphConnection → Bool)
  | addExtraReason (m : Nat) (e : String)
  | setIssuer (m : Nat) (i : Option Nat)
  | setUsedExports (m : Nat) (u : UsedExports)

/-- Apply one operation; `none` models a thrown error. -/
def applyOp (g : ModuleGraph) : Op → Option ModuleGraph
  | .setParents d b m => some (g.setParents d b m)
  | .setResolvedModule o d m => some (g.setResolvedModule o d m)
  | .updateModule d m => g.updateModule d m
  | .addExplanation d e => g.addExplanation d e
  | .replaceModule o n pred => some (g.replaceModule o n pred)
  | .addExtraReason m e => some (g.addExtraReason m e)
  | .setIssuer m i => some (g.setIssuer m i)
  | .setUsedExports m u => some (g.setUsedExports m u)

/-- Run a sequence of operations. -/
def run (g : ModuleGraph) : List Op → Option ModuleGraph
  | [] => some g
  | op :: ops =>
    match applyOp g op with
    | none => none
    | some g' => run g' ops

/-- The four operation kinds quantified over by the edge-symmetry invariant claim. -/
def isC1Op : Op → Bool
  | .setResolvedModule _ _ _ => true
  | .updateModule _ _ => true
  | .replaceModule _ _ _ => true
  | .addExtraReason _ _ => true
  | _ => false

/-- The dependency targeted by a `setResolvedModule` operation, if any. -/
def srmDep : Op → Option Nat
  | .setResolvedModule _ d _ => some d
  | _ => none

/-- Whether an operation is `setResolvedModule` on the given dependency. -/
def isSrmFor (d : Nat) : Op → Bool
  | .setResolvedModule _ d' _ => d' = d
  | _ => false

/-- Whether an operation is `setUsedExports` on the given module. -/
def isSetUsedExportsFor (m : Nat) : Op → Bool
  | .setUsedExports m' _ => m' = m
  | _ => false

/-!
## Query operations as data (for the observational-purity claim)
-/

/-- The thirteen query operations of the ModuleGraph API. -/
inductive Query where
  | getParentModule (d : Nat)
  | getParentBlock (d : Nat)
  | getResolvedModule (d : Nat)
  | getConnection (d : Nat)
  | getModule (d : Nat)
  | getOrigin (d : Nat)
  | getResolvedOrigin (d : Nat)
  | getIncomingConnections (m : Nat)
  | getOutgoingConnection (m : Nat)
  | getIssuer (m : Nat)
  | getOptimizationBailout (m : Nat)
  | getUsedExports (m : Nat)
  | getMeta (k : Nat)

/-- The result of a query (a sum over the various query result types). -/
inductive QueryResult where
  | opt (v : Option Nat)
  | conns (l : List Nat)
  | bailout (l : List String)
  | used (u : Option UsedExports)
  | meta
deriving DecidableEq

/-- Execute a query, returning its result and the possibly grown graph. -/
def runQuery (g : ModuleGraph) : Query → QueryResult × ModuleGraph
  | .getParentModule d => let p := g.getParentModule d; (.opt p.1, p.2)
  | .getParentBlock d => let p := g.getParentBlock d; (.opt p.1, p.2)
  | .getResolvedModule d => let p := g.getResolvedModule d; (.opt p.1, p.2)
  | .getConnection d => let p := g.getConnection d; (.opt p.1, p.2)
  | .getModule d => let p := g.getModule d; (.opt p.1, p.2)
  | .getOrigin d => let p := g.getOrigin d; (.opt p.1, p.2)
  | .getResolvedOrigin d => let p := g.getResolvedOrigin d; (.opt p.1, p.2)
  | .getIncomingConnections m => let p := g.getIncomingConnections m; (.conns p.1, p.2)
  | .getOutgoingConnection m => let p := g.getOutgoingConnection m; (.conns p.1, p.2)
  | .getIssuer m => let p := g.getIssuer m; (.opt p.1, p.2)
  | .getOptimizationBailout m => let p := g.getOptimizationBailout m; (.bailout p.1, p.2)
  | .getUsedExports m => let p := g.getUsedExports m; (.used p.1, p.2)
  | .getMeta k => let p := g.getMeta k; (.meta, p.2)

/-!
## Invariants
-/

/-- A connection id is live when it is some dependency's current connection or was
installed by `addExtraReason` (null dependency). -/
def Live (g : ModuleGraph) (c : Nat) : Prop :=
  ∃ conn, connView g c = some conn ∧
    ((∃ d, connOf g d = some c) ∨ conn.dependency = none)

/-- The edge-symmetry invariant exactly as claimed: every live connection is in its
target's incoming set and (when the origin is not null) in its origin's outgoing set,
and in no other module record's incoming or outgoing set. -/
def EdgeSymmetry (g : ModuleGraph) : Prop :=
  ∀ c, Live g c → ∀ conn, connView g c = some conn →
    c ∈ inConns g conn.module ∧
    (∀ m, m ≠ conn.module → c ∉ inConns g m) ∧
    (∀ o, conn.originModule = some o →
      c ∈ outConns g o ∧ ∀ m, m ≠ o → c ∉ outConns g m) ∧
    (conn.originModule = none → ∀ m, c ∉ outConns g m)

/-- Symmetry and uniqueness of set membership for every heap connection. -/
def ConnConsistent (g : ModuleGraph) : Prop :=
  ∀ c conn, connView g c = some conn →
    c ∈ inConns g conn.module ∧
    (∀ m, m ≠ conn.module → c ∉ inConns g m) ∧
    (∀ o, conn.originModule = some o →
      c ∈ outConns g o ∧ ∀ m, m ≠ o → c ∉ outConns g m) ∧
    (conn.originModule = none → ∀ m, c ∉ outConns g m)

/-- Every heap connection is live; connections with a dependency point back to a
dependency whose current connection they are. -/
def AllLive (g : ModuleGraph) : Prop :=
  ∀ c conn, connView g c = some conn →
    (∃ d, conn.dependency = some d ∧ connOf g d = some c) ∨
    (conn.dependency = none ∧ conn.originModule = none)

/-- A dependency's current connection exists in the heap and names that dependency. -/
def DepBack (g : ModuleGraph) : Prop :=
  ∀ d c, connOf g d = some c →
    ∃ conn, connView g c = some conn ∧ conn.dependency = some d

/-- All connection ids in play are below the allocation counter. -/
def BoundedIds (g : ModuleGraph) : Prop :=
  (∀ c, (connView g c).isSome → c < g.nextConnId) ∧
  (∀ m c, c ∈ inConns g m → c < g.nextConnId) ∧
  (∀ m c, c ∈ outConns g m → c < g.nextConnId) ∧
  (∀ d c, connOf g d = some c → c < g.nextConnId)

/-- The incoming/outgoing lists are genuine sets (no duplicates). -/
def SetsNodup (g : ModuleGraph) : Prop :=
  ∀ m, (inConns g m).Nodup ∧ (outConns g m).Nodup

/-- Every id stored in a module record resolves in the connection heap. -/
def NoDangling (g : ModuleGraph) : Prop :=
  ∀ m c, c ∈ inConns g m ∨ c ∈ outConns g m → (connView g c).isSome

/-- The full inductive invariant carried through traces. -/
def StrongInv (g : ModuleGraph) : Prop :=
  ConnConsistent g ∧ AllLive g ∧ DepBack g ∧ BoundedIds g ∧ SetsNodup g ∧ NoDangling g

/-- Decidable boundedness of a concrete graph (used as a hypothesis where a theorem
starts from an arbitrary well-formed graph). -/
def boundedMGb (g : ModuleGraph) : Bool :=
  g.moduleMap.all (fun p =>
    p.2.incomingConnections.all (fun c => decide (c < g.nextConnId)) &&
    p.2.outgoingConnections.all (fun c => decide (c < g.nextConnId))) &&
  g.connHeap.all (fun p => decide (p.1 < g.nextConnId)) &&
  g.dependencyMap.all (fun p => p.2.connection.all (fun c => decide (c < g.nextConnId)))

/-!
## Chunk / chunk-group topology (src/lib/Chunk.js)

The chunk-group collaborator is external to the sources (spec §6); its observable
contract is an ordered chunk list, ordered child-group and parent-group collections,
a named numeric option map, and a deterministic `compareTo` comparator.  Chunks and
groups are opaque identities modelled as `Nat` handles; a chunk handle doubles as its
`id` (ids are only read, never compared to anything but other ids, in the algorithms
under proof).
-/

/-- Modelled from the spec: the observable state of a `ChunkGroup` collaborator —
an ordered member chunk list, ordered children, and named numeric ordering options
(spec §3 / §6).  Option names are chararacter lists (JS strings). -/
structure ChunkGroupData where
  chunks : List Nat
  children : List Nat
  options : List (List Char × Int)
deriving DecidableEq

/-- The default (empty) group data for an unknown handle. -/
def emptyCGD : ChunkGroupData :=
  { chunks := [], children := [], options := [] }

/-- Look up a group handle in a chunk-group environment. -/
def groupOf (env : List (Nat × ChunkGroupData)) (gid : Nat) : ChunkGroupData :=
  (assocGet env gid).getD emptyCGD

/-- Modelled from the spec: `SetHelpers.intersect` as used on line 222 — the
intersection of a list of chunk sets ("chunks shared by ALL of this chunk's own
groups", §4.2); the empty family intersects to the empty set. -/
def intersectChunkSets : List (List Nat) → List Nat
  | [] => []
  | s :: rest => rest.foldl (fun acc t => acc.filter (fun c => decide (c ∈ t))) s

/-- The body of the `getAllAsyncChunks` work-queue loop (lines 232-241).  JS iterates
a `Set` that grows during iteration and never removes elements, so the state is the
list of already processed groups, the pending groups, and the accumulated result;
`queue.add` appends only handles not yet seen (processed or pending).  Fuel is a
modelling artifact: each group enters the queue at most once, so `env.length` fuel
suffices for any topology closed under children (proved below). -/
def gaacLoop (env : List (Nat × ChunkGroupData)) (initial : List Nat) :
    Nat → List Nat → List Nat → List Nat → Option (List Nat)
  | _, _, [], acc => some acc
  | 0, _, _ :: _, _ => none
  | fuel + 1, processed, gid :: rest, acc =>
    let grp := groupOf env gid
    let acc2 := grp.chunks.foldl
      (fun a ch => if ch ∈ initial then a else setAdd a ch) acc
    let processed2 := processed ++ [gid]
    let pending2 := grp.children.foldl
      (fun p ch => if ch ∈ processed2 ∨ ch ∈ p then p else p ++ [ch]) rest
    gaacLoop env initial fuel processed2 pending2 acc2

/-- `getAllAsyncChunks` (lines 218-244) for a chunk whose group membership (in
insertion order) is `myGroups`: intersect the member sets of the chunk's own groups,
seed the queue with every child of every own group, then walk the child adjacency. -/
def getAllAsyncChunks (env : List (Nat × ChunkGroupData)) (myGroups : List Nat) :
    Option (List Nat) :=
  let initial := intersectChunkSets (myGroups.map (fun gr => (groupOf env gr).chunks))
  let seeds := myGroups.foldl (fun q gr => (groupOf env gr).children.foldl setAdd q) []
  gaacLoop env initial env.length [] seeds []

/-- The literal suffix `"Order"` (line 296). -/
def orderSuffix : List Char := ['O', 'r', 'd', 'e', 'r']

/-- `key.endsWith("Order")` (line 296). -/
def endsWithOrder (k : List Char) : Bool :=
  orderSuffix.isSuffixOf k

/-- `key.substr(0, key.length - "Order".length)` (line 297). -/
def stripOrderSuffix (k : List Char) : List Char :=
  k.take (k.length - orderSuffix.length)

/-- An entry of the per-order-name lists built by `getChildIdsByOrders`
(lines 300-303): a numeric order value paired with the child group handle. -/
structure OrderItem where
  order : Int
  group : Nat
deriving DecidableEq

/-- The sort comparator of line 311-315: descending by order value, ties broken by
the external `compareTo` total order. -/
def orderItemCmp (cmpT : Nat → Nat → Int) (a b : OrderItem) : Int :=
  if b.order - a.order ≠ 0 then b.order - a.order else cmpT a.group b.group

/-- Stable insertion of an element into a list sorted ascending w.r.t. a JS
comparator rendered as `le a b ↔ cmp a b ≤ 0`. -/
def insertAsc {α : Type} (le : α → α → Bool) (x : α) : List α → List α
  | [] => [x]
  | y :: ys => if le x y then x :: y :: ys else y :: insertAsc le x ys

/-- `Array.prototype.sort` with a consistent comparator: a stable ascending sort. -/
def jsSort {α : Type} (le : α → α → Bool) : List α → List α
  | [] => []
  | x :: xs => insertAsc le x (jsSort le xs)

/-- Phase 1 of `getChildIdsByOrders` (lines 291-308): for every group whose last
member chunk is `self`, scan every child group's options ending in `Order` and group
the (order value, child group) pairs by stripped order name, in encounter order. -/
def collectOrderLists (env : List (Nat × ChunkGroupData)) (self : Nat)
    (myGroups : List Nat) : List (List Char × List OrderItem) :=
  myGroups.foldl (fun lists gid =>
    let grp := groupOf env gid
    if grp.chunks.getLast? = some self then
      grp.children.foldl (fun lists cg =>
        (groupOf env cg).options.foldl (fun lists kv =>
          if endsWithOrder kv.1 then
            let nm := stripOrderSuffix kv.1
            assocSet lists nm ((assocGet lists nm).getD [] ++ [⟨kv.2, cg⟩])
          else lists) lists) lists
    else lists) []

/-- `getChildIdsByOrders` (lines 290-326): sort each per-name list with the
comparator, then flatten each sorted list's groups' chunk ids left to right into a
de-duplicated id sequence (a JS `Set` keeps first-seen order). -/
def getChildIdsByOrders (env : List (Nat × ChunkGroupData)) (cmpT : Nat → Nat → Int)
    (self : Nat) (myGroups : List Nat) : List (List Char × List Nat) :=
  let lists := collectOrderLists env self myGroups
  lists.foldl (fun res p =>
    let sorted := jsSort (fun a b => decide (orderItemCmp cmpT a b ≤ 0)) p.2
    let ids := sorted.foldl (fun s item => (groupOf env item.group).chunks.foldl setAdd s) []
    res ++ [(p.1, ids)]) []

/-!
## Mutable chunk ↔ group membership (for `disconnectFromGroups`)
-/

/-- The mutable two-sided membership state: each chunk's `_groups` set (Chunk.js
line 74) and each group's ordered member chunk list. -/
structure CGState where
  chunkGroupsMap : List (Nat × List Nat)
  groupChunksMap : List (Nat × List Nat)
deriving DecidableEq

/-- A chunk's `_groups` set (insertion order). -/
def chunkGroupsOf (s : CGState) (c : Nat) : List Nat :=
  (assocGet s.chunkGroupsMap c).getD []

/-- A group's ordered member chunk list. -/
def groupChunksOf (s : CGState) (g : Nat) : List Nat :=
  (assocGet s.groupChunksMap g).getD []

/-- `Chunk.removeGroup` (lines 142-146): delete the group from the chunk's set,
reporting whether it was present. -/
def chunkRemoveGroup (s : CGState) (c g : Nat) : CGState × Bool :=
  if g ∈ chunkGroupsOf s c then
    ({ s with chunkGroupsMap :=
        assocSet s.chunkGroupsMap c (setDelete (chunkGroupsOf s c) g) }, true)
  else (s, false)

/-- Modelled from the spec: `ChunkGroup.removeChunk` (the group collaborator's
mutator, spec §6 and §4.2) — when the chunk is a member, splice it out of the
group's chunk list and remove the group from the chunk's own set (maintaining the
group-membership symmetry invariant), reporting success. -/
def groupRemoveChunk (s : CGState) (g c : Nat) : CGState × Bool :=
  if c ∈ groupChunksOf s g then
    let s1 : CGState :=
      { s with groupChunksMap := assocSet s.groupChunksMap g ((groupChunksOf s g).erase c) }
    ((chunkRemoveGroup s1 c g).1, true)
  else (s, false)

/-- `Chunk.disconnectFromGroups` (lines 173-177): call `removeChunk` on every group
in the chunk's set.  JS deletes only the element under the iterator, so iterating a
snapshot is equivalent. -/
def disconnectFromGroups (s : CGState) (c : Nat) : CGState :=
  (chunkGroupsOf s c).foldl (fun st g => (groupRemoveChunk st g c).1) s

/-- `Chunk.getNumberOfGroups` (lines 159-161). -/
def getNumberOfGroups (s : CGState) (c : Nat) : Nat :=
  (chunkGroupsOf s c).length

/-- A concrete graph used to exercise theorems with hypotheses: module 10 has two
outgoing connections (dependencies 0, 1) and one incoming connection (dependency 2). -/
def exampleGraphA : ModuleGraph :=
  (run emptyModuleGraph
    [Op.setResolvedModule 10 0 20, Op.setResolvedModule 10 1 30,
      Op.setResolvedModule 40 2 10]).getD emptyModuleGraph

/-!
## Basic lemmas about the JS Map/Set models
-/

theorem assocGet_assocSet_self {κ α : Type} [DecidableEq κ] (l : List (κ × α)) (k : κ)
    (v : α) : assocGet (assocSet l k v) k = some v := by
  induction l with
  | nil => simp [assocGet, assocSet]
  | cons p rest ih =>
    by_cases h : p.1 = k
    · simp [assocSet, h, assocGet]
    · simp [assocSet, h, assocGet, ih]

theorem assocGet_assocSet_ne {κ α : Type} [DecidableEq κ] (l : List (κ × α)) (k k' : κ)
    (v : α) (h : k' ≠ k) : assocGet (assocSet l k v) k' = assocGet l k' := by
  induction l with
  | nil => simp [assocGet, assocSet, Ne.symm h]
  | cons p rest ih =>
    obtain ⟨a, b⟩ := p
    by_cases hp : a = k
    · subst hp
      simp [assocSet, assocGet, h, Ne.symm h]
    · by_cases hp' : a = k'
      · subst hp'
        simp [assocSet, assocGet, hp]
      · simp [assocSet, assocGet, hp, hp', ih]

theorem assocGet_mem {κ α : Type} [DecidableEq κ] {l : List (κ × α)} {k : κ} {v : α}
    (h : assocGet l k = some v) : (k, v) ∈ l := by
  induction l with
  | nil => simp [assocGet] at h
  | cons p rest ih =>
    obtain ⟨a, b⟩ := p
    by_cases hp : a = k
    · simp only [assocGet, if_pos hp, Option.some.injEq] at h
      subst hp
      subst h
      exact List.mem_cons_self _ _
    · simp only [assocGet, if_neg hp] at h
      exact List.mem_cons_of_mem _ (ih h)

theorem mem_setAdd {l : List Nat} {a x : Nat} : x ∈ setAdd l a ↔ x ∈ l ∨ x = a := by
  by_cases h : a ∈ l
  · simp only [setAdd, if_pos h]
    constructor
    · exact Or.inl
    · rintro (hx | rfl) <;> assumption
  · simp [setAdd, if_neg h]

theorem setAdd_nodup {l : List Nat} {a : Nat} (h : l.Nodup) : (setAdd l a).Nodup := by
  by_cases ha : a ∈ l
  · simpa [setAdd, if_pos ha]
  · simp [setAdd, if_neg ha, List.nodup_append, h, ha]

theorem setAdd_of_mem {l : List Nat} {a : Nat} (h : a ∈ l) : setAdd l a = l := by
  simp [setAdd, if_pos h]

theorem setAdd_of_not_mem {l : List Nat} {a : Nat} (h : a ∉ l) : setAdd l a = l ++ [a] := by
  simp [setAdd, if_neg h]

theorem mem_setDelete {l : List Nat} {a x : Nat} : x ∈ setDelete l a ↔ x ∈ l ∧ x ≠ a := by
  simp [setDelete]

theorem setDelete_nodup {l : List Nat} {a : Nat} (h : l.Nodup) : (setDelete l a).Nodup :=
  List.Nodup.filter _ h

theorem not_mem_setDelete_self {l : List Nat} {a : Nat} : a ∉ setDelete l a := by
  simp [setDelete]

/-!
## View lemmas for the graph state helpers
-/

theorem getMGM_fst (g : ModuleGraph) (m : Nat) :
    (g._getModuleGraphModule m).1 = mgmView g m := by
  unfold ModuleGraph._getModuleGraphModule mgmView
  cases assocGet g.moduleMap m <;> rfl

theorem mgmView_getMGM (g : ModuleGraph) (m m' : Nat) :
    mgmView (g._getModuleGraphModule m).2 m' = mgmView g m' := by
  unfold ModuleGraph._getModuleGraphModule
  cases h : assocGet g.moduleMap m with
  | some v => rfl
  | none =>
    unfold mgmView
    by_cases hm : m' = m
    · subst hm
      simp [assocGet_assocSet_self, h]
    · simp [assocGet_assocSet_ne _ _ _ _ hm]

theorem getMGM_snd_dependencyMap (g : ModuleGraph) (m : Nat) :
    (g._getModuleGraphModule m).2.dependencyMap = g.dependencyMap := by
  unfold ModuleGraph._getModuleGraphModule
  cases assocGet g.moduleMap m <;> rfl

theorem getMGM_snd_connHeap (g : ModuleGraph) (m : Nat) :
    (g._getModuleGraphModule m).2.connHeap = g.connHeap := by
  unfold ModuleGraph._getModuleGraphModule
  cases assocGet g.moduleMap m <;> rfl

theorem getMGM_snd_metaMap (g : ModuleGraph) (m : Nat) :
    (g._getModuleGraphModule m).2.metaMap = g.metaMap := by
  unfold ModuleGraph._getModuleGraphModule
  cases assocGet g.moduleMap m <;> rfl

theorem getMGM_snd_nextConnId (g : ModuleGraph) (m : Nat) :
    (g._getModuleGraphModule m).2.nextConnId = g.nextConnId := by
  unfold ModuleGraph._getModuleGraphModule
  cases assocGet g.moduleMap m <;> rfl

theorem getMGD_fst (g : ModuleGraph) (d : Nat) :
    (g._getModuleGraphDependency d).1 = mgdView g d := by
  unfold ModuleGraph._getModuleGraphDependency mgdView
  cases assocGet g.dependencyMap d <;> rfl

theorem mgdView_getMGD (g : ModuleGraph) (d d' : Nat) :
    mgdView (g._getModuleGraphDependency d).2 d' = mgdView g d' := by
  unfold ModuleGraph._getModuleGraphDependency
  cases h : assocGet g.dependencyMap d with
  | some v => rfl
  | none =>
    unfold mgdView
    by_cases hd : d' = d
    · subst hd
      simp [assocGet_assocSet_self, h]
    · simp [assocGet_assocSet_ne _ _ _ _ hd]

theorem getMGD_snd_moduleMap (g : ModuleGraph) (d : Nat) :
    (g._getModuleGraphDependency d).2.moduleMap = g.moduleMap := by
  unfold ModuleGraph._getModuleGraphDependency
  cases assocGet g.dependencyMap d <;> rfl

theorem getMGD_snd_connHeap (g : ModuleGraph) (d : Nat) :
    (g._getModuleGraphDependency d).2.connHeap = g.connHeap := by
  unfold ModuleGraph._getModuleGraphDependency
  cases assocGet g.dependencyMap d <;> rfl

theorem getMGD_snd_metaMap (g : ModuleGraph) (d : Nat) :
    (g._getModuleGraphDependency d).2.metaMap = g.metaMap := by
  unfold ModuleGraph._getModuleGraphDependency
  cases assocGet g.dependencyMap d <;> rfl

theorem getMGD_snd_nextConnId (g : ModuleGraph) (d : Nat) :
    (g._getModuleGraphDependency d).2.nextConnId = g.nextConnId := by
  unfold ModuleGraph._getModuleGraphDependency
  cases assocGet g.dependencyMap d <;> rfl

theorem mgmView_setMGM (g : ModuleGraph) (m m' : Nat) (v : ModuleGraphModule) :
    mgmView (g.setMGM m v) m' = if m' = m then v else mgmView g m' := by
  unfold ModuleGraph.setMGM mgmView
  by_cases h : m' = m
  · subst h
    simp [assocGet_assocSet_self]
  · simp [h, assocGet_assocSet_ne _ _ _ _ h]

theorem mgmView_modifyMGM (g : ModuleGraph) (m m' : Nat)
    (f : ModuleGraphModule → ModuleGraphModule) :
    mgmView (g.modifyMGM m f) m' = if m' = m then f (mgmView g m') else mgmView g m' := by
  unfold ModuleGraph.modifyMGM
  rw [mgmView_setMGM, getMGM_fst]
  by_cases h : m' = m
  · subst h
    simp
  · simp [h, mgmView_getMGM]

theorem modifyMGM_dependencyMap (g : ModuleGraph) (m : Nat)
    (f : ModuleGraphModule → ModuleGraphModule) :
    (g.modifyMGM m f).dependencyMap = g.dependencyMap := by
  unfold ModuleGraph.modifyMGM ModuleGraph.setMGM
  simp [getMGM_snd_dependencyMap]

theorem modifyMGM_connHeap (g : ModuleGraph) (m : Nat)
    (f : ModuleGraphModule → ModuleGraphModule) :
    (g.modifyMGM m f).connHeap = g.connHeap := by
  unfold ModuleGraph.modifyMGM ModuleGraph.setMGM
  simp [getMGM_snd_connHeap]

theorem modifyMGM_metaMap (g : ModuleGraph) (m : Nat)
    (f : ModuleGraphModule → ModuleGraphModule) :
    (g.modifyMGM m f).metaMap = g.metaMap := by
  unfold ModuleGraph.modifyMGM ModuleGraph.setMGM
  simp [getMGM_snd_metaMap]

theorem modifyMGM_nextConnId (g : ModuleGraph) (m : Nat)
    (f : ModuleGraphModule → ModuleGraphModule) :
    (g.modifyMGM m f).nextConnId = g.nextConnId := by
  unfold ModuleGraph.modifyMGM ModuleGraph.setMGM
  simp [getMGM_snd_nextConnId]

theorem mgdView_setMGD (g : ModuleGraph) (d d' : Nat) (v : ModuleGraphDependency) :
    mgdView (g.setMGD d v) d' = if d' = d then v else mgdView g d' := by
  unfold ModuleGraph.setMGD mgdView
  by_cases h : d' = d
  · subst h
    simp [assocGet_assocSet_self]
  · simp [h, assocGet_assocSet_ne _ _ _ _ h]

theorem mgdView_modifyMGM (g : ModuleGraph) (m : Nat)
    (f : ModuleGraphModule → ModuleGraphModule) (d : Nat) :
    mgdView (g.modifyMGM m f) d = mgdView g d := by
  unfold mgdView
  rw [modifyMGM_dependencyMap]

theorem mgmView_setMGD (g : ModuleGraph) (d : Nat) (v : ModuleGraphDependency) (m : Nat) :
    mgmView (g.setMGD d v) m = mgmView g m := rfl

theorem mgmView_getMGDstate (g : ModuleGraph) (d m : Nat) :
    mgmView (g._getModuleGraphDependency d).2 m = mgmView g m := by
  unfold mgmView
  rw [getMGD_snd_moduleMap]

theorem mgdView_getMGMstate (g : ModuleGraph) (m d : Nat) :
    mgdView (g._getModuleGraphModule m).2 d = mgdView g d := by
  unfold mgdView
  rw [getMGM_snd_dependencyMap]


theorem getMGD_of_connOf {g : ModuleGraph} {d : Nat} {c : Nat}
    (h : connOf g d = some c) : g._getModuleGraphDependency d = (mgdView g d, g) := by
  unfold connOf mgdView at h
  unfold ModuleGraph._getModuleGraphDependency mgdView
  cases hd : assocGet g.dependencyMap d with
  | none => rw [hd] at h; simp [emptyMGD] at h
  | some v => rfl

theorem mgdView_updateHeap (g : ModuleGraph) (heap : List (Nat × ModuleGraphConnection))
    (next : Nat) (d : Nat) :
    mgdView ⟨g.dependencyMap, g.moduleMap, g.metaMap, heap, next⟩ d = mgdView g d := rfl

theorem mgmView_updateHeap (g : ModuleGraph) (heap : List (Nat × ModuleGraphConnection))
    (next : Nat) (m : Nat) :
    mgmView ⟨g.dependencyMap, g.moduleMap, g.metaMap, heap, next⟩ m = mgmView g m := rfl

theorem connView_mk (dm : List (Nat × ModuleGraphDependency))
    (mm : List (Nat × ModuleGraphModule)) (meta : List (Nat × Unit))
    (heap : List (Nat × ModuleGraphConnection)) (next : Nat) (c : Nat) :
    connView ⟨dm, mm, meta, heap, next⟩ c = assocGet heap c := rfl

/-!
## Effect lemmas for `setResolvedModule`
-/

theorem srm_nextConnId (g : ModuleGraph) (o d m : Nat) :
    (g.setResolvedModule o d m).nextConnId = g.nextConnId + 1 := by
  unfold ModuleGraph.setResolvedModule
  simp [modifyMGM_nextConnId, ModuleGraph.setMGD, getMGD_snd_nextConnId]

theorem srm_connView (g : ModuleGraph) (o d m : Nat) (c : Nat) :
    connView (g.setResolvedModule o d m) c =
      if c = g.nextConnId then some (mkConnection (some o) (some d) m none)
      else connView g c := by
  unfold ModuleGraph.setResolvedModule connView
  simp only [modifyMGM_connHeap, ModuleGraph.setMGD, getMGD_snd_connHeap]
  by_cases h : c = g.nextConnId
  · subst h
    simp [assocGet_assocSet_self]
  · simp [h, assocGet_assocSet_ne _ _ _ _ h]

theorem srm_connOf (g : ModuleGraph) (o d m : Nat) (d' : Nat) :
    connOf (g.setResolvedModule o d m) d' =
      if d' = d then some g.nextConnId else connOf g d' := by
  unfold ModuleGraph.setResolvedModule connOf
  by_cases h : d' = d <;>
    simp [mgdView_modifyMGM, mgdView_setMGD, mgdView_getMGD, mgdView_updateHeap, h]

theorem srm_inConns (g : ModuleGraph) (o d m : Nat) (x : Nat) :
    inConns (g.setResolvedModule o d m) x =
      if x = m then setAdd (inConns g x) g.nextConnId else inConns g x := by
  unfold ModuleGraph.setResolvedModule inConns
  by_cases ho : x = o <;> by_cases hm : x = m <;>
    simp [mgmView_modifyMGM, mgmView_setMGD, mgmView_getMGDstate, mgmView_updateHeap,
      ho, hm] <;> (try split_ifs) <;> simp_all

theorem srm_outConns (g : ModuleGraph) (o d m : Nat) (x : Nat) :
    outConns (g.setResolvedModule o d m) x =
      if x = o then setAdd (outConns g x) g.nextConnId else outConns g x := by
  unfold ModuleGraph.setResolvedModule outConns
  by_cases ho : x = o <;> by_cases hm : x = m <;>
    simp [mgmView_modifyMGM, mgmView_setMGD, mgmView_getMGDstate, mgmView_updateHeap,
      ho, hm] <;> (try split_ifs) <;> simp_all

theorem srm_usedExports (g : ModuleGraph) (o d m : Nat) (x : Nat) :
    (mgmView (g.setResolvedModule o d m) x).usedExports = (mgmView g x).usedExports := by
  unfold ModuleGraph.setResolvedModule
  by_cases ho : x = o <;> by_cases hm : x = m <;>
    simp [mgmView_modifyMGM, mgmView_setMGD, mgmView_getMGDstate, mgmView_updateHeap,
      ho, hm] <;> (try split_ifs) <;> simp_all

theorem connView_modifyMGM (g : ModuleGraph) (m : Nat)
    (f : ModuleGraphModule → ModuleGraphModule) (c : Nat) :
    connView (g.modifyMGM m f) c = connView g c := by
  unfold connView
  rw [modifyMGM_connHeap]

theorem connView_getMGDstate (g : ModuleGraph) (d c : Nat) :
    connView (g._getModuleGraphDependency d).2 c = connView g c := by
  unfold connView
  rw [getMGD_snd_connHeap]

theorem connView_getMGMstate (g : ModuleGraph) (m c : Nat) :
    connView (g._getModuleGraphModule m).2 c = connView g c := by
  unfold connView
  rw [getMGM_snd_connHeap]

theorem connOf_modifyMGM (g : ModuleGraph) (m : Nat)
    (f : ModuleGraphModule → ModuleGraphModule) (d : Nat) :
    connOf (g.modifyMGM m f) d = connOf g d := by
  unfold connOf
  rw [mgdView_modifyMGM]

/-!
## Effect lemmas for `updateModule`
-/

theorem updateModule_none (g : ModuleGraph) (d m : Nat) (h : connOf g d = none) :
    g.updateModule d m = none := by
  have h' : (mgdView g d).connection = none := h
  simp [ModuleGraph.updateModule, getMGD_fst, h']

theorem updateModule_same (g : ModuleGraph) (d m cid : Nat)
    (conn : ModuleGraphConnection) (hc : connOf g d = some cid)
    (hh : connView g cid = some conn) (hsame : conn.module = m) :
    g.updateModule d m = some g := by
  have hc' : (mgdView g d).connection = some cid := hc
  have hh' : assocGet g.connHeap cid = some conn := hh
  unfold ModuleGraph.updateModule
  rw [getMGD_of_connOf hc]
  simp [hc', hh', hsame]

theorem updateModule_spec (g : ModuleGraph) (d m cid : Nat)
    (conn : ModuleGraphConnection) (hc : connOf g d = some cid)
    (hh : connView g cid = some conn) (hne : conn.module ≠ m) :
    ∃ g', g.updateModule d m = some g' ∧
      g'.nextConnId = g.nextConnId ∧
      (∀ c, connView g' c =
        if c = cid then some { conn with module := m } else connView g c) ∧
      (∀ d', connOf g' d' = connOf g d') ∧
      (∀ x, inConns g' x =
        if x = m then setAdd (inConns g x) cid
        else if x = conn.module then setDelete (inConns g x) cid
        else inConns g x) ∧
      (∀ x, outConns g' x = outConns g x) ∧
      (∀ x, (mgmView g' x).usedExports = (mgmView g x).usedExports) := by
  have hc' : (mgdView g d).connection = some cid := hc
  have hh' : assocGet g.connHeap cid = some conn := hh
  unfold ModuleGraph.updateModule
  rw [getMGD_of_connOf hc]
  simp only [hc', hh', if_neg hne]
  refine ⟨_, rfl, ?_, ?_, ?_, ?_, ?_, ?_⟩
  · simp [modifyMGM_nextConnId]
  · intro c
    rw [connView_modifyMGM]
    by_cases hcc : c = cid
    · subst hcc
      simp [connView, modifyMGM_connHeap, assocGet_assocSet_self]
    · simp [connView, modifyMGM_connHeap, assocGet_assocSet_ne _ _ _ _ hcc, hcc]
  · intro d'
    rw [connOf_modifyMGM]
    unfold connOf
    rw [mgdView_updateHeap, mgdView_modifyMGM]
  · intro x
    by_cases hxm : x = m <;> by_cases hxc : x = conn.module <;>
      simp [inConns, mgmView_modifyMGM, mgmView_updateHeap, hxm, hxc] <;>
      (try split_ifs) <;> simp_all
  · intro x
    by_cases hxm : x = m <;> by_cases hxc : x = conn.module <;>
      simp [outConns, mgmView_modifyMGM, mgmView_updateHeap, hxm, hxc] <;>
      (try split_ifs) <;> simp_all
  · intro x
    by_cases hxm : x = m <;> by_cases hxc : x = conn.module <;>
      simp [mgmView_modifyMGM, mgmView_updateHeap, hxm, hxc] <;>
      (try split_ifs) <;> simp_all

/-!
## Effect lemmas for `addExplanation`, `addExtraReason`, `setParents`, `setIssuer`,
`setUsedExports`
-/

theorem addExplanation_none (g : ModuleGraph) (d : Nat) (e : String)
    (h : connOf g d = none) : g.addExplanation d e = none := by
  have h' : (mgdView g d).connection = none := h
  simp [ModuleGraph.addExplanation, getMGD_fst, h']

theorem addExplanation_spec (g : ModuleGraph) (d : Nat) (e : String) (cid : Nat)
    (conn : ModuleGraphConnection) (hc : connOf g d = some cid)
    (hh : connView g cid = some conn) :
    ∃ g', g.addExplanation d e = some g' ∧
      g'.nextConnId = g.nextConnId ∧
      (∀ c, connView g' c =
        if c = cid then some (connAddExplanation conn e) else connView g c) ∧
      (∀ d', connOf g' d' = connOf g d') ∧
      (∀ x, inConns g' x = inConns g x) ∧
      (∀ x, outConns g' x = outConns g x) ∧
      (∀ x, (mgmView g' x).usedExports = (mgmView g x).usedExports) := by
  have hc' : (mgdView g d).connection = some cid := hc
  have hh' : assocGet g.connHeap cid = some conn := hh
  unfold ModuleGraph.addExplanation
  rw [getMGD_of_connOf hc]
  simp only [hc', hh']
  refine ⟨_, rfl, rfl, ?_, ?_, ?_, ?_, ?_⟩
  · intro c
    by_cases hcc : c = cid
    · subst hcc
      simp [connView, assocGet_assocSet_self]
    · simp [connView, assocGet_assocSet_ne _ _ _ _ hcc, hcc]
  · intro d'
    rw [connOf, mgdView_updateHeap]
    rfl
  · intro x
    rw [inConns, mgmView_updateHeap]
    rfl
  · intro x
    rw [outConns, mgmView_updateHeap]
    rfl
  · intro x
    rw [mgmView_updateHeap]

theorem aer_nextConnId (g : ModuleGraph) (m : Nat) (e : String) :
    (g.addExtraReason m e).nextConnId = g.nextConnId + 1 := by
  unfold ModuleGraph.addExtraReason
  simp [modifyMGM_nextConnId]

theorem aer_connView (g : ModuleGraph) (m : Nat) (e : String) (c : Nat) :
    connView (g.addExtraReason m e) c =
      if c = g.nextConnId then some (mkConnection none none m (some e))
      else connView g c := by
  unfold ModuleGraph.addExtraReason
  rw [connView_modifyMGM]
  by_cases hcc : c = g.nextConnId
  · subst hcc
    simp [connView, assocGet_assocSet_self]
  · simp [connView, assocGet_assocSet_ne _ _ _ _ hcc, hcc]

theorem aer_connOf (g : ModuleGraph) (m : Nat) (e : String) (d : Nat) :
    connOf (g.addExtraReason m e) d = connOf g d := by
  unfold ModuleGraph.addExtraReason
  rw [connOf_modifyMGM, connOf, mgdView_updateHeap]
  rfl

theorem aer_inConns (g : ModuleGraph) (m : Nat) (e : String) (x : Nat) :
    inConns (g.addExtraReason m e) x =
      if x = m then setAdd (inConns g x) g.nextConnId else inConns g x := by
  unfold ModuleGraph.addExtraReason
  by_cases hxm : x = m <;>
    simp [inConns, mgmView_modifyMGM, mgmView_updateHeap, hxm]

theorem aer_outConns (g : ModuleGraph) (m : Nat) (e : String) (x : Nat) :
    outConns (g.addExtraReason m e) x = outConns g x := by
  unfold ModuleGraph.addExtraReason
  by_cases hxm : x = m <;>
    simp [outConns, mgmView_modifyMGM, mgmView_updateHeap, hxm]

theorem aer_usedExports (g : ModuleGraph) (m : Nat) (e : String) (x : Nat) :
    (mgmView (g.addExtraReason m e) x).usedExports = (mgmView g x).usedExports := by
  unfold ModuleGraph.addExtraReason
  by_cases hxm : x = m <;>
    simp [mgmView_modifyMGM, mgmView_updateHeap, hxm]

theorem setParents_connOf (g : ModuleGraph) (d blk m : Nat) (d' : Nat) :
    connOf (g.setParents d blk m) d' = connOf g d' := by
  unfold ModuleGraph.setParents connOf
  rw [mgdView_setMGD]
  by_cases h : d' = d
  · subst h
    simp [getMGD_fst, mgdView_getMGD]
  · simp [h, mgdView_getMGD]

theorem setParents_mgmView (g : ModuleGraph) (d blk m : Nat) (x : Nat) :
    mgmView (g.setParents d blk m) x = mgmView g x := by
  unfold ModuleGraph.setParents
  rw [mgmView_setMGD, mgmView_getMGDstate]

theorem setParents_connView (g : ModuleGraph) (d blk m : Nat) (c : Nat) :
    connView (g.setParents d blk m) c = connView g c := by
  unfold ModuleGraph.setParents connView
  simp [ModuleGraph.setMGD, getMGD_snd_connHeap]

theorem setParents_nextConnId (g : ModuleGraph) (d blk m : Nat) :
    (g.setParents d blk m).nextConnId = g.nextConnId := by
  unfold ModuleGraph.setParents
  simp [ModuleGraph.setMGD, getMGD_snd_nextConnId]

theorem setIssuer_mgmView (g : ModuleGraph) (m : Nat) (i : Option Nat) (x : Nat) :
    mgmView (g.setIssuer m i) x =
      if x = m then { mgmView g x with issuer := i } else mgmView g x := by
  unfold ModuleGraph.setIssuer
  rw [mgmView_setMGM, getMGM_fst]
  by_cases h : x = m
  · subst h
    simp
  · simp [h, mgmView_getMGM]

theorem setIssuer_connOf (g : ModuleGraph) (m : Nat) (i : Option Nat) (d : Nat) :
    connOf (g.setIssuer m i) d = connOf g d := by
  unfold ModuleGraph.setIssuer connOf
  simp [ModuleGraph.setMGM, mgdView, getMGM_snd_dependencyMap]

theorem setIssuer_connView (g : ModuleGraph) (m : Nat) (i : Option Nat) (c : Nat) :
    connView (g.setIssuer m i) c = connView g c := by
  unfold ModuleGraph.setIssuer connView
  simp [ModuleGraph.setMGM, getMGM_snd_connHeap]

theorem setIssuer_nextConnId (g : ModuleGraph) (m : Nat) (i : Option Nat) :
    (g.setIssuer m i).nextConnId = g.nextConnId := by
  unfold ModuleGraph.setIssuer
  simp [ModuleGraph.setMGM, getMGM_snd_nextConnId]

theorem setUsedExports_mgmView (g : ModuleGraph) (m : Nat) (u : UsedExports) (x : Nat) :
    mgmView (g.setUsedExports m u) x =
      if x = m then { mgmView g x with usedExports := some u } else mgmView g x := by
  unfold ModuleGraph.setUsedExports
  rw [mgmView_setMGM, getMGM_fst]
  by_cases h : x = m
  · subst h
    simp
  · simp [h, mgmView_getMGM]

theorem setUsedExports_connOf (g : ModuleGraph) (m : Nat) (u : UsedExports) (d : Nat) :
    connOf (g.setUsedExports m u) d = connOf g d := by
  unfold ModuleGraph.setUsedExports connOf
  simp [ModuleGraph.setMGM, mgdView, getMGM_snd_dependencyMap]

theorem setUsedExports_connView (g : ModuleGraph) (m : Nat) (u : UsedExports) (c : Nat) :
    connView (g.setUsedExports m u) c = connView g c := by
  unfold ModuleGraph.setUsedExports connView
  simp [ModuleGraph.setMGM, getMGM_snd_connHeap]

theorem setUsedExports_nextConnId (g : ModuleGraph) (m : Nat) (u : UsedExports) :
    (g.setUsedExports m u).nextConnId = g.nextConnId := by
  unfold ModuleGraph.setUsedExports
  simp [ModuleGraph.setMGM, getMGM_snd_nextConnId]

/-!
## Query result and state lemmas (for observational purity)
-/

theorem getParentModule_fst (g : ModuleGraph) (d : Nat) :
    (g.getParentModule d).1 = (mgdView g d).parentModule := by
  show (g._getModuleGraphDependency d).1.parentModule = _
  rw [getMGD_fst]

theorem getParentBlock_fst (g : ModuleGraph) (d : Nat) :
    (g.getParentBlock d).1 = (mgdView g d).parentBlock := by
  show (g._getModuleGraphDependency d).1.parentBlock = _
  rw [getMGD_fst]

theorem getConnection_fst (g : ModuleGraph) (d : Nat) :
    (g.getConnection d).1 = connOf g d := by
  show (g._getModuleGraphDependency d).1.connection = _
  rw [getMGD_fst]
  rfl

theorem getModule_fst (g : ModuleGraph) (d : Nat) :
    (g.getModule d).1 =
      match connOf g d with
      | none => none
      | some cid => (connView g cid).map (fun c => c.module) := by
  simp only [ModuleGraph.getModule, connOf, connView]
  rw [getMGD_fst]
  cases (mgdView g d).connection with
  | none => rfl
  | some cid => simp [getMGD_snd_connHeap]

theorem getOrigin_fst (g : ModuleGraph) (d : Nat) :
    (g.getOrigin d).1 =
      match connOf g d with
      | none => none
      | some cid => (connView g cid).bind (fun c => c.originModule) := by
  simp only [ModuleGraph.getOrigin, connOf, connView]
  rw [getMGD_fst]
  cases (mgdView g d).connection with
  | none => rfl
  | some cid => simp [getMGD_snd_connHeap]

theorem getResolvedModule_fst (g : ModuleGraph) (d : Nat) :
    (g.getResolvedModule d).1 =
      match connOf g d with
      | none => none
      | some cid => (connView g cid).map (fun c => c.resolvedModule) := by
  simp only [ModuleGraph.getResolvedModule, connOf, connView]
  rw [getMGD_fst]
  cases (mgdView g d).connection with
  | none => rfl
  | some cid => simp [getMGD_snd_connHeap]

theorem getResolvedOrigin_fst (g : ModuleGraph) (d : Nat) :
    (g.getResolvedOrigin d).1 =
      match connOf g d with
      | none => none
      | some cid => (connView g cid).bind (fun c => c.resolvedOriginModule) := by
  simp only [ModuleGraph.getResolvedOrigin, connOf, connView]
  rw [getMGD_fst]
  cases (mgdView g d).connection with
  | none => rfl
  | some cid => simp [getMGD_snd_connHeap]

theorem getIncomingConnections_fst (g : ModuleGraph) (m : Nat) :
    (g.getIncomingConnections m).1 = inConns g m := by
  show (g._getModuleGraphModule m).1.incomingConnections = _
  rw [getMGM_fst]
  rfl

theorem getOutgoingConnection_fst (g : ModuleGraph) (m : Nat) :
    (g.getOutgoingConnection m).1 = outConns g m := by
  show (g._getModuleGraphModule m).1.outgoingConnections = _
  rw [getMGM_fst]
  rfl

theorem getIssuer_fst (g : ModuleGraph) (m : Nat) :
    (g.getIssuer m).1 = (mgmView g m).issuer := by
  show (g._getModuleGraphModule m).1.issuer = _
  rw [getMGM_fst]

theorem getOptimizationBailout_fst (g : ModuleGraph) (m : Nat) :
    (g.getOptimizationBailout m).1 = (mgmView g m).optimizationBailout := by
  show (g._getModuleGraphModule m).1.optimizationBailout = _
  rw [getMGM_fst]

theorem getUsedExports_fst (g : ModuleGraph) (m : Nat) :
    (g.getUsedExports m).1 = (mgmView g m).usedExports := by
  show (g._getModuleGraphModule m).1.usedExports = _
  rw [getMGM_fst]

theorem obsEq_getMGDstate (g : ModuleGraph) (d : Nat) :
    ObsEq (g._getModuleGraphDependency d).2 g :=
  ⟨fun d' => mgdView_getMGD g d d', fun m => mgmView_getMGDstate g d m,
    getMGD_snd_connHeap g d⟩

theorem obsEq_getMGMstate (g : ModuleGraph) (m : Nat) :
    ObsEq (g._getModuleGraphModule m).2 g :=
  ⟨fun d => mgdView_getMGMstate g m d, fun m' => mgmView_getMGM g m m',
    getMGM_snd_connHeap g m⟩

theorem runQuery_state_obs (g : ModuleGraph) (q : Query) :
    ObsEq (runQuery g q).2 g := by
  cases q with
  | getParentModule d => exact obsEq_getMGDstate g d
  | getParentBlock d => exact obsEq_getMGDstate g d
  | getResolvedModule d =>
    show ObsEq (g.getResolvedModule d).2 g
    simp only [ModuleGraph.getResolvedModule]
    cases (g._getModuleGraphDependency d).1.connection <;>
      exact obsEq_getMGDstate g d
  | getConnection d => exact obsEq_getMGDstate g d
  | getModule d =>
    show ObsEq (g.getModule d).2 g
    simp only [ModuleGraph.getModule]
    cases (g._getModuleGraphDependency d).1.connection <;>
      exact obsEq_getMGDstate g d
  | getOrigin d =>
    show ObsEq (g.getOrigin d).2 g
    simp only [ModuleGraph.getOrigin]
    cases (g._getModuleGraphDependency d).1.connection <;>
      exact obsEq_getMGDstate g d
  | getResolvedOrigin d =>
    show ObsEq (g.getResolvedOrigin d).2 g
    simp only [ModuleGraph.getResolvedOrigin]
    cases (g._getModuleGraphDependency d).1.connection <;>
      exact obsEq_getMGDstate g d
  | getIncomingConnections m => exact obsEq_getMGMstate g m
  | getOutgoingConnection m => exact obsEq_getMGMstate g m
  | getIssuer m => exact obsEq_getMGMstate g m
  | getOptimizationBailout m => exact obsEq_getMGMstate g m
  | getUsedExports m => exact obsEq_getMGMstate g m
  | getMeta k =>
    show ObsEq (g.getMeta k).2 g
    simp only [ModuleGraph.getMeta]
    cases assocGet g.metaMap k with
    | some u => exact ⟨fun _ => rfl, fun _ => rfl, rfl⟩
    | none => exact ⟨fun _ => rfl, fun _ => rfl, rfl⟩

theorem runQuery_result_congr (g g' : ModuleGraph) (q : Query) (h : ObsEq g g') :
    (runQuery g q).1 = (runQuery g' q).1 := by
  obtain ⟨hd, hm, hh⟩ := h
  have hcv : ∀ c, connView g c = connView g' c := by
    intro c
    unfold connView
    rw [hh]
  have hco : ∀ d, connOf g d = connOf g' d := by
    intro d
    unfold connOf
    rw [hd]
  cases q with
  | getParentModule d =>
    show QueryResult.opt (g.getParentModule d).1 = QueryResult.opt (g'.getParentModule d).1
    rw [getParentModule_fst, getParentModule_fst, hd]
  | getParentBlock d =>
    show QueryResult.opt (g.getParentBlock d).1 = QueryResult.opt (g'.getParentBlock d).1
    rw [getParentBlock_fst, getParentBlock_fst, hd]
  | getResolvedModule d =>
    show QueryResult.opt (g.getResolvedModule d).1 = QueryResult.opt (g'.getResolvedModule d).1
    rw [getResolvedModule_fst, getResolvedModule_fst, hco]
    cases connOf g' d with
    | none => rfl
    | some cid => simp [hcv]
  | getConnection d =>
    show QueryResult.opt (g.getConnection d).1 = QueryResult.opt (g'.getConnection d).1
    rw [getConnection_fst, getConnection_fst, hco]
  | getModule d =>
    show QueryResult.opt (g.getModule d).1 = QueryResult.opt (g'.getModule d).1
    rw [getModule_fst, getModule_fst, hco]
    cases connOf g' d with
    | none => rfl
    | some cid => simp [hcv]
  | getOrigin d =>
    show QueryResult.opt (g.getOrigin d).1 = QueryResult.opt (g'.getOrigin d).1
    rw [getOrigin_fst, getOrigin_fst, hco]
    cases connOf g' d with
    | none => rfl
    | some cid => simp [hcv]
  | getResolvedOrigin d =>
    show QueryResult.opt (g.getResolvedOrigin d).1 = QueryResult.opt (g'.getResolvedOrigin d).1
    rw [getResolvedOrigin_fst, getResolvedOrigin_fst, hco]
    cases connOf g' d with
    | none => rfl
    | some cid => simp [hcv]
  | getIncomingConnections m =>
    show QueryResult.conns (g.getIncomingConnections m).1 =
      QueryResult.conns (g'.getIncomingConnections m).1
    rw [getIncomingConnections_fst, getIncomingConnections_fst]
    unfold inConns
    rw [hm]
  | getOutgoingConnection m =>
    show QueryResult.conns (g.getOutgoingConnection m).1 =
      QueryResult.conns (g'.getOutgoingConnection m).1
    rw [getOutgoingConnection_fst, getOutgoingConnection_fst]
    unfold outConns
    rw [hm]
  | getIssuer m =>
    show QueryResult.opt (g.getIssuer m).1 = QueryResult.opt (g'.getIssuer m).1
    rw [getIssuer_fst, getIssuer_fst, hm]
  | getOptimizationBailout m =>
    show QueryResult.bailout (g.getOptimizationBailout m).1 =
      QueryResult.bailout (g'.getOptimizationBailout m).1
    rw [getOptimizationBailout_fst, getOptimizationBailout_fst, hm]
  | getUsedExports m =>
    show QueryResult.used (g.getUsedExports m).1 = QueryResult.used (g'.getUsedExports m).1
    rw [getUsedExports_fst, getUsedExports_fst, hm]
  | getMeta k => rfl

/-- C10: every ModuleGraph query operation (`getParentModule`, `getParentBlock`,
`getModule`, `getOrigin`, `getResolvedModule`, `getResolvedOrigin`, `getConnection`,
`getIncomingConnections`, `getOutgoingConnection`, `getIssuer`,
`getOptimizationBailout`, `getUsedExports`, `getMeta`) is observationally pure:
although a query on a never-touched key lazily inserts a fresh empty default record
into the graph's internal maps, for every graph state and pair of queries (over every
key), running one query first leaves the result of any subsequent query unchanged. -/
theorem c10_queries_observationally_pure (g : ModuleGraph) (q1 q2 : Query) :
    (runQuery (runQuery g q1).2 q2).1 = (runQuery g q2).1 :=
  runQuery_result_congr _ _ q2 (runQuery_state_obs g q1)

/-!
## Frame lemmas for `replaceModule` (map components it never touches)
-/

theorem foldl_pres {σ α : Type} (f : σ → α → σ) (P : σ → Prop)
    (h : ∀ s a, P s → P (f s a)) : ∀ (l : List α) (s : σ), P s → P (l.foldl f s) := by
  intro l
  induction l with
  | nil => intro s hs; exact hs
  | cons a rest ih => intro s hs; exact ih _ (h s a hs)

theorem rOutStep_dependencyMap (n : Nat) (pred : ModuleGraphConnection → Bool)
    (o : Nat) (s : ModuleGraph) (c : Nat) :
    (ModuleGraph.replaceOutgoingStep n pred o s c).dependencyMap = s.dependencyMap := by
  unfold ModuleGraph.replaceOutgoingStep
  cases assocGet s.connHeap c with
  | none => rfl
  | some conn =>
    by_cases hp : pred conn <;> simp [hp, modifyMGM_dependencyMap]

theorem rInStep_dependencyMap (n : Nat) (pred : ModuleGraphConnection → Bool)
    (o : Nat) (s : ModuleGraph) (c : Nat) :
    (ModuleGraph.replaceIncomingStep n pred o s c).dependencyMap = s.dependencyMap := by
  unfold ModuleGraph.replaceIncomingStep
  cases assocGet s.connHeap c with
  | none => rfl
  | some conn =>
    by_cases hp : pred conn <;> simp [hp, modifyMGM_dependencyMap]

theorem rOutStep_nextConnId (n : Nat) (pred : ModuleGraphConnection → Bool)
    (o : Nat) (s : ModuleGraph) (c : Nat) :
    (ModuleGraph.replaceOutgoingStep n pred o s c).nextConnId = s.nextConnId := by
  unfold ModuleGraph.replaceOutgoingStep
  cases assocGet s.connHeap c with
  | none => rfl
  | some conn =>
    by_cases hp : pred conn <;> simp [hp, modifyMGM_nextConnId]

theorem rInStep_nextConnId (n : Nat) (pred : ModuleGraphConnection → Bool)
    (o : Nat) (s : ModuleGraph) (c : Nat) :
    (ModuleGraph.replaceIncomingStep n pred o s c).nextConnId = s.nextConnId := by
  unfold ModuleGraph.replaceIncomingStep
  cases assocGet s.connHeap c with
  | none => rfl
  | some conn =>
    by_cases hp : pred conn <;> simp [hp, modifyMGM_nextConnId]

theorem rOutStep_usedExports (n : Nat) (pred : ModuleGraphConnection → Bool)
    (o : Nat) (s : ModuleGraph) (c : Nat) (x : Nat) :
    (mgmView (ModuleGraph.replaceOutgoingStep n pred o s c) x).usedExports =
      (mgmView s x).usedExports := by
  unfold ModuleGraph.replaceOutgoingStep
  cases assocGet s.connHeap c with
  | none => rfl
  | some conn =>
    by_cases hp : pred conn
    · by_cases hxn : x = n <;> by_cases hxo : x = o <;>
        simp [hp, mgmView_modifyMGM, mgmView_updateHeap, hxn, hxo] <;>
        (try split_ifs) <;> simp_all
    · simp [hp]

theorem rInStep_usedExports (n : Nat) (pred : ModuleGraphConnection → Bool)
    (o : Nat) (s : ModuleGraph) (c : Nat) (x : Nat) :
    (mgmView (ModuleGraph.replaceIncomingStep n pred o s c) x).usedExports =
      (mgmView s x).usedExports := by
  unfold ModuleGraph.replaceIncomingStep
  cases assocGet s.connHeap c with
  | none => rfl
  | some conn =>
    by_cases hp : pred conn
    · by_cases hxn : x = n <;> by_cases hxo : x = o <;>
        simp [hp, mgmView_modifyMGM, mgmView_updateHeap, hxn, hxo] <;>
        (try split_ifs) <;> simp_all
    · simp [hp]

theorem replaceModule_dependencyMap (g : ModuleGraph) (o n : Nat)
    (pred : ModuleGraphConnection → Bool) :
    (g.replaceModule o n pred).dependencyMap = g.dependencyMap := by
  unfold ModuleGraph.replaceModule
  by_cases h : o = n
  · simp [h]
  · simp only [if_neg h]
    have h1 : ∀ (l : List Nat) (s : ModuleGraph), s.dependencyMap = g.dependencyMap →
        (l.foldl (ModuleGraph.replaceOutgoingStep n pred o) s).dependencyMap =
          g.dependencyMap :=
      fun l s hs => foldl_pres (ModuleGraph.replaceOutgoingStep n pred o)
        (fun s => s.dependencyMap = g.dependencyMap)
        (fun s a ha => by
          show (ModuleGraph.replaceOutgoingStep n pred o s a).dependencyMap = _
          rw [rOutStep_dependencyMap]
          exact ha) l s hs
    have h2 : ∀ (l : List Nat) (s : ModuleGraph), s.dependencyMap = g.dependencyMap →
        (l.foldl (ModuleGraph.replaceIncomingStep n pred o) s).dependencyMap =
          g.dependencyMap :=
      fun l s hs => foldl_pres (ModuleGraph.replaceIncomingStep n pred o)
        (fun s => s.dependencyMap = g.dependencyMap)
        (fun s a ha => by
          show (ModuleGraph.replaceIncomingStep n pred o s a).dependencyMap = _
          rw [rInStep_dependencyMap]
          exact ha) l s hs
    apply h2
    apply h1
    rw [getMGM_snd_dependencyMap, getMGM_snd_dependencyMap]

theorem replaceModule_connOf (g : ModuleGraph) (o n : Nat)
    (pred : ModuleGraphConnection → Bool) (d : Nat) :
    connOf (g.replaceModule o n pred) d = connOf g d := by
  unfold connOf mgdView
  rw [replaceModule_dependencyMap]

theorem replaceModule_nextConnId (g : ModuleGraph) (o n : Nat)
    (pred : ModuleGraphConnection → Bool) :
    (g.replaceModule o n pred).nextConnId = g.nextConnId := by
  unfold ModuleGraph.replaceModule
  by_cases h : o = n
  · simp [h]
  · simp only [if_neg h]
    have h1 : ∀ (l : List Nat) (s : ModuleGraph), s.nextConnId = g.nextConnId →
        (l.foldl (ModuleGraph.replaceOutgoingStep n pred o) s).nextConnId =
          g.nextConnId :=
      fun l s hs => foldl_pres (ModuleGraph.replaceOutgoingStep n pred o)
        (fun s => s.nextConnId = g.nextConnId)
        (fun s a ha => by
          show (ModuleGraph.replaceOutgoingStep n pred o s a).nextConnId = _
          rw [rOutStep_nextConnId]
          exact ha) l s hs
    have h2 : ∀ (l : List Nat) (s : ModuleGraph), s.nextConnId = g.nextConnId →
        (l.foldl (ModuleGraph.replaceIncomingStep n pred o) s).nextConnId =
          g.nextConnId :=
      fun l s hs => foldl_pres (ModuleGraph.replaceIncomingStep n pred o)
        (fun s => s.nextConnId = g.nextConnId)
        (fun s a ha => by
          show (ModuleGraph.replaceIncomingStep n pred o s a).nextConnId = _
          rw [rInStep_nextConnId]
          exact ha) l s hs
    apply h2
    apply h1
    rw [getMGM_snd_nextConnId, getMGM_snd_nextConnId]

theorem replaceModule_usedExports (g : ModuleGraph) (o n : Nat)
    (pred : ModuleGraphConnection → Bool) (x : Nat) :
    (mgmView (g.replaceModule o n pred) x).usedExports = (mgmView g x).usedExports := by
  unfold ModuleGraph.replaceModule
  by_cases h : o = n
  · simp [h]
  · simp only [if_neg h]
    have h1 : ∀ (l : List Nat) (s : ModuleGraph),
        (∀ y, (mgmView s y).usedExports = (mgmView g y).usedExports) →
        (∀ y, (mgmView (l.foldl (ModuleGraph.replaceOutgoingStep n pred o) s) y).usedExports =
          (mgmView g y).usedExports) :=
      fun l s hs => foldl_pres (ModuleGraph.replaceOutgoingStep n pred o)
        (fun s => ∀ y, (mgmView s y).usedExports = (mgmView g y).usedExports)
        (fun s a ha y => by rw [rOutStep_usedExports]; exact ha y) l s hs
    have h2 : ∀ (l : List Nat) (s : ModuleGraph),
        (∀ y, (mgmView s y).usedExports = (mgmView g y).usedExports) →
        (∀ y, (mgmView (l.foldl (ModuleGraph.replaceIncomingStep n pred o) s) y).usedExports =
          (mgmView g y).usedExports) :=
      fun l s hs => foldl_pres (ModuleGraph.replaceIncomingStep n pred o)
        (fun s => ∀ y, (mgmView s y).usedExports = (mgmView g y).usedExports)
        (fun s a ha y => by rw [rInStep_usedExports]; exact ha y) l s hs
    apply h2
    apply h1
    intro y
    rw [mgmView_getMGM, mgmView_getMGM]

theorem updateModule_noheap (g : ModuleGraph) (d m cid : Nat)
    (hc : connOf g d = some cid) (hh : connView g cid = none) :
    g.updateModule d m = none := by
  have hc' : (mgdView g d).connection = some cid := hc
  have hh' : assocGet g.connHeap cid = none := hh
  unfold ModuleGraph.updateModule
  rw [getMGD_of_connOf hc]
  simp [hc', hh']

theorem addExplanation_noheap (g : ModuleGraph) (d : Nat) (e : String) (cid : Nat)
    (hc : connOf g d = some cid) (hh : connView g cid = none) :
    g.addExplanation d e = none := by
  have hc' : (mgdView g d).connection = some cid := hc
  have hh' : assocGet g.connHeap cid = none := hh
  unfold ModuleGraph.addExplanation
  rw [getMGD_of_connOf hc]
  simp [hc', hh']

/-!
## Trace lemmas: properties preserved along runs
-/

theorem run_connOf_none (d : Nat) :
    ∀ (ops : List Op) (g g' : ModuleGraph), run g ops = some g' →
      (∀ op ∈ ops, isSrmFor d op = false) → connOf g d = none → connOf g' d = none := by
  intro ops
  induction ops with
  | nil =>
    intro g g' hrun _ hc
    simp only [run, Option.some.injEq] at hrun
    rw [← hrun]
    exact hc
  | cons op rest ih =>
    intro g g' hrun hno hc
    have hrest : ∀ o ∈ rest, isSrmFor d o = false :=
      fun o ho => hno o (List.mem_cons_of_mem _ ho)
    cases hop : applyOp g op with
    | none => simp only [run, hop] at hrun; cases hrun
    | some g1 =>
      simp only [run, hop] at hrun
      refine ih g1 g' hrun hrest ?_
      cases op with
      | setParents d' b m' =>
        simp only [applyOp, Option.some.injEq] at hop
        rw [← hop, setParents_connOf]
        exact hc
      | setResolvedModule o d' m' =>
        have hd' := hno _ (List.mem_cons_self _ _)
        simp only [isSrmFor, decide_eq_false_iff_not] at hd'
        simp only [applyOp, Option.some.injEq] at hop
        rw [← hop, srm_connOf, if_neg (fun hdd => hd' (hdd.symm))]
        exact hc
      | updateModule d' m' =>
        simp only [applyOp] at hop
        cases hcd : connOf g d' with
        | none => rw [updateModule_none g d' m' hcd] at hop; cases hop
        | some cid =>
          cases hcv : connView g cid with
          | none => rw [updateModule_noheap g d' m' cid hcd hcv] at hop; cases hop
          | some conn =>
            by_cases hsm : conn.module = m'
            · rw [updateModule_same g d' m' cid conn hcd hcv hsm] at hop
              injection hop with h1
              rw [← h1]
              exact hc
            · obtain ⟨g'', heq, _, _, hconnOf, _, _, _⟩ :=
                updateModule_spec g d' m' cid conn hcd hcv hsm
              rw [heq] at hop
              injection hop with h1
              rw [← h1, hconnOf]
              exact hc
      | addExplanation d' e =>
        simp only [applyOp] at hop
        cases hcd : connOf g d' with
        | none => rw [addExplanation_none g d' e hcd] at hop; cases hop
        | some cid =>
          cases hcv : connView g cid with
          | none => rw [addExplanation_noheap g d' e cid hcd hcv] at hop; cases hop
          | some conn =>
            obtain ⟨g'', heq, _, _, hconnOf, _, _, _⟩ :=
              addExplanation_spec g d' e cid conn hcd hcv
            rw [heq] at hop
            injection hop with h1
            rw [← h1, hconnOf]
            exact hc
      | replaceModule o n pred =>
        simp only [applyOp, Option.some.injEq] at hop
        rw [← hop, replaceModule_connOf]
        exact hc
      | addExtraReason m' e =>
        simp only [applyOp, Option.some.injEq] at hop
        rw [← hop, aer_connOf]
        exact hc
      | setIssuer m' i =>
        simp only [applyOp, Option.some.injEq] at hop
        rw [← hop, setIssuer_connOf]
        exact hc
      | setUsedExports m' u =>
        simp only [applyOp, Option.some.injEq] at hop
        rw [← hop, setUsedExports_connOf]
        exact hc

theorem run_usedExports_none (m : Nat) :
    ∀ (ops : List Op) (g g' : ModuleGraph), run g ops = some g' →
      (∀ op ∈ ops, isSetUsedExportsFor m op = false) →
      (mgmView g m).usedExports = none → (mgmView g' m).usedExports = none := by
  intro ops
  induction ops with
  | nil =>
    intro g g' hrun _ hc
    simp only [run, Option.some.injEq] at hrun
    rw [← hrun]
    exact hc
  | cons op rest ih =>
    intro g g' hrun hno hc
    have hrest : ∀ o ∈ rest, isSetUsedExportsFor m o = false :=
      fun o ho => hno o (List.mem_cons_of_mem _ ho)
    cases hop : applyOp g op with
    | none => simp only [run, hop] at hrun; cases hrun
    | some g1 =>
      simp only [run, hop] at hrun
      refine ih g1 g' hrun hrest ?_
      cases op with
      | setParents d' b m' =>
        simp only [applyOp, Option.some.injEq] at hop
        rw [← hop, setParents_mgmView]
        exact hc
      | setResolvedModule o d' m' =>
        simp only [applyOp, Option.some.injEq] at hop
        rw [← hop, srm_usedExports]
        exact hc
      | updateModule d' m' =>
        simp only [applyOp] at hop
        cases hcd : connOf g d' with
        | none => rw [updateModule_none g d' m' hcd] at hop; cases hop
        | some cid =>
          cases hcv : connView g cid with
          | none => rw [updateModule_noheap g d' m' cid hcd hcv] at hop; cases hop
          | some conn =>
            by_cases hsm : conn.module = m'
            · rw [updateModule_same g d' m' cid conn hcd hcv hsm] at hop
              injection hop with h1
              rw [← h1]
              exact hc
            · obtain ⟨g'', heq, _, _, _, _, _, hue⟩ :=
                updateModule_spec g d' m' cid conn hcd hcv hsm
              rw [heq] at hop
              injection hop with h1
              rw [← h1, hue]
              exact hc
      | addExplanation d' e =>
        simp only [applyOp] at hop
        cases hcd : connOf g d' with
        | none => rw [addExplanation_none g d' e hcd] at hop; cases hop
        | some cid =>
          cases hcv : connView g cid with
          | none => rw [addExplanation_noheap g d' e cid hcd hcv] at hop; cases hop
          | some conn =>
            obtain ⟨g'', heq, _, _, _, _, _, hue⟩ :=
              addExplanation_spec g d' e cid conn hcd hcv
            rw [heq] at hop
            injection hop with h1
            rw [← h1, hue]
            exact hc
      | replaceModule o n pred =>
        simp only [applyOp, Option.some.injEq] at hop
        rw [← hop, replaceModule_usedExports]
        exact hc
      | addExtraReason m' e =>
        simp only [applyOp, Option.some.injEq] at hop
        rw [← hop, aer_usedExports]
        exact hc
      | setIssuer m' i =>
        simp only [applyOp, Option.some.injEq] at hop
        rw [← hop]
        rw [setIssuer_mgmView]
        by_cases hx : m = m'
        · subst hx
          simpa using hc
        · simpa [hx] using hc
      | setUsedExports m' u =>
        have hd' := hno _ (List.mem_cons_self _ _)
        simp only [isSetUsedExportsFor, decide_eq_false_iff_not] at hd'
        simp only [applyOp, Option.some.injEq] at hop
        rw [← hop, setUsedExports_mgmView, if_neg (fun hdd => hd' (hdd.symm))]
        exact hc

/-- C7: for every dependency `d` on which `setResolvedModule` has never been called
(in any reachable graph), `updateModule(d, m)` and `addExplanation(d, s)` fail with a
"no connection" (null-dereference class) error — modelled as `none` — rather than
silently no-opping, whereas the query operations do not raise and return defaults:
`getModule(d) == null`, `getOrigin(d) == null`, `getConnection(d) == undefined`. -/
theorem c7_untouched_dependency_failure_semantics (ops : List Op) (g : ModuleGraph)
    (d m : Nat) (e : String) (hrun : run emptyModuleGraph ops = some g)
    (hno : ∀ op ∈ ops, isSrmFor d op = false) :
    g.updateModule d m = none ∧ g.addExplanation d e = none ∧
      (g.getModule d).1 = none ∧ (g.getOrigin d).1 = none ∧
      (g.getConnection d).1 = none := by
  have hc : connOf g d = none := run_connOf_none d ops emptyModuleGraph g hrun hno rfl
  refine ⟨updateModule_none g d m hc, addExplanation_none g d e hc, ?_, ?_, ?_⟩
  · rw [getModule_fst, hc]
  · rw [getOrigin_fst, hc]
  · rw [getConnection_fst, hc]

/-- Witness for C7 at a concrete trace: one resolved dependency (1), queried
dependency 5 never resolved. -/
theorem c7_untouched_dependency_failure_semantics_witness :
    ((run emptyModuleGraph [Op.setResolvedModule 0 1 2]).getD
        emptyModuleGraph).updateModule 5 7 = none ∧
      ((run emptyModuleGraph [Op.setResolvedModule 0 1 2]).getD
        emptyModuleGraph).addExplanation 5 "why" = none ∧
      (((run emptyModuleGraph [Op.setResolvedModule 0 1 2]).getD
        emptyModuleGraph).getModule 5).1 = none ∧
      (((run emptyModuleGraph [Op.setResolvedModule 0 1 2]).getD
        emptyModuleGraph).getOrigin 5).1 = none ∧
      (((run emptyModuleGraph [Op.setResolvedModule 0 1 2]).getD
        emptyModuleGraph).getConnection 5).1 = none :=
  c7_untouched_dependency_failure_semantics [Op.setResolvedModule 0 1 2] _ 5 7 "why"
    (by rfl) (by decide)

/-- C9: for every module never passed to `setUsedExports`, `getUsedExports` returns
the `unknown` default (`null`); and after `setUsedExports(m, false)`,
`getUsedExports(m)` returns exactly the value `false` — not an empty set and not
`true` — so the four usage states stay distinguishable through the accessor pair. -/
theorem c9_used_exports_states (ops : List Op) (g : ModuleGraph) (m : Nat)
    (hrun : run emptyModuleGraph ops = some g)
    (hno : ∀ op ∈ ops, isSetUsedExportsFor m op = false) :
    (g.getUsedExports m).1 = none ∧
      ((g.setUsedExports m UsedExports.valFalse).getUsedExports m).1 =
        some UsedExports.valFalse ∧
      some UsedExports.valFalse ≠ some (UsedExports.names []) ∧
      some UsedExports.valFalse ≠ some UsedExports.valTrue := by
  refine ⟨?_, ?_, by decide, by decide⟩
  · rw [getUsedExports_fst]
    exact run_usedExports_none m ops emptyModuleGraph g hrun hno rfl
  · rw [getUsedExports_fst, setUsedExports_mgmView]
    simp

/-- Witness for C9 at a concrete trace: module 3 gets `setUsedExports true`, module 9
is never touched by `setUsedExports`. -/
theorem c9_used_exports_states_witness :
    (((run emptyModuleGraph
        [Op.setUsedExports 3 UsedExports.valTrue, Op.setResolvedModule 0 1 2]).getD
        emptyModuleGraph).getUsedExports 9).1 = none ∧
      ((((run emptyModuleGraph
        [Op.setUsedExports 3 UsedExports.valTrue, Op.setResolvedModule 0 1 2]).getD
        emptyModuleGraph).setUsedExports 9 UsedExports.valFalse).getUsedExports 9).1 =
        some UsedExports.valFalse ∧
      some UsedExports.valFalse ≠ some (UsedExports.names []) ∧
      some UsedExports.valFalse ≠ some UsedExports.valTrue :=
  c9_used_exports_states
    [Op.setUsedExports 3 UsedExports.valTrue, Op.setResolvedModule 0 1 2] _ 9
    (by rfl) (by decide)

theorem boundedMGb_inConns {g : ModuleGraph} (hb : boundedMGb g = true) :
    ∀ x c, c ∈ inConns g x → c < g.nextConnId := by
  intro x c hc
  unfold inConns mgmView at hc
  cases ha : assocGet g.moduleMap x with
  | none => rw [ha] at hc; simp [emptyMGM] at hc
  | some mgm =>
    rw [ha] at hc
    simp only [Option.getD_some] at hc
    have hmem := assocGet_mem ha
    simp only [boundedMGb, Bool.and_eq_true, List.all_eq_true, decide_eq_true_eq] at hb
    exact (hb.1.1 _ hmem).1 c hc

theorem boundedMGb_outConns {g : ModuleGraph} (hb : boundedMGb g = true) :
    ∀ x c, c ∈ outConns g x → c < g.nextConnId := by
  intro x c hc
  unfold outConns mgmView at hc
  cases ha : assocGet g.moduleMap x with
  | none => rw [ha] at hc; simp [emptyMGM] at hc
  | some mgm =>
    rw [ha] at hc
    simp only [Option.getD_some] at hc
    have hmem := assocGet_mem ha
    simp only [boundedMGb, Bool.and_eq_true, List.all_eq_true, decide_eq_true_eq] at hb
    exact (hb.1.1 _ hmem).2 c hc

/-- C6: in a graph where `setResolvedModule(A, d, B)` has installed connection `c`
for dependency `d`, `updateModule(d, C)` with `C ≠ B` removes `c` from `B`'s incoming
set, makes `c` present exactly once in `C`'s incoming set, sets `getModule(d)` to
`C`, and leaves `A`'s outgoing set membership unchanged; `updateModule(d, B)` (the
already-current target) changes nothing.  The starting graph is arbitrary but
well-bounded (all stored connection ids below the allocation counter). -/
theorem c6_update_module_moves_connection (g : ModuleGraph) (A d B C : Nat)
    (hb : boundedMGb g = true) (hTarget : C ≠ B) :
    (∃ g2, (g.setResolvedModule A d B).updateModule d C = some g2 ∧
      g.nextConnId ∉ inConns g2 B ∧
      (inConns g2 C).count g.nextConnId = 1 ∧
      (g2.getModule d).1 = some C ∧
      outConns g2 A = outConns (g.setResolvedModule A d B) A) ∧
    (g.setResolvedModule A d B).updateModule d B = some (g.setResolvedModule A d B) := by
  set g1 := g.setResolvedModule A d B with hg1
  set cid := g.nextConnId with hcid
  have hconnOf : connOf g1 d = some cid := by
    rw [hg1, srm_connOf]
    simp
  have hconnView : connView g1 cid = some (mkConnection (some A) (some d) B none) := by
    rw [hg1, srm_connView]
    simp
  have hmod : (mkConnection (some A) (some d) B none).module = B := rfl
  constructor
  · have hne : (mkConnection (some A) (some d) B none).module ≠ C := by
      rw [hmod]
      exact fun h => hTarget h.symm
    obtain ⟨g2, heq, hnext, hcv, hco, hin, hout, hue⟩ :=
      updateModule_spec g1 d C cid (mkConnection (some A) (some d) B none)
        hconnOf hconnView hne
    refine ⟨g2, heq, ?_, ?_, ?_, ?_⟩
    · rw [hin B]
      rw [if_neg (fun h => hTarget h.symm), hmod, if_pos rfl]
      exact not_mem_setDelete_self
    · rw [hin C, if_pos rfl]
      have hCB' : inConns g1 C = inConns g C := by
        rw [hg1, srm_inConns, if_neg hTarget]
      have hfresh : cid ∉ inConns g C := by
        intro hmem
        exact lt_irrefl _ (boundedMGb_inConns hb C cid hmem)
      rw [hCB', setAdd_of_not_mem hfresh]
      simp [List.count_append, List.count_eq_zero.mpr hfresh]
    · rw [getModule_fst, hco d, hconnOf]
      simp only [hcv cid, if_pos rfl]
      rfl
    · exact hout A
  · exact updateModule_same g1 d B cid (mkConnection (some A) (some d) B none)
      hconnOf hconnView hmod

/-- Witness for C6 at the empty graph with `A = 0`, `d = 0`, `B = 1`, `C = 2`. -/
theorem c6_update_module_moves_connection_witness :
    ((∃ g2, ((emptyModuleGraph.setResolvedModule 0 0 1).updateModule 0 2 = some g2) ∧
      emptyModuleGraph.nextConnId ∉ inConns g2 1 ∧
      (inConns g2 2).count emptyModuleGraph.nextConnId = 1 ∧
      (g2.getModule 0).1 = some 2 ∧
      outConns g2 0 = outConns (emptyModuleGraph.setResolvedModule 0 0 1) 0) ∧
    (emptyModuleGraph.setResolvedModule 0 0 1).updateModule 0 1 =
      some (emptyModuleGraph.setResolvedModule 0 0 1)) :=
  c6_update_module_moves_connection emptyModuleGraph 0 0 1 2 (by decide) (by decide)

/-!
## Characterization of the two `replaceModule` loops
-/

theorem rOutStep_eff (n o : Nat) (pred : ModuleGraphConnection → Bool) (hon : o ≠ n)
    (s : ModuleGraph) (c0 : Nat) (conn : ModuleGraphConnection)
    (hcv : connView s c0 = some conn) (hp : pred conn = true) :
    (∀ c, connView (ModuleGraph.replaceOutgoingStep n pred o s c0) c =
      if c = c0 then some { conn with originModule := some n } else connView s c) ∧
    (∀ x, inConns (ModuleGraph.replaceOutgoingStep n pred o s c0) x = inConns s x) ∧
    outConns (ModuleGraph.replaceOutgoingStep n pred o s c0) o =
      setDelete (outConns s o) c0 ∧
    outConns (ModuleGraph.replaceOutgoingStep n pred o s c0) n =
      setAdd (outConns s n) c0 ∧
    (∀ x, x ≠ o → x ≠ n → outConns (ModuleGraph.replaceOutgoingStep n pred o s c0) x =
      outConns s x) := by
  have hcv' : assocGet s.connHeap c0 = some conn := hcv
  unfold ModuleGraph.replaceOutgoingStep
  rw [hcv']
  simp only [hp, if_pos]
  refine ⟨?_, ?_, ?_, ?_, ?_⟩
  · intro c
    rw [connView_modifyMGM, connView_modifyMGM]
    by_cases hcc : c = c0
    · subst hcc
      simp [connView, assocGet_assocSet_self]
    · simp [connView, assocGet_assocSet_ne _ _ _ _ hcc, hcc]
  · intro x
    by_cases hxo : x = o <;> by_cases hxn : x = n <;>
      simp [inConns, mgmView_modifyMGM, mgmView_updateHeap, hxo, hxn] <;>
      (try split_ifs) <;> simp_all
  · simp [outConns, mgmView_modifyMGM, mgmView_updateHeap, hon, Ne.symm hon]
  · simp [outConns, mgmView_modifyMGM, mgmView_updateHeap, hon, Ne.symm hon]
  · intro x hxo hxn
    simp [outConns, mgmView_modifyMGM, mgmView_updateHeap, hxo, hxn]

theorem rOutStep_skip (n o : Nat) (pred : ModuleGraphConnection → Bool)
    (s : ModuleGraph) (c0 : Nat) (conn : ModuleGraphConnection)
    (hcv : connView s c0 = some conn) (hp : pred conn = false) :
    ModuleGraph.replaceOutgoingStep n pred o s c0 = s := by
  have hcv' : assocGet s.connHeap c0 = some conn := hcv
  unfold ModuleGraph.replaceOutgoingStep
  rw [hcv']
  simp [hp]

theorem rInStep_eff (n o : Nat) (pred : ModuleGraphConnection → Bool) (hon : o ≠ n)
    (s : ModuleGraph) (c0 : Nat) (conn : ModuleGraphConnection)
    (hcv : connView s c0 = some conn) (hp : pred conn = true) :
    (∀ c, connView (ModuleGraph.replaceIncomingStep n pred o s c0) c =
      if c = c0 then some { conn with module := n } else connView s c) ∧
    (∀ x, outConns (ModuleGraph.replaceIncomingStep n pred o s c0) x = outConns s x) ∧
    inConns (ModuleGraph.replaceIncomingStep n pred o s c0) o =
      setDelete (inConns s o) c0 ∧
    inConns (ModuleGraph.replaceIncomingStep n pred o s c0) n =
      setAdd (inConns s n) c0 ∧
    (∀ x, x ≠ o → x ≠ n → inConns (ModuleGraph.replaceIncomingStep n pred o s c0) x =
      inConns s x) := by
  have hcv' : assocGet s.connHeap c0 = some conn := hcv
  unfold ModuleGraph.replaceIncomingStep
  rw [hcv']
  simp only [hp, if_pos]
  refine ⟨?_, ?_, ?_, ?_, ?_⟩
  · intro c
    rw [connView_modifyMGM, connView_modifyMGM]
    by_cases hcc : c = c0
    · subst hcc
      simp [connView, assocGet_assocSet_self]
    · simp [connView, assocGet_assocSet_ne _ _ _ _ hcc, hcc]
  · intro x
    by_cases hxo : x = o <;> by_cases hxn : x = n <;>
      simp [outConns, mgmView_modifyMGM, mgmView_updateHeap, hxo, hxn] <;>
      (try split_ifs) <;> simp_all
  · simp [inConns, mgmView_modifyMGM, mgmView_updateHeap, hon, Ne.symm hon]
  · simp [inConns, mgmView_modifyMGM, mgmView_updateHeap, hon, Ne.symm hon]
  · intro x hxo hxn
    simp [inConns, mgmView_modifyMGM, mgmView_updateHeap, hxo, hxn]

theorem rInStep_skip (n o : Nat) (pred : ModuleGraphConnection → Bool)
    (s : ModuleGraph) (c0 : Nat) (conn : ModuleGraphConnection)
    (hcv : connView s c0 = some conn) (hp : pred conn = false) :
    ModuleGraph.replaceIncomingStep n pred o s c0 = s := by
  have hcv' : assocGet s.connHeap c0 = some conn := hcv
  unfold ModuleGraph.replaceIncomingStep
  rw [hcv']
  simp [hp]

theorem rOutFold_spec (n o : Nat) (pred : ModuleGraphConnection → Bool) (hon : o ≠ n)
    (H : Nat → ModuleGraphConnection) :
    ∀ (l : List Nat) (s : ModuleGraph), l.Nodup →
      (∀ c ∈ l, connView s c = some (H c)) →
      (∀ c ∈ l, pred (H c) = true →
        connView (l.foldl (ModuleGraph.replaceOutgoingStep n pred o) s) c =
          some { H c with originModule := some n }) ∧
      (∀ c, c ∉ l →
        connView (l.foldl (ModuleGraph.replaceOutgoingStep n pred o) s) c = connView s c) ∧
      (∀ c ∈ l, pred (H c) = false →
        connView (l.foldl (ModuleGraph.replaceOutgoingStep n pred o) s) c = connView s c) ∧
      (∀ x, inConns (l.foldl (ModuleGraph.replaceOutgoingStep n pred o) s) x = inConns s x) ∧
      (outConns (l.foldl (ModuleGraph.replaceOutgoingStep n pred o) s) o =
        (outConns s o).filter (fun c => !(decide (c ∈ l) && pred (H c)))) ∧
      (∀ x, x ∈ outConns (l.foldl (ModuleGraph.replaceOutgoingStep n pred o) s) n ↔
        x ∈ outConns s n ∨ (x ∈ l ∧ pred (H x) = true)) ∧
      (∀ x, x ≠ o → x ≠ n →
        outConns (l.foldl (ModuleGraph.replaceOutgoingStep n pred o) s) x = outConns s x) ∧
      ((outConns s n).Nodup →
        (outConns (l.foldl (ModuleGraph.replaceOutgoingStep n pred o) s) n).Nodup) := by
  intro l
  induction l with
  | nil =>
    intro s _ _
    refine ⟨?_, ?_, ?_, ?_, ?_, ?_, ?_, ?_⟩ <;> simp
  | cons c0 rest ih =>
    intro s hnd hH
    have hc0 : connView s c0 = some (H c0) := hH c0 (List.mem_cons_self _ _)
    have hndr : rest.Nodup := hnd.of_cons
    have hc0r : c0 ∉ rest := (List.nodup_cons.mp hnd).1
    by_cases hp : pred (H c0) = true
    · obtain ⟨e1, e2, e3, e4, e5⟩ := rOutStep_eff n o pred hon s c0 (H c0) hc0 hp
      set s1 := ModuleGraph.replaceOutgoingStep n pred o s c0 with hs1
      have hH1 : ∀ c ∈ rest, connView s1 c = some (H c) := by
        intro c hcr
        rw [e1 c, if_neg (fun h : c = c0 => hc0r (h ▸ hcr))]
        exact hH c (List.mem_cons_of_mem _ hcr)
      obtain ⟨ih1, ih2, ih3, ih4, ih5, ih6, ih7, ih8⟩ := ih s1 hndr hH1
      rw [List.foldl_cons]
      refine ⟨?_, ?_, ?_, ?_, ?_, ?_, ?_, ?_⟩
      · intro c hc hq
        rcases List.mem_cons.mp hc with rfl | hcr
        · rw [ih2 c hc0r, e1 c, if_pos rfl]
        · exact ih1 c hcr hq
      · intro c hc
        have hcr : c ∉ rest := fun h => hc (List.mem_cons_of_mem _ h)
        have hcc0 : c ≠ c0 := fun h : c = c0 => hc (h ▸ List.mem_cons_self _ _)
        rw [ih2 c hcr, e1 c, if_neg hcc0]
      · intro c hc hq
        rcases List.mem_cons.mp hc with rfl | hcr
        · rw [hq] at hp; cases hp
        · have hcc0 : c ≠ c0 := fun h : c = c0 => hc0r (h ▸ hcr)
          rw [ih3 c hcr hq, e1 c, if_neg hcc0]
      · intro x
        rw [ih4 x, e2 x]
      · rw [ih5, e3]
        have : setDelete (outConns s o) c0 =
            (outConns s o).filter (fun x => decide (x ≠ c0)) := rfl
        rw [this, List.filter_filter]
        apply List.filter_congr
        intro x _
        by_cases hx : x = c0
        · subst hx
          simp [hp]
        · simp [hx, List.mem_cons]
      · intro x
        rw [ih6 x, e4, mem_setAdd]
        constructor
        · rintro ((hx | rfl) | hx)
          · exact Or.inl hx
          · exact Or.inr ⟨List.mem_cons_self _ _, hp⟩
          · exact Or.inr ⟨List.mem_cons_of_mem _ hx.1, hx.2⟩
        · rintro (hx | ⟨hmem, hq⟩)
          · exact Or.inl (Or.inl hx)
          · rcases List.mem_cons.mp hmem with rfl | hmem'
            · exact Or.inl (Or.inr rfl)
            · exact Or.inr ⟨hmem', hq⟩
      · intro x hxo hxn
        rw [ih7 x hxo hxn, e5 x hxo hxn]
      · intro hnodup
        apply ih8
        rw [e4]
        exact setAdd_nodup hnodup
    · have hp' : pred (H c0) = false := by
        cases hpv : pred (H c0)
        · rfl
        · rw [hpv] at hp; cases hp rfl
      have hskip : ModuleGraph.replaceOutgoingStep n pred o s c0 = s :=
        rOutStep_skip n o pred s c0 (H c0) hc0 hp'
      have hHr : ∀ c ∈ rest, connView s c = some (H c) :=
        fun c hcr => hH c (List.mem_cons_of_mem _ hcr)
      obtain ⟨ih1, ih2, ih3, ih4, ih5, ih6, ih7, ih8⟩ := ih s hndr hHr
      rw [List.foldl_cons, hskip]
      refine ⟨?_, ?_, ?_, ?_, ?_, ?_, ?_, ?_⟩
      · intro c hc hq
        rcases List.mem_cons.mp hc with rfl | hcr
        · rw [hq] at hp'; cases hp'
        · exact ih1 c hcr hq
      · intro c hc
        exact ih2 c (fun h => hc (List.mem_cons_of_mem _ h))
      · intro c hc hq
        rcases List.mem_cons.mp hc with rfl | hcr
        · exact ih2 c hc0r
        · exact ih3 c hcr hq
      · exact ih4
      · rw [ih5]
        apply List.filter_congr
        intro x _
        by_cases hx : x = c0
        · subst hx
          simp [hp', hc0r]
        · simp [hx, List.mem_cons]
      · intro x
        rw [ih6 x]
        constructor
        · rintro (hx | hx)
          · exact Or.inl hx
          · exact Or.inr ⟨List.mem_cons_of_mem _ hx.1, hx.2⟩
        · rintro (hx | ⟨hmem, hq⟩)
          · exact Or.inl hx
          · rcases List.mem_cons.mp hmem with rfl | hmem'
            · rw [hq] at hp'; cases hp'
            · exact Or.inr ⟨hmem', hq⟩
      · exact ih7
      · exact ih8

theorem rInFold_spec (n o : Nat) (pred : ModuleGraphConnection → Bool) (hon : o ≠ n)
    (H : Nat → ModuleGraphConnection) :
    ∀ (l : List Nat) (s : ModuleGraph), l.Nodup →
      (∀ c ∈ l, connView s c = some (H c)) →
      (∀ c ∈ l, pred (H c) = true →
        connView (l.foldl (ModuleGraph.replaceIncomingStep n pred o) s) c =
          some { H c with module := n }) ∧
      (∀ c, c ∉ l →
        connView (l.foldl (ModuleGraph.replaceIncomingStep n pred o) s) c = connView s c) ∧
      (∀ c ∈ l, pred (H c) = false →
        connView (l.foldl (ModuleGraph.replaceIncomingStep n pred o) s) c = connView s c) ∧
      (∀ x, outConns (l.foldl (ModuleGraph.replaceIncomingStep n pred o) s) x = outConns s x) ∧
      (inConns (l.foldl (ModuleGraph.replaceIncomingStep n pred o) s) o =
        (inConns s o).filter (fun c => !(decide (c ∈ l) && pred (H c)))) ∧
      (∀ x, x ∈ inConns (l.foldl (ModuleGraph.replaceIncomingStep n pred o) s) n ↔
        x ∈ inConns s n ∨ (x ∈ l ∧ pred (H x) = true)) ∧
      (∀ x, x ≠ o → x ≠ n →
        inConns (l.foldl (ModuleGraph.replaceIncomingStep n pred o) s) x = inConns s x) ∧
      ((inConns s n).Nodup →
        (inConns (l.foldl (ModuleGraph.replaceIncomingStep n pred o) s) n).Nodup) := by
  intro l
  induction l with
  | nil =>
    intro s _ _
    refine ⟨?_, ?_, ?_, ?_, ?_, ?_, ?_, ?_⟩ <;> simp
  | cons c0 rest ih =>
    intro s hnd hH
    have hc0 : connView s c0 = some (H c0) := hH c0 (List.mem_cons_self _ _)
    have hndr : rest.Nodup := hnd.of_cons
    have hc0r : c0 ∉ rest := (List.nodup_cons.mp hnd).1
    by_cases hp : pred (H c0) = true
    · obtain ⟨e1, e2, e3, e4, e5⟩ := rInStep_eff n o pred hon s c0 (H c0) hc0 hp
      set s1 := ModuleGraph.replaceIncomingStep n pred o s c0 with hs1
      have hH1 : ∀ c ∈ rest, connView s1 c = some (H c) := by
        intro c hcr
        rw [e1 c, if_neg (fun h : c = c0 => hc0r (h ▸ hcr))]
        exact hH c (List.mem_cons_of_mem _ hcr)
      obtain ⟨ih1, ih2, ih3, ih4, ih5, ih6, ih7, ih8⟩ := ih s1 hndr hH1
      rw [List.foldl_cons]
      refine ⟨?_, ?_, ?_, ?_, ?_, ?_, ?_, ?_⟩
      · intro c hc hq
        rcases List.mem_cons.mp hc with rfl | hcr
        · rw [ih2 c hc0r, e1 c, if_pos rfl]
        · exact ih1 c hcr hq
      · intro c hc
        have hcr : c ∉ rest := fun h => hc (List.mem_cons_of_mem _ h)
        have hcc0 : c ≠ c0 := fun h : c = c0 => hc (h ▸ List.mem_cons_self _ _)
        rw [ih2 c hcr, e1 c, if_neg hcc0]
      · intro c hc hq
        rcases List.mem_cons.mp hc with rfl | hcr
        · rw [hq] at hp; cases hp
        · have hcc0 : c ≠ c0 := fun h : c = c0 => hc0r (h ▸ hcr)
          rw [ih3 c hcr hq, e1 c, if_neg hcc0]
      · intro x
        rw [ih4 x, e2 x]
      · rw [ih5, e3]
        have : setDelete (inConns s o) c0 =
            (inConns s o).filter (fun x => decide (x ≠ c0)) := rfl
        rw [this, List.filter_filter]
        apply List.filter_congr
        intro x _
        by_cases hx : x = c0
        · subst hx
          simp [hp]
        · simp [hx, List.mem_cons]
      · intro x
        rw [ih6 x, e4, mem_setAdd]
        constructor
        · rintro ((hx | rfl) | hx)
          · exact Or.inl hx
          · exact Or.inr ⟨List.mem_cons_self _ _, hp⟩
          · exact Or.inr ⟨List.mem_cons_of_mem _ hx.1, hx.2⟩
        · rintro (hx | ⟨hmem, hq⟩)
          · exact Or.inl (Or.inl hx)
          · rcases List.mem_cons.mp hmem with rfl | hmem'
            · exact Or.inl (Or.inr rfl)
            · exact Or.inr ⟨hmem', hq⟩
      · intro x hxo hxn
        rw [ih7 x hxo hxn, e5 x hxo hxn]
      · intro hnodup
        apply ih8
        rw [e4]
        exact setAdd_nodup hnodup
    · have hp' : pred (H c0) = false := by
        cases hpv : pred (H c0)
        · rfl
        · rw [hpv] at hp; cases hp rfl
      have hskip : ModuleGraph.replaceIncomingStep n pred o s c0 = s :=
        rInStep_skip n o pred s c0 (H c0) hc0 hp'
      have hHr : ∀ c ∈ rest, connView s c = some (H c) :=
        fun c hcr => hH c (List.mem_cons_of_mem _ hcr)
      obtain ⟨ih1, ih2, ih3, ih4, ih5, ih6, ih7, ih8⟩ := ih s hndr hHr
      rw [List.foldl_cons, hskip]
      refine ⟨?_, ?_, ?_, ?_, ?_, ?_, ?_, ?_⟩
      · intro c hc hq
        rcases List.mem_cons.mp hc with rfl | hcr
        · rw [hq] at hp'; cases hp'
        · exact ih1 c hcr hq
      · intro c hc
        exact ih2 c (fun h => hc (List.mem_cons_of_mem _ h))
      · intro c hc hq
        rcases List.mem_cons.mp hc with rfl | hcr
        · exact ih2 c hc0r
        · exact ih3 c hcr hq
      · exact ih4
      · rw [ih5]
        apply List.filter_congr
        intro x _
        by_cases hx : x = c0
        · subst hx
          simp [hp', hc0r]
        · simp [hx, List.mem_cons]
      · intro x
        rw [ih6 x]
        constructor
        · rintro (hx | hx)
          · exact Or.inl hx
          · exact Or.inr ⟨List.mem_cons_of_mem _ hx.1, hx.2⟩
        · rintro (hx | ⟨hmem, hq⟩)
          · exact Or.inl hx
          · rcases List.mem_cons.mp hmem with rfl | hmem'
            · rw [hq] at hp'; cases hp'
            · exact Or.inr ⟨hmem', hq⟩
      · exact ih7
      · exact ih8

theorem connView_eq_heapConn {g : ModuleGraph} {c : Nat}
    (h : (connView g c).isSome) : connView g c = some (heapConn g c) := by
  unfold heapConn
  cases hv : connView g c with
  | none => rw [hv] at h; cases h
  | some v => rfl

/-- C5: `replaceModule(A, D, pred)` with `A ≠ D` moves exactly the connections
satisfying `pred`: every connection in `A`'s outgoing (respectively incoming) set for
which `pred` returns true has its `originModule` (respectively `module`) repointed to
`D`, ends up in `D`'s corresponding set, and is removed from `A`'s corresponding set,
while connections for which `pred` returns false remain in `A`'s sets unchanged (in
order, with untouched connection state); and `replaceModule(A, A, pred)` changes
nothing for any predicate.  Hypotheses: the sets of `A` are genuine sets (no
duplicates, all ids in the heap), and `pred` does not inspect the field the first
loop mutates (`originModule`) — the source requires `pred` to be consistent while
the sets are being iterated. -/
theorem c5_replace_module_moves_exactly_filtered (g : ModuleGraph) (A D : Nat)
    (pred : ModuleGraphConnection → Bool) (hAD : A ≠ D)
    (hndOut : (outConns g A).Nodup) (hndIn : (inConns g A).Nodup)
    (hsomeOut : ∀ c ∈ outConns g A, (connView g c).isSome)
    (hsomeIn : ∀ c ∈ inConns g A, (connView g c).isSome)
    (hstable : ∀ conn o', pred { conn with originModule := o' } = pred conn) :
    (outConns (g.replaceModule A D pred) A =
      (outConns g A).filter (fun c => !pred (heapConn g c))) ∧
    (inConns (g.replaceModule A D pred) A =
      (inConns g A).filter (fun c => !pred (heapConn g c))) ∧
    (∀ c ∈ outConns g A, pred (heapConn g c) = true →
      c ∈ outConns (g.replaceModule A D pred) D ∧
      ∃ conn, connView (g.replaceModule A D pred) c = some conn ∧
        conn.originModule = some D) ∧
    (∀ c ∈ inConns g A, pred (heapConn g c) = true →
      c ∈ inConns (g.replaceModule A D pred) D ∧
      ∃ conn, connView (g.replaceModule A D pred) c = some conn ∧ conn.module = D) ∧
    (∀ c, c ∈ outConns g A ∨ c ∈ inConns g A → pred (heapConn g c) = false →
      connView (g.replaceModule A D pred) c = connView g c) ∧
    (∀ q : ModuleGraphConnection → Bool, g.replaceModule A A q = g) := by
  set s0 := ((g._getModuleGraphModule A).2._getModuleGraphModule D).2 with hs0
  set outSnap := (g._getModuleGraphModule A).1.outgoingConnections with houtSnapDef
  set s1 := outSnap.foldl (ModuleGraph.replaceOutgoingStep D pred A) s0 with hs1
  set inSnap := (s1._getModuleGraphModule A).1.incomingConnections with hinSnapDef
  have hg' : g.replaceModule A D pred =
      inSnap.foldl (ModuleGraph.replaceIncomingStep D pred A) s1 := by
    unfold ModuleGraph.replaceModule
    rw [if_neg hAD]
  have houtSnap : outSnap = outConns g A := by
    rw [houtSnapDef, getMGM_fst]
    rfl
  have hcv0 : ∀ c, connView s0 c = connView g c := by
    intro c
    rw [hs0, connView_getMGMstate, connView_getMGMstate]
  have hmv0 : ∀ x, mgmView s0 x = mgmView g x := by
    intro x
    rw [hs0, mgmView_getMGM, mgmView_getMGM]
  have hin0 : ∀ x, inConns s0 x = inConns g x := by
    intro x
    unfold inConns
    rw [hmv0]
  have hout0 : ∀ x, outConns s0 x = outConns g x := by
    intro x
    unfold outConns
    rw [hmv0]
  have hH0 : ∀ c ∈ outSnap, connView s0 c = some (heapConn g c) := by
    intro c hc
    rw [hcv0]
    exact connView_eq_heapConn (hsomeOut c (houtSnap ▸ hc))
  have hndOut' : outSnap.Nodup := by rw [houtSnap]; exact hndOut
  obtain ⟨o1, o2, o3, o4, o5, o6, o7, o8⟩ :=
    rOutFold_spec D A pred hAD (heapConn g) outSnap s0 hndOut' hH0
  have hinSnap : inSnap = inConns g A := by
    rw [hinSnapDef, getMGM_fst]
    show inConns s1 A = _
    rw [← hs1] at o4
    rw [o4, hin0]
  have hndIn' : inSnap.Nodup := by rw [hinSnap]; exact hndIn
  have hH' : ∀ c, pred (if c ∈ outSnap ∧ pred (heapConn g c) = true
      then { heapConn g c with originModule := some D } else heapConn g c) =
      pred (heapConn g c) := by
    intro c
    split
    · rw [hstable]
    · rfl
  have hH1 : ∀ c ∈ inSnap, connView s1 c =
      some (if c ∈ outSnap ∧ pred (heapConn g c) = true
        then { heapConn g c with originModule := some D } else heapConn g c) := by
    intro c hc
    by_cases hco : c ∈ outSnap ∧ pred (heapConn g c) = true
    · rw [if_pos hco]
      exact o1 c hco.1 hco.2
    · rw [if_neg hco]
      by_cases hmem : c ∈ outSnap
      · have hpf : pred (heapConn g c) = false := by
          cases hpv : pred (heapConn g c)
          · rfl
          · exact absurd ⟨hmem, hpv⟩ hco
        rw [o3 c hmem hpf, hcv0]
        exact connView_eq_heapConn (hsomeIn c (hinSnap ▸ hc))
      · rw [o2 c hmem, hcv0]
        exact connView_eq_heapConn (hsomeIn c (hinSnap ▸ hc))
  obtain ⟨i1, i2, i3, i4, i5, i6, i7, i8⟩ :=
    rInFold_spec D A pred hAD _ inSnap s1 hndIn' hH1
  rw [hg']
  refine ⟨?_, ?_, ?_, ?_, ?_, ?_⟩
  · rw [i4, o5, hout0]
    apply List.filter_congr
    intro x hx
    have : x ∈ outSnap := houtSnap ▸ hx
    simp [this]
  · rw [i5]
    have hin1 : inConns s1 A = inConns g A := by rw [o4, hin0]
    rw [hin1]
    apply List.filter_congr
    intro x hx
    have hxs : x ∈ inSnap := hinSnap ▸ hx
    simp [hxs, hH' x]
  · intro c hc hq
    have hcs : c ∈ outSnap := houtSnap ▸ hc
    constructor
    · rw [i4]
      exact (o6 c).mpr (Or.inr ⟨hcs, hq⟩)
    · by_cases hin : c ∈ inSnap
      · have hq' : pred (if c ∈ outSnap ∧ pred (heapConn g c) = true
            then { heapConn g c with originModule := some D } else heapConn g c) = true := by
          rw [hH' c]; exact hq
        refine ⟨_, i1 c hin hq', ?_⟩
        rw [if_pos ⟨hcs, hq⟩]
      · have h2 := i2 c hin
        exact ⟨_, h2.trans (o1 c hcs hq), rfl⟩
  · intro c hc hq
    have hcs : c ∈ inSnap := hinSnap ▸ hc
    have hq' : pred (if c ∈ outSnap ∧ pred (heapConn g c) = true
        then { heapConn g c with originModule := some D } else heapConn g c) = true := by
      rw [hH' c]; exact hq
    constructor
    · exact (i6 c).mpr (Or.inr ⟨hcs, hq'⟩)
    · refine ⟨_, i1 c hcs hq', ?_⟩
      rfl
  · intro c hc hq
    have hstep1 : connView s1 c = connView g c := by
      by_cases hmem : c ∈ outSnap
      · rw [o3 c hmem hq, hcv0]
      · rw [o2 c hmem, hcv0]
    by_cases hin : c ∈ inSnap
    · have hq' : pred (if c ∈ outSnap ∧ pred (heapConn g c) = true
          then { heapConn g c with originModule := some D } else heapConn g c) = false := by
        rw [hH' c]; exact hq
      rw [i3 c hin hq', hstep1]
    · rw [i2 c hin, hstep1]
  · intro q
    unfold ModuleGraph.replaceModule
    rw [if_pos rfl]

/-- Witness for C5 at a concrete graph (module 10 with two outgoing and one
incoming connection) and the constant-true predicate: every outgoing connection of
module 10 is moved away. -/
theorem c5_replace_module_moves_exactly_filtered_witness :
    outConns (exampleGraphA.replaceModule 10 50 (fun _ => true)) 10 =
      (outConns exampleGraphA 10).filter (fun _ => !true) :=
  (c5_replace_module_moves_exactly_filtered exampleGraphA 10 50 (fun _ => true)
    (by decide) (by decide) (by decide) (by decide) (by decide) (fun _ _ => rfl)).1

/-!
## Preservation of the strong invariant by each operation
-/

theorem strongInv_congr {g g' : ModuleGraph}
    (hcv : ∀ c, connView g' c = connView g c) (hco : ∀ d, connOf g' d = connOf g d)
    (hin : ∀ x, inConns g' x = inConns g x) (hout : ∀ x, outConns g' x = outConns g x)
    (hn : g'.nextConnId = g.nextConnId) (h : StrongInv g) : StrongInv g' := by
  have e1 : connView g' = connView g := funext hcv
  have e2 : connOf g' = connOf g := funext hco
  have e3 : inConns g' = inConns g := funext hin
  have e4 : outConns g' = outConns g := funext hout
  unfold StrongInv ConnConsistent AllLive DepBack BoundedIds SetsNodup NoDangling
  rw [e1, e2, e3, e4, hn]
  exact h

theorem strongInv_empty : StrongInv emptyModuleGraph := by
  have hcv : ∀ c, connView emptyModuleGraph c = none := fun c => rfl
  have hco : ∀ d, connOf emptyModuleGraph d = none := fun d => rfl
  have hin : ∀ m, inConns emptyModuleGraph m = [] := fun m => rfl
  have hout : ∀ m, outConns emptyModuleGraph m = [] := fun m => rfl
  refine ⟨?_, ?_, ?_, ⟨?_, ?_, ?_, ?_⟩, ?_, ?_⟩
  · intro c conn h
    rw [hcv] at h
    cases h
  · intro c conn h
    rw [hcv] at h
    cases h
  · intro d c h
    rw [hco] at h
    cases h
  · intro c h
    rw [hcv] at h
    cases h
  · intro m c h
    rw [hin] at h
    cases h
  · intro m c h
    rw [hout] at h
    cases h
  · intro d c h
    rw [hco] at h
    cases h
  · intro m
    rw [hin, hout]
    exact ⟨List.nodup_nil, List.nodup_nil⟩
  · intro m c h
    rcases h with h | h
    · rw [hin] at h
      cases h
    · rw [hout] at h
      cases h

theorem strongInv_srm {g : ModuleGraph} (o d m : Nat) (h : StrongInv g)
    (hfresh : connOf g d = none) : StrongInv (g.setResolvedModule o d m) := by
  obtain ⟨hcc, hal, hdb, ⟨hb1, hb2, hb3, hb4⟩, hsn, hnd⟩ := h
  have hheap : connView g g.nextConnId = none := by
    cases hv : connView g g.nextConnId with
    | none => rfl
    | some v =>
      have := hb1 g.nextConnId (by rw [hv]; rfl)
      exact absurd this (lt_irrefl _)
  have hinf : ∀ x, g.nextConnId ∉ inConns g x :=
    fun x hx => absurd (hb2 x _ hx) (lt_irrefl _)
  have houtf : ∀ x, g.nextConnId ∉ outConns g x :=
    fun x hx => absurd (hb3 x _ hx) (lt_irrefl _)
  have hcof : ∀ d', connOf g d' ≠ some g.nextConnId :=
    fun d' hd' => absurd (hb4 d' _ hd') (lt_irrefl _)
  refine ⟨?_, ?_, ?_, ⟨?_, ?_, ?_, ?_⟩, ?_, ?_⟩
  · intro c conn hc
    rw [srm_connView] at hc
    by_cases hcc0 : c = g.nextConnId
    · rw [if_pos hcc0] at hc
      injection hc with hconn
      have hm : conn.module = m := by rw [← hconn]; rfl
      have ho : conn.originModule = some o := by rw [← hconn]; rfl
      refine ⟨?_, ?_, ?_, ?_⟩
      · rw [srm_inConns, hm, if_pos rfl, mem_setAdd]
        exact Or.inr hcc0
      · intro x hx
        rw [hm] at hx
        rw [srm_inConns, if_neg hx, hcc0]
        exact hinf x
      · intro o' ho'
        rw [ho] at ho'
        injection ho' with ho'
        subst ho'
        constructor
        · rw [srm_outConns, if_pos rfl, mem_setAdd]
          exact Or.inr hcc0
        · intro x hx
          rw [srm_outConns, if_neg hx, hcc0]
          exact houtf x
      · intro hnone
        rw [ho] at hnone
        cases hnone
    · rw [if_neg hcc0] at hc
      obtain ⟨h1, h2, h3, h4⟩ := hcc c conn hc
      refine ⟨?_, ?_, ?_, ?_⟩
      · rw [srm_inConns]
        by_cases hx : conn.module = m
        · rw [if_pos hx, mem_setAdd]
          exact Or.inl h1
        · rw [if_neg hx]
          exact h1
      · intro x hx
        rw [srm_inConns]
        by_cases hxm : x = m
        · rw [if_pos hxm, mem_setAdd]
          rintro (hmem | hceq)
          · exact h2 x hx hmem
          · exact hcc0 hceq
        · rw [if_neg hxm]
          exact h2 x hx
      · intro o' ho'
        obtain ⟨h31, h32⟩ := h3 o' ho'
        constructor
        · rw [srm_outConns]
          by_cases hx : o' = o
          · rw [if_pos hx, mem_setAdd]
            exact Or.inl h31
          · rw [if_neg hx]
            exact h31
        · intro x hx
          rw [srm_outConns]
          by_cases hxo : x = o
          · rw [if_pos hxo, mem_setAdd]
            rintro (hmem | hceq)
            · exact h32 x hx hmem
            · exact hcc0 hceq
          · rw [if_neg hxo]
            exact h32 x hx
      · intro hnone x
        rw [srm_outConns]
        by_cases hxo : x = o
        · rw [if_pos hxo, mem_setAdd]
          rintro (hmem | hceq)
          · exact h4 hnone x hmem
          · exact hcc0 hceq
        · rw [if_neg hxo]
          exact h4 hnone x
  · intro c conn hc
    rw [srm_connView] at hc
    by_cases hcc0 : c = g.nextConnId
    · rw [if_pos hcc0] at hc
      injection hc with hconn
      left
      refine ⟨d, ?_, ?_⟩
      · rw [← hconn]; rfl
      · rw [srm_connOf, if_pos rfl, hcc0]
    · rw [if_neg hcc0] at hc
      rcases hal c conn hc with ⟨d', hd1, hd2⟩ | hextra
      · left
        refine ⟨d', hd1, ?_⟩
        rw [srm_connOf]
        by_cases hdd : d' = d
        · subst hdd
          rw [hfresh] at hd2
          cases hd2
        · rw [if_neg hdd]
          exact hd2
      · exact Or.inr hextra
  · intro d' c hc
    rw [srm_connOf] at hc
    by_cases hdd : d' = d
    · rw [if_pos hdd] at hc
      injection hc with hc
      subst hc
      refine ⟨mkConnection (some o) (some d) m none, ?_, ?_⟩
      · rw [srm_connView, if_pos rfl]
      · rw [hdd]; rfl
    · rw [if_neg hdd] at hc
      obtain ⟨conn, h1, h2⟩ := hdb d' c hc
      refine ⟨conn, ?_, h2⟩
      rw [srm_connView, if_neg (fun hx : c = g.nextConnId => hcof d' (hx ▸ hc))]
      exact h1
  · intro c hc
    rw [srm_connView] at hc
    rw [srm_nextConnId]
    by_cases hcc0 : c = g.nextConnId
    · rw [hcc0]
      exact Nat.lt_succ_self _
    · rw [if_neg hcc0] at hc
      exact Nat.lt_succ_of_lt (hb1 c hc)
  · intro x c hc
    rw [srm_inConns] at hc
    rw [srm_nextConnId]
    by_cases hxm : x = m
    · rw [if_pos hxm, mem_setAdd] at hc
      rcases hc with hc | rfl
      · exact Nat.lt_succ_of_lt (hb2 x c hc)
      · exact Nat.lt_succ_self _
    · rw [if_neg hxm] at hc
      exact Nat.lt_succ_of_lt (hb2 x c hc)
  · intro x c hc
    rw [srm_outConns] at hc
    rw [srm_nextConnId]
    by_cases hxo : x = o
    · rw [if_pos hxo, mem_setAdd] at hc
      rcases hc with hc | rfl
      · exact Nat.lt_succ_of_lt (hb3 x c hc)
      · exact Nat.lt_succ_self _
    · rw [if_neg hxo] at hc
      exact Nat.lt_succ_of_lt (hb3 x c hc)
  · intro d' c hc
    rw [srm_connOf] at hc
    rw [srm_nextConnId]
    by_cases hdd : d' = d
    · rw [if_pos hdd] at hc
      injection hc with hc
      rw [← hc]
      exact Nat.lt_succ_self _
    · rw [if_neg hdd] at hc
      exact Nat.lt_succ_of_lt (hb4 d' c hc)
  · intro x
    rw [srm_inConns, srm_outConns]
    constructor
    · split
      · exact setAdd_nodup (hsn x).1
      · exact (hsn x).1
    · split
      · exact setAdd_nodup (hsn x).2
      · exact (hsn x).2
  · intro x c hc
    rw [srm_connView]
    by_cases hcc0 : c = g.nextConnId
    · rw [if_pos hcc0]
      rfl
    · rw [if_neg hcc0]
      apply hnd x c
      rcases hc with hc | hc
      · rw [srm_inConns] at hc
        left
        by_cases hxm : x = m
        · rw [if_pos hxm, mem_setAdd] at hc
          rcases hc with hc | rfl
          · exact hc
          · exact absurd rfl hcc0
        · rw [if_neg hxm] at hc
          exact hc
      · rw [srm_outConns] at hc
        right
        by_cases hxo : x = o
        · rw [if_pos hxo, mem_setAdd] at hc
          rcases hc with hc | rfl
          · exact hc
          · exact absurd rfl hcc0
        · rw [if_neg hxo] at hc
          exact hc

theorem strongInv_update {g g' : ModuleGraph} {d m cid : Nat}
    {conn : ModuleGraphConnection}
    (hc : connOf g d = some cid) (hh : connView g cid = some conn)
    (_hne : conn.module ≠ m)
    (hnext : g'.nextConnId = g.nextConnId)
    (hcv : ∀ c, connView g' c =
      if c = cid then some { conn with module := m } else connView g c)
    (hco : ∀ d', connOf g' d' = connOf g d')
    (hin : ∀ x, inConns g' x = if x = m then setAdd (inConns g x) cid
      else if x = conn.module then setDelete (inConns g x) cid else inConns g x)
    (hout : ∀ x, outConns g' x = outConns g x)
    (h : StrongInv g) : StrongInv g' := by
  obtain ⟨hcc, hal, hdb, ⟨hb1, hb2, hb3, hb4⟩, hsn, hnd⟩ := h
  have hcidlt : cid < g.nextConnId := hb1 cid (by rw [hh]; rfl)
  refine ⟨?_, ?_, ?_, ⟨?_, ?_, ?_, ?_⟩, ?_, ?_⟩
  · intro c conn' hcv'
    rw [hcv c] at hcv'
    by_cases hcc0 : c = cid
    · rw [if_pos hcc0] at hcv'
      injection hcv' with hconn'
      have hm : conn'.module = m := by rw [← hconn']
      have ho : conn'.originModule = conn.originModule := by rw [← hconn']
      obtain ⟨h1, h2, h3, h4⟩ := hcc cid conn hh
      refine ⟨?_, ?_, ?_, ?_⟩
      · rw [hin, hm, if_pos rfl, mem_setAdd]
        exact Or.inr hcc0
      · intro x hx
        rw [hm] at hx
        rw [hin, if_neg hx]
        by_cases hxc : x = conn.module
        · rw [if_pos hxc, hcc0]
          exact not_mem_setDelete_self
        · rw [if_neg hxc, hcc0]
          intro hmem
          exact h2 x hxc hmem
      · intro o' ho'
        rw [ho] at ho'
        obtain ⟨h31, h32⟩ := h3 o' ho'
        constructor
        · rw [hout, hcc0]
          exact h31
        · intro x hx
          rw [hout, hcc0]
          exact h32 x hx
      · intro hnone x
        rw [ho] at hnone
        rw [hout, hcc0]
        exact h4 hnone x
    · rw [if_neg hcc0] at hcv'
      obtain ⟨h1, h2, h3, h4⟩ := hcc c conn' hcv'
      refine ⟨?_, ?_, ?_, ?_⟩
      · rw [hin]
        by_cases hxm : conn'.module = m
        · rw [if_pos hxm, mem_setAdd]
          exact Or.inl h1
        · rw [if_neg hxm]
          by_cases hxc : conn'.module = conn.module
          · rw [if_pos hxc, mem_setDelete]
            exact ⟨h1, hcc0⟩
          · rw [if_neg hxc]
            exact h1
      · intro x hx
        rw [hin]
        by_cases hxm : x = m
        · rw [if_pos hxm, mem_setAdd]
          rintro (hmem | hceq)
          · exact h2 x hx hmem
          · exact hcc0 hceq
        · rw [if_neg hxm]
          by_cases hxc : x = conn.module
          · rw [if_pos hxc, mem_setDelete]
            rintro ⟨hmem, _⟩
            exact h2 x hx hmem
          · rw [if_neg hxc]
            exact h2 x hx
      · intro o' ho'
        obtain ⟨h31, h32⟩ := h3 o' ho'
        exact ⟨by rw [hout]; exact h31, fun x hx => by rw [hout]; exact h32 x hx⟩
      · intro hnone x
        rw [hout]
        exact h4 hnone x
  · intro c conn' hcv'
    rw [hcv c] at hcv'
    by_cases hcc0 : c = cid
    · rw [if_pos hcc0] at hcv'
      injection hcv' with hconn'
      have hdep : conn'.dependency = conn.dependency := by rw [← hconn']
      have ho : conn'.originModule = conn.originModule := by rw [← hconn']
      rcases hal cid conn hh with ⟨d', hd1, hd2⟩ | hextra
      · left
        refine ⟨d', by rw [hdep]; exact hd1, ?_⟩
        rw [hco, hcc0]
        exact hd2
      · right
        rw [hdep, ho]
        exact hextra
    · rw [if_neg hcc0] at hcv'
      rcases hal c conn' hcv' with ⟨d', hd1, hd2⟩ | hextra
      · left
        exact ⟨d', hd1, by rw [hco]; exact hd2⟩
      · exact Or.inr hextra
  · intro d' c hc'
    rw [hco] at hc'
    obtain ⟨conn0, h1, h2⟩ := hdb d' c hc'
    by_cases hcc0 : c = cid
    · subst hcc0
      rw [hh] at h1
      injection h1 with h1
      refine ⟨{ conn with module := m }, ?_, ?_⟩
      · rw [hcv, if_pos rfl]
      · show conn.dependency = some d'
        rw [h1]
        exact h2
    · refine ⟨conn0, ?_, h2⟩
      rw [hcv, if_neg hcc0]
      exact h1
  · intro c hc'
    rw [hcv] at hc'
    rw [hnext]
    by_cases hcc0 : c = cid
    · rw [hcc0]
      exact hcidlt
    · rw [if_neg hcc0] at hc'
      exact hb1 c hc'
  · intro x c hc'
    rw [hin] at hc'
    rw [hnext]
    by_cases hxm : x = m
    · rw [if_pos hxm, mem_setAdd] at hc'
      rcases hc' with hc' | rfl
      · exact hb2 x c hc'
      · exact hcidlt
    · rw [if_neg hxm] at hc'
      by_cases hxc : x = conn.module
      · rw [if_pos hxc, mem_setDelete] at hc'
        exact hb2 x c hc'.1
      · rw [if_neg hxc] at hc'
        exact hb2 x c hc'
  · intro x c hc'
    rw [hout] at hc'
    rw [hnext]
    exact hb3 x c hc'
  · intro d' c hc'
    rw [hco] at hc'
    rw [hnext]
    exact hb4 d' c hc'
  · intro x
    rw [hin, hout]
    constructor
    · split
      · exact setAdd_nodup (hsn x).1
      · split
        · exact setDelete_nodup (hsn x).1
        · exact (hsn x).1
    · exact (hsn x).2
  · intro x c hc'
    rw [hcv]
    by_cases hcc0 : c = cid
    · rw [if_pos hcc0]
      rfl
    · rw [if_neg hcc0]
      apply hnd x c
      rcases hc' with hc' | hc'
      · rw [hin] at hc'
        left
        by_cases hxm : x = m
        · rw [if_pos hxm, mem_setAdd] at hc'
          rcases hc' with hc' | rfl
          · exact hc'
          · exact absurd rfl hcc0
        · rw [if_neg hxm] at hc'
          by_cases hxc : x = conn.module
          · rw [if_pos hxc, mem_setDelete] at hc'
            exact hc'.1
          · rw [if_neg hxc] at hc'
            exact hc'
      · rw [hout] at hc'
        exact Or.inr hc'

theorem strongInv_addExpl {g g' : ModuleGraph} {cid : Nat}
    {conn : ModuleGraphConnection} {e : String}
    (hh : connView g cid = some conn)
    (hnext : g'.nextConnId = g.nextConnId)
    (hcv : ∀ c, connView g' c =
      if c = cid then some (connAddExplanation conn e) else connView g c)
    (hco : ∀ d', connOf g' d' = connOf g d')
    (hin : ∀ x, inConns g' x = inConns g x)
    (hout : ∀ x, outConns g' x = outConns g x)
    (h : StrongInv g) : StrongInv g' := by
  obtain ⟨hcc, hal, hdb, ⟨hb1, hb2, hb3, hb4⟩, hsn, hnd⟩ := h
  have hcidlt : cid < g.nextConnId := hb1 cid (by rw [hh]; rfl)
  have hflds : (connAddExplanation conn e).module = conn.module ∧
      (connAddExplanation conn e).originModule = conn.originModule ∧
      (connAddExplanation conn e).dependency = conn.dependency := ⟨rfl, rfl, rfl⟩
  refine ⟨?_, ?_, ?_, ⟨?_, ?_, ?_, ?_⟩, ?_, ?_⟩
  · intro c conn' hcv'
    rw [hcv c] at hcv'
    by_cases hcc0 : c = cid
    · rw [if_pos hcc0] at hcv'
      injection hcv' with hconn'
      have hm : conn'.module = conn.module := by rw [← hconn']; exact hflds.1
      have ho : conn'.originModule = conn.originModule := by rw [← hconn']; exact hflds.2.1
      obtain ⟨h1, h2, h3, h4⟩ := hcc cid conn hh
      refine ⟨?_, ?_, ?_, ?_⟩
      · rw [hin, hm, hcc0]
        exact h1
      · intro x hx
        rw [hm] at hx
        rw [hin, hcc0]
        exact h2 x hx
      · intro o' ho'
        rw [ho] at ho'
        obtain ⟨h31, h32⟩ := h3 o' ho'
        exact ⟨by rw [hout, hcc0]; exact h31, fun x hx => by rw [hout, hcc0]; exact h32 x hx⟩
      · intro hnone x
        rw [ho] at hnone
        rw [hout, hcc0]
        exact h4 hnone x
    · rw [if_neg hcc0] at hcv'
      obtain ⟨h1, h2, h3, h4⟩ := hcc c conn' hcv'
      refine ⟨by rw [hin]; exact h1, fun x hx => by rw [hin]; exact h2 x hx, ?_, ?_⟩
      · intro o' ho'
        obtain ⟨h31, h32⟩ := h3 o' ho'
        exact ⟨by rw [hout]; exact h31, fun x hx => by rw [hout]; exact h32 x hx⟩
      · intro hnone x
        rw [hout]
        exact h4 hnone x
  · intro c conn' hcv'
    rw [hcv c] at hcv'
    by_cases hcc0 : c = cid
    · rw [if_pos hcc0] at hcv'
      injection hcv' with hconn'
      have hdep : conn'.dependency = conn.dependency := by rw [← hconn']; exact hflds.2.2
      have ho : conn'.originModule = conn.originModule := by rw [← hconn']; exact hflds.2.1
      rcases hal cid conn hh with ⟨d', hd1, hd2⟩ | hextra
      · left
        exact ⟨d', by rw [hdep]; exact hd1, by rw [hco, hcc0]; exact hd2⟩
      · right
        rw [hdep, ho]
        exact hextra
    · rw [if_neg hcc0] at hcv'
      rcases hal c conn' hcv' with ⟨d', hd1, hd2⟩ | hextra
      · left
        exact ⟨d', hd1, by rw [hco]; exact hd2⟩
      · exact Or.inr hextra
  · intro d' c hc'
    rw [hco] at hc'
    obtain ⟨conn0, h1, h2⟩ := hdb d' c hc'
    by_cases hcc0 : c = cid
    · subst hcc0
      rw [hh] at h1
      injection h1 with h1
      refine ⟨connAddExplanation conn e, ?_, ?_⟩
      · rw [hcv, if_pos rfl]
      · show conn.dependency = some d'
        rw [h1]
        exact h2
    · refine ⟨conn0, ?_, h2⟩
      rw [hcv, if_neg hcc0]
      exact h1
  · intro c hc'
    rw [hcv] at hc'
    rw [hnext]
    by_cases hcc0 : c = cid
    · rw [hcc0]
      exact hcidlt
    · rw [if_neg hcc0] at hc'
      exact hb1 c hc'
  · intro x c hc'
    rw [hin] at hc'
    rw [hnext]
    exact hb2 x c hc'
  · intro x c hc'
    rw [hout] at hc'
    rw [hnext]
    exact hb3 x c hc'
  · intro d' c hc'
    rw [hco] at hc'
    rw [hnext]
    exact hb4 d' c hc'
  · intro x
    rw [hin, hout]
    exact hsn x
  · intro x c hc'
    rw [hcv]
    by_cases hcc0 : c = cid
    · rw [if_pos hcc0]
      rfl
    · rw [if_neg hcc0]
      apply hnd x c
      rw [hin, hout] at hc'
      exact hc'

theorem strongInv_aer {g : ModuleGraph} (m : Nat) (e : String) (h : StrongInv g) :
    StrongInv (g.addExtraReason m e) := by
  obtain ⟨hcc, hal, hdb, ⟨hb1, hb2, hb3, hb4⟩, hsn, hnd⟩ := h
  have hinf : ∀ x, g.nextConnId ∉ inConns g x :=
    fun x hx => absurd (hb2 x _ hx) (lt_irrefl _)
  have houtf : ∀ x, g.nextConnId ∉ outConns g x :=
    fun x hx => absurd (hb3 x _ hx) (lt_irrefl _)
  refine ⟨?_, ?_, ?_, ⟨?_, ?_, ?_, ?_⟩, ?_, ?_⟩
  · intro c conn hc
    rw [aer_connView] at hc
    by_cases hcc0 : c = g.nextConnId
    · rw [if_pos hcc0] at hc
      injection hc with hconn
      have hm : conn.module = m := by rw [← hconn]; rfl
      have ho : conn.originModule = none := by rw [← hconn]; rfl
      refine ⟨?_, ?_, ?_, ?_⟩
      · rw [aer_inConns, hm, if_pos rfl, mem_setAdd]
        exact Or.inr hcc0
      · intro x hx
        rw [hm] at hx
        rw [aer_inConns, if_neg hx, hcc0]
        exact hinf x
      · intro o' ho'
        rw [ho] at ho'
        cases ho'
      · intro _ x
        rw [aer_outConns, hcc0]
        exact houtf x
    · rw [if_neg hcc0] at hc
      obtain ⟨h1, h2, h3, h4⟩ := hcc c conn hc
      refine ⟨?_, ?_, ?_, ?_⟩
      · rw [aer_inConns]
        by_cases hx : conn.module = m
        · rw [if_pos hx, mem_setAdd]
          exact Or.inl h1
        · rw [if_neg hx]
          exact h1
      · intro x hx
        rw [aer_inConns]
        by_cases hxm : x = m
        · rw [if_pos hxm, mem_setAdd]
          rintro (hmem | hceq)
          · exact h2 x hx hmem
          · exact hcc0 hceq
        · rw [if_neg hxm]
          exact h2 x hx
      · intro o' ho'
        obtain ⟨h31, h32⟩ := h3 o' ho'
        exact ⟨by rw [aer_outConns]; exact h31,
          fun x hx => by rw [aer_outConns]; exact h32 x hx⟩
      · intro hnone x
        rw [aer_outConns]
        exact h4 hnone x
  · intro c conn hc
    rw [aer_connView] at hc
    by_cases hcc0 : c = g.nextConnId
    · rw [if_pos hcc0] at hc
      injection hc with hconn
      right
      constructor
      · rw [← hconn]; rfl
      · rw [← hconn]; rfl
    · rw [if_neg hcc0] at hc
      rcases hal c conn hc with ⟨d', hd1, hd2⟩ | hextra
      · exact Or.inl ⟨d', hd1, by rw [aer_connOf]; exact hd2⟩
      · exact Or.inr hextra
  · intro d' c hc
    rw [aer_connOf] at hc
    obtain ⟨conn, h1, h2⟩ := hdb d' c hc
    refine ⟨conn, ?_, h2⟩
    rw [aer_connView,
      if_neg (fun hx : c = g.nextConnId => absurd (hb4 d' c hc) (hx ▸ lt_irrefl _))]
    exact h1
  · intro c hc
    rw [aer_connView] at hc
    rw [aer_nextConnId]
    by_cases hcc0 : c = g.nextConnId
    · rw [hcc0]
      exact Nat.lt_succ_self _
    · rw [if_neg hcc0] at hc
      exact Nat.lt_succ_of_lt (hb1 c hc)
  · intro x c hc
    rw [aer_inConns] at hc
    rw [aer_nextConnId]
    by_cases hxm : x = m
    · rw [if_pos hxm, mem_setAdd] at hc
      rcases hc with hc | rfl
      · exact Nat.lt_succ_of_lt (hb2 x c hc)
      · exact Nat.lt_succ_self _
    · rw [if_neg hxm] at hc
      exact Nat.lt_succ_of_lt (hb2 x c hc)
  · intro x c hc
    rw [aer_outConns] at hc
    rw [aer_nextConnId]
    exact Nat.lt_succ_of_lt (hb3 x c hc)
  · intro d' c hc
    rw [aer_connOf] at hc
    rw [aer_nextConnId]
    exact Nat.lt_succ_of_lt (hb4 d' c hc)
  · intro x
    rw [aer_inConns, aer_outConns]
    constructor
    · split
      · exact setAdd_nodup (hsn x).1
      · exact (hsn x).1
    · exact (hsn x).2
  · intro x c hc
    rw [aer_connView]
    by_cases hcc0 : c = g.nextConnId
    · rw [if_pos hcc0]
      rfl
    · rw [if_neg hcc0]
      apply hnd x c
      rcases hc with hc | hc
      · rw [aer_inConns] at hc
        left
        by_cases hxm : x = m
        · rw [if_pos hxm, mem_setAdd] at hc
          rcases hc with hc | rfl
          · exact hc
          · exact absurd rfl hcc0
        · rw [if_neg hxm] at hc
          exact hc
      · rw [aer_outConns] at hc
        exact Or.inr hc

theorem rOutStep_connOf (n : Nat) (pred : ModuleGraphConnection → Bool) (o : Nat)
    (s : ModuleGraph) (c0 : Nat) (d : Nat) :
    connOf (ModuleGraph.replaceOutgoingStep n pred o s c0) d = connOf s d := by
  unfold connOf mgdView
  rw [rOutStep_dependencyMap]

theorem rInStep_connOf (n : Nat) (pred : ModuleGraphConnection → Bool) (o : Nat)
    (s : ModuleGraph) (c0 : Nat) (d : Nat) :
    connOf (ModuleGraph.replaceIncomingStep n pred o s c0) d = connOf s d := by
  unfold connOf mgdView
  rw [rInStep_dependencyMap]

theorem rOutStep_strongInv {s : ModuleGraph} (n o : Nat)
    (pred : ModuleGraphConnection → Bool) (hon : o ≠ n) {c0 : Nat}
    (hmem : c0 ∈ outConns s o) (h : StrongInv s) :
    StrongInv (ModuleGraph.replaceOutgoingStep n pred o s c0) ∧
    (∀ c, c ≠ c0 →
      (c ∈ outConns (ModuleGraph.replaceOutgoingStep n pred o s c0) o ↔
        c ∈ outConns s o)) := by
  obtain ⟨hcc, hal, hdb, ⟨hb1, hb2, hb3, hb4⟩, hsn, hnd⟩ := h
  have hsome : (connView s c0).isSome := hnd o c0 (Or.inr hmem)
  obtain ⟨conn, hcv⟩ : ∃ conn, connView s c0 = some conn := by
    cases hv : connView s c0 with
    | none => rw [hv] at hsome; cases hsome
    | some v => exact ⟨v, rfl⟩
  have horigin : conn.originModule = some o := by
    obtain ⟨h1, h2, h3, h4⟩ := hcc c0 conn hcv
    cases hov : conn.originModule with
    | none => exact absurd hmem (h4 hov o)
    | some o' =>
      by_cases ho' : o' = o
      · rw [ho']
      · exact absurd hmem ((h3 o' hov).2 o (fun he => ho' he.symm))
  by_cases hp : pred conn = true
  · obtain ⟨e1, e2, e3, e4, e5⟩ := rOutStep_eff n o pred hon s c0 conn hcv hp
    constructor
    · refine ⟨?_, ?_, ?_, ⟨?_, ?_, ?_, ?_⟩, ?_, ?_⟩
      · intro c conn' hcv'
        rw [e1 c] at hcv'
        by_cases hcc0 : c = c0
        · rw [if_pos hcc0] at hcv'
          injection hcv' with hconn'
          have hm : conn'.module = conn.module := by rw [← hconn']
          have ho : conn'.originModule = some n := by rw [← hconn']
          obtain ⟨h1, h2, h3, h4⟩ := hcc c0 conn hcv
          refine ⟨?_, ?_, ?_, ?_⟩
          · rw [e2, hm, hcc0]
            exact h1
          · intro x hx
            rw [hm] at hx
            rw [e2, hcc0]
            exact h2 x hx
          · intro o' ho'
            rw [ho] at ho'
            injection ho' with ho'
            subst ho'
            constructor
            · rw [e4, mem_setAdd]
              exact Or.inr hcc0
            · intro x hx
              by_cases hxo : x = o
              · rw [hxo, e3, hcc0]
                exact not_mem_setDelete_self
              · rw [e5 x hxo hx, hcc0]
                exact (h3 o horigin).2 x hxo
          · intro hnone
            rw [ho] at hnone
            cases hnone
        · rw [if_neg hcc0] at hcv'
          obtain ⟨h1, h2, h3, h4⟩ := hcc c conn' hcv'
          refine ⟨?_, ?_, ?_, ?_⟩
          · rw [e2]
            exact h1
          · intro x hx
            rw [e2]
            exact h2 x hx
          · intro o' ho'
            obtain ⟨h31, h32⟩ := h3 o' ho'
            constructor
            · by_cases hxo : o' = o
              · rw [hxo, e3, mem_setDelete]
                rw [hxo] at h31
                exact ⟨h31, hcc0⟩
              · by_cases hxn : o' = n
                · rw [hxn, e4, mem_setAdd]
                  rw [hxn] at h31
                  exact Or.inl h31
                · rw [e5 o' hxo hxn]
                  exact h31
            · intro x hx
              by_cases hxo : x = o
              · rw [hxo, e3, mem_setDelete]
                rintro ⟨hmm, _⟩
                exact h32 x hx (hxo ▸ hmm)
              · by_cases hxn : x = n
                · rw [hxn, e4, mem_setAdd]
                  rintro (hmm | hceq)
                  · exact h32 x hx (hxn ▸ hmm)
                  · exact hcc0 hceq
                · rw [e5 x hxo hxn]
                  exact h32 x hx
          · intro hnone x
            by_cases hxo : x = o
            · rw [hxo, e3, mem_setDelete]
              rintro ⟨hmm, _⟩
              exact h4 hnone o hmm
            · by_cases hxn : x = n
              · rw [hxn, e4, mem_setAdd]
                rintro (hmm | hceq)
                · exact h4 hnone n hmm
                · exact hcc0 hceq
              · rw [e5 x hxo hxn]
                exact h4 hnone x
      · intro c conn' hcv'
        rw [e1 c] at hcv'
        by_cases hcc0 : c = c0
        · rw [if_pos hcc0] at hcv'
          injection hcv' with hconn'
          have hdep : conn'.dependency = conn.dependency := by rw [← hconn']
          rcases hal c0 conn hcv with ⟨d', hd1, hd2⟩ | hextra
          · left
            exact ⟨d', by rw [hdep]; exact hd1,
              by rw [rOutStep_connOf, hcc0]; exact hd2⟩
          · exact absurd hmem ((hcc c0 conn hcv).2.2.2 hextra.2 o)
        · rw [if_neg hcc0] at hcv'
          rcases hal c conn' hcv' with ⟨d', hd1, hd2⟩ | hextra
          · exact Or.inl ⟨d', hd1, by rw [rOutStep_connOf]; exact hd2⟩
          · exact Or.inr hextra
      · intro d' c hc'
        rw [rOutStep_connOf] at hc'
        obtain ⟨conn0, h1, h2⟩ := hdb d' c hc'
        by_cases hcc0 : c = c0
        · subst hcc0
          rw [hcv] at h1
          injection h1 with h1
          refine ⟨{ conn with originModule := some n }, ?_, ?_⟩
          · rw [e1, if_pos rfl]
          · show conn.dependency = some d'
            rw [h1]
            exact h2
        · refine ⟨conn0, ?_, h2⟩
          rw [e1, if_neg hcc0]
          exact h1
      · intro c hc'
        rw [e1] at hc'
        rw [rOutStep_nextConnId]
        by_cases hcc0 : c = c0
        · rw [hcc0]
          exact hb3 o c0 hmem
        · rw [if_neg hcc0] at hc'
          exact hb1 c hc'
      · intro x c hc'
        rw [e2] at hc'
        rw [rOutStep_nextConnId]
        exact hb2 x c hc'
      · intro x c hc'
        rw [rOutStep_nextConnId]
        by_cases hxo : x = o
        · rw [hxo, e3, mem_setDelete] at hc'
          exact hb3 o c hc'.1
        · by_cases hxn : x = n
          · rw [hxn, e4, mem_setAdd] at hc'
            rcases hc' with hc' | rfl
            · exact hb3 n c hc'
            · exact hb3 o _ hmem
          · rw [e5 x hxo hxn] at hc'
            exact hb3 x c hc'
      · intro d' c hc'
        rw [rOutStep_connOf] at hc'
        rw [rOutStep_nextConnId]
        exact hb4 d' c hc'
      · intro x
        constructor
        · rw [e2 x]
          exact (hsn x).1
        · by_cases hxo : x = o
          · rw [hxo, e3]
            exact setDelete_nodup (hsn o).2
          · by_cases hxn : x = n
            · rw [hxn, e4]
              exact setAdd_nodup (hsn n).2
            · rw [e5 x hxo hxn]
              exact (hsn x).2
      · intro x c hc'
        rw [e1]
        by_cases hcc0 : c = c0
        · rw [if_pos hcc0]
          rfl
        · rw [if_neg hcc0]
          apply hnd x c
          rcases hc' with hc' | hc'
          · rw [e2] at hc'
            exact Or.inl hc'
          · right
            by_cases hxo : x = o
            · rw [hxo, e3, mem_setDelete] at hc'
              rw [hxo]
              exact hc'.1
            · by_cases hxn : x = n
              · rw [hxn, e4, mem_setAdd] at hc'
                rcases hc' with hc' | rfl
                · rw [hxn]
                  exact hc'
                · exact absurd rfl hcc0
              · rw [e5 x hxo hxn] at hc'
                exact hc'
    · intro c hc0
      rw [e3, mem_setDelete]
      exact ⟨fun hx => hx.1, fun hx => ⟨hx, hc0⟩⟩
  · have hp' : pred conn = false := by
      cases hpv : pred conn
      · rfl
      · rw [hpv] at hp; cases hp rfl
    rw [rOutStep_skip n o pred s c0 conn hcv hp']
    exact ⟨⟨hcc, hal, hdb, ⟨hb1, hb2, hb3, hb4⟩, hsn, hnd⟩, fun c _ => Iff.rfl⟩

theorem rInStep_strongInv {s : ModuleGraph} (n o : Nat)
    (pred : ModuleGraphConnection → Bool) (hon : o ≠ n) {c0 : Nat}
    (hmem : c0 ∈ inConns s o) (h : StrongInv s) :
    StrongInv (ModuleGraph.replaceIncomingStep n pred o s c0) ∧
    (∀ c, c ≠ c0 →
      (c ∈ inConns (ModuleGraph.replaceIncomingStep n pred o s c0) o ↔
        c ∈ inConns s o)) := by
  obtain ⟨hcc, hal, hdb, ⟨hb1, hb2, hb3, hb4⟩, hsn, hnd⟩ := h
  have hsome : (connView s c0).isSome := hnd o c0 (Or.inl hmem)
  obtain ⟨conn, hcv⟩ : ∃ conn, connView s c0 = some conn := by
    cases hv : connView s c0 with
    | none => rw [hv] at hsome; cases hsome
    | some v => exact ⟨v, rfl⟩
  have hmodule : conn.module = o := by
    obtain ⟨h1, h2, h3, h4⟩ := hcc c0 conn hcv
    by_cases hmo : conn.module = o
    · exact hmo
    · exact absurd hmem (h2 o (fun he => hmo he.symm))
  by_cases hp : pred conn = true
  · obtain ⟨e1, e2, e3, e4, e5⟩ := rInStep_eff n o pred hon s c0 conn hcv hp
    constructor
    · refine ⟨?_, ?_, ?_, ⟨?_, ?_, ?_, ?_⟩, ?_, ?_⟩
      · intro c conn' hcv'
        rw [e1 c] at hcv'
        by_cases hcc0 : c = c0
        · rw [if_pos hcc0] at hcv'
          injection hcv' with hconn'
          have hm : conn'.module = n := by rw [← hconn']
          have ho : conn'.originModule = conn.originModule := by rw [← hconn']
          obtain ⟨h1, h2, h3, h4⟩ := hcc c0 conn hcv
          refine ⟨?_, ?_, ?_, ?_⟩
          · rw [hm, e4, mem_setAdd]
            exact Or.inr hcc0
          · intro x hx
            rw [hm] at hx
            by_cases hxo : x = o
            · rw [hxo, e3, hcc0]
              exact not_mem_setDelete_self
            · rw [e5 x hxo hx, hcc0]
              exact h2 x (fun he => hxo (he.trans hmodule))
          · intro o' ho'
            rw [ho] at ho'
            obtain ⟨h31, h32⟩ := h3 o' ho'
            exact ⟨by rw [e2, hcc0]; exact h31,
              fun x hx => by rw [e2, hcc0]; exact h32 x hx⟩
          · intro hnone x
            rw [ho] at hnone
            rw [e2, hcc0]
            exact h4 hnone x
        · rw [if_neg hcc0] at hcv'
          obtain ⟨h1, h2, h3, h4⟩ := hcc c conn' hcv'
          refine ⟨?_, ?_, ?_, ?_⟩
          · by_cases hxo : conn'.module = o
            · rw [hxo, e3, mem_setDelete]
              rw [hxo] at h1
              exact ⟨h1, hcc0⟩
            · by_cases hxn : conn'.module = n
              · rw [hxn, e4, mem_setAdd]
                rw [hxn] at h1
                exact Or.inl h1
              · rw [e5 conn'.module hxo hxn]
                exact h1
          · intro x hx
            by_cases hxo : x = o
            · rw [hxo, e3, mem_setDelete]
              rintro ⟨hmm, _⟩
              exact h2 x hx (hxo ▸ hmm)
            · by_cases hxn : x = n
              · rw [hxn, e4, mem_setAdd]
                rintro (hmm | hceq)
                · exact h2 x hx (hxn ▸ hmm)
                · exact hcc0 hceq
              · rw [e5 x hxo hxn]
                exact h2 x hx
          · intro o' ho'
            obtain ⟨h31, h32⟩ := h3 o' ho'
            exact ⟨by rw [e2]; exact h31, fun x hx => by rw [e2]; exact h32 x hx⟩
          · intro hnone x
            rw [e2]
            exact h4 hnone x
      · intro c conn' hcv'
        rw [e1 c] at hcv'
        by_cases hcc0 : c = c0
        · rw [if_pos hcc0] at hcv'
          injection hcv' with hconn'
          have hdep : conn'.dependency = conn.dependency := by rw [← hconn']
          have ho : conn'.originModule = conn.originModule := by rw [← hconn']
          rcases hal c0 conn hcv with ⟨d', hd1, hd2⟩ | hextra
          · left
            exact ⟨d', by rw [hdep]; exact hd1,
              by rw [rInStep_connOf, hcc0]; exact hd2⟩
          · right
            rw [hdep, ho]
            exact hextra
        · rw [if_neg hcc0] at hcv'
          rcases hal c conn' hcv' with ⟨d', hd1, hd2⟩ | hextra
          · exact Or.inl ⟨d', hd1, by rw [rInStep_connOf]; exact hd2⟩
          · exact Or.inr hextra
      · intro d' c hc'
        rw [rInStep_connOf] at hc'
        obtain ⟨conn0, h1, h2⟩ := hdb d' c hc'
        by_cases hcc0 : c = c0
        · subst hcc0
          rw [hcv] at h1
          injection h1 with h1
          refine ⟨{ conn with module := n }, ?_, ?_⟩
          · rw [e1, if_pos rfl]
          · show conn.dependency = some d'
            rw [h1]
            exact h2
        · refine ⟨conn0, ?_, h2⟩
          rw [e1, if_neg hcc0]
          exact h1
      · intro c hc'
        rw [e1] at hc'
        rw [rInStep_nextConnId]
        by_cases hcc0 : c = c0
        · rw [hcc0]
          exact hb2 o c0 hmem
        · rw [if_neg hcc0] at hc'
          exact hb1 c hc'
      · intro x c hc'
        rw [rInStep_nextConnId]
        by_cases hxo : x = o
        · rw [hxo, e3, mem_setDelete] at hc'
          exact hb2 o c hc'.1
        · by_cases hxn : x = n
          · rw [hxn, e4, mem_setAdd] at hc'
            rcases hc' with hc' | rfl
            · exact hb2 n c hc'
            · exact hb2 o _ hmem
          · rw [e5 x hxo hxn] at hc'
            exact hb2 x c hc'
      · intro x c hc'
        rw [e2] at hc'
        rw [rInStep_nextConnId]
        exact hb3 x c hc'
      · intro d' c hc'
        rw [rInStep_connOf] at hc'
        rw [rInStep_nextConnId]
        exact hb4 d' c hc'
      · intro x
        constructor
        · by_cases hxo : x = o
          · rw [hxo, e3]
            exact setDelete_nodup (hsn o).1
          · by_cases hxn : x = n
            · rw [hxn, e4]
              exact setAdd_nodup (hsn n).1
            · rw [e5 x hxo hxn]
              exact (hsn x).1
        · rw [e2 x]
          exact (hsn x).2
      · intro x c hc'
        rw [e1]
        by_cases hcc0 : c = c0
        · rw [if_pos hcc0]
          rfl
        · rw [if_neg hcc0]
          apply hnd x c
          rcases hc' with hc' | hc'
          · left
            by_cases hxo : x = o
            · rw [hxo, e3, mem_setDelete] at hc'
              rw [hxo]
              exact hc'.1
            · by_cases hxn : x = n
              · rw [hxn, e4, mem_setAdd] at hc'
                rcases hc' with hc' | rfl
                · rw [hxn]
                  exact hc'
                · exact absurd rfl hcc0
              · rw [e5 x hxo hxn] at hc'
                exact hc'
          · rw [e2] at hc'
            exact Or.inr hc'
    · intro c hc0
      rw [e3, mem_setDelete]
      exact ⟨fun hx => hx.1, fun hx => ⟨hx, hc0⟩⟩
  · have hp' : pred conn = false := by
      cases hpv : pred conn
      · rfl
      · rw [hpv] at hp; cases hp rfl
    rw [rInStep_skip n o pred s c0 conn hcv hp']
    exact ⟨⟨hcc, hal, hdb, ⟨hb1, hb2, hb3, hb4⟩, hsn, hnd⟩, fun c _ => Iff.rfl⟩

theorem rOutFold_strongInv (n o : Nat) (pred : ModuleGraphConnection → Bool)
    (hon : o ≠ n) :
    ∀ (l : List Nat) (s : ModuleGraph), l.Nodup → (∀ c ∈ l, c ∈ outConns s o) →
      StrongInv s →
      StrongInv (l.foldl (ModuleGraph.replaceOutgoingStep n pred o) s) := by
  intro l
  induction l with
  | nil => intro s _ _ h; exact h
  | cons c0 rest ih =>
    intro s hnd hsub h
    have hc0r : c0 ∉ rest := (List.nodup_cons.mp hnd).1
    obtain ⟨h1, h2⟩ :=
      rOutStep_strongInv n o pred hon (hsub c0 (List.mem_cons_self _ _)) h
    rw [List.foldl_cons]
    apply ih _ hnd.of_cons _ h1
    intro c hc
    exact (h2 c (fun he : c = c0 => hc0r (he ▸ hc))).mpr
      (hsub c (List.mem_cons_of_mem _ hc))

theorem rInFold_strongInv (n o : Nat) (pred : ModuleGraphConnection → Bool)
    (hon : o ≠ n) :
    ∀ (l : List Nat) (s : ModuleGraph), l.Nodup → (∀ c ∈ l, c ∈ inConns s o) →
      StrongInv s →
      StrongInv (l.foldl (ModuleGraph.replaceIncomingStep n pred o) s) := by
  intro l
  induction l with
  | nil => intro s _ _ h; exact h
  | cons c0 rest ih =>
    intro s hnd hsub h
    have hc0r : c0 ∉ rest := (List.nodup_cons.mp hnd).1
    obtain ⟨h1, h2⟩ :=
      rInStep_strongInv n o pred hon (hsub c0 (List.mem_cons_self _ _)) h
    rw [List.foldl_cons]
    apply ih _ hnd.of_cons _ h1
    intro c hc
    exact (h2 c (fun he : c = c0 => hc0r (he ▸ hc))).mpr
      (hsub c (List.mem_cons_of_mem _ hc))

theorem strongInv_replace {g : ModuleGraph} (o n : Nat)
    (pred : ModuleGraphConnection → Bool) (h : StrongInv g) :
    StrongInv (g.replaceModule o n pred) := by
  by_cases hon : o = n
  · unfold ModuleGraph.replaceModule
    rw [if_pos hon]
    exact h
  · set s0 := ((g._getModuleGraphModule o).2._getModuleGraphModule n).2 with hs0
    set outSnap := (g._getModuleGraphModule o).1.outgoingConnections with houtSnapDef
    set s1 := outSnap.foldl (ModuleGraph.replaceOutgoingStep n pred o) s0 with hs1
    set inSnap := (s1._getModuleGraphModule o).1.incomingConnections with hinSnapDef
    have hg' : g.replaceModule o n pred =
        inSnap.foldl (ModuleGraph.replaceIncomingStep n pred o) s1 := by
      unfold ModuleGraph.replaceModule
      rw [if_neg hon]
    rw [hg']
    have hmv0 : ∀ x, mgmView s0 x = mgmView g x := by
      intro x
      rw [hs0, mgmView_getMGM, mgmView_getMGM]
    have hs0inv : StrongInv s0 := by
      apply strongInv_congr (g := g)
      · intro c
        rw [hs0, connView_getMGMstate, connView_getMGMstate]
      · intro d
        unfold connOf
        rw [hs0, mgdView_getMGMstate, mgdView_getMGMstate]
      · intro x
        unfold inConns
        rw [hmv0]
      · intro x
        unfold outConns
        rw [hmv0]
      · rw [hs0, getMGM_snd_nextConnId, getMGM_snd_nextConnId]
      · exact h
    have houtSnap : outSnap = outConns s0 o := by
      rw [houtSnapDef, getMGM_fst]
      show (mgmView g o).outgoingConnections = outConns s0 o
      unfold outConns
      rw [hmv0]
    have hndOut : outSnap.Nodup := by
      rw [houtSnap]
      exact (hs0inv.2.2.2.2.1 o).2
    have hs1inv : StrongInv s1 :=
      rOutFold_strongInv n o pred hon outSnap s0 hndOut
        (fun c hc => houtSnap ▸ hc) hs0inv
    have hinSnap : inSnap = inConns s1 o := by
      rw [hinSnapDef, getMGM_fst]
      rfl
    have hndIn : inSnap.Nodup := by
      rw [hinSnap]
      exact (hs1inv.2.2.2.2.1 o).1
    exact rInFold_strongInv n o pred hon inSnap s1 hndIn
      (fun c hc => hinSnap ▸ hc) hs1inv

theorem run_strongInv :
    ∀ (ops : List Op) (g g' : ModuleGraph), run g ops = some g' → StrongInv g →
      (∀ d ∈ ops.filterMap srmDep, connOf g d = none) →
      (ops.filterMap srmDep).Nodup → StrongInv g' := by
  intro ops
  induction ops with
  | nil =>
    intro g g' hrun h _ _
    simp only [run, Option.some.injEq] at hrun
    rw [← hrun]
    exact h
  | cons op rest ih =>
    intro g g' hrun h hfr hnd
    cases hop : applyOp g op with
    | none => simp only [run, hop] at hrun; cases hrun
    | some g1 =>
      simp only [run, hop] at hrun
      cases op with
      | setResolvedModule o d m =>
        have hfm : (Op.setResolvedModule o d m :: rest).filterMap srmDep =
            d :: rest.filterMap srmDep := by
          simp [List.filterMap_cons, srmDep]
        rw [hfm] at hfr hnd
        have hfd : connOf g d = none := hfr d (List.mem_cons_self _ _)
        simp only [applyOp, Option.some.injEq] at hop
        refine ih g1 g' hrun ?_ ?_ hnd.of_cons
        · rw [← hop]
          exact strongInv_srm o d m h hfd
        · intro d' hd'
          rw [← hop, srm_connOf,
            if_neg (fun he : d' = d => (List.nodup_cons.mp hnd).1 (he ▸ hd'))]
          exact hfr d' (List.mem_cons_of_mem _ hd')
      | setParents d b m =>
        have hfm : (Op.setParents d b m :: rest).filterMap srmDep =
            rest.filterMap srmDep := by
          simp [List.filterMap_cons, srmDep]
        rw [hfm] at hfr hnd
        simp only [applyOp, Option.some.injEq] at hop
        refine ih g1 g' hrun ?_ ?_ hnd
        · rw [← hop]
          refine strongInv_congr ?_ ?_ ?_ ?_ ?_ h
          · exact setParents_connView g d b m
          · exact setParents_connOf g d b m
          · intro x
            unfold inConns
            rw [setParents_mgmView]
          · intro x
            unfold outConns
            rw [setParents_mgmView]
          · exact setParents_nextConnId g d b m
        · intro d' hd'
          rw [← hop, setParents_connOf]
          exact hfr d' hd'
      | updateModule d m =>
        have hfm : (Op.updateModule d m :: rest).filterMap srmDep =
            rest.filterMap srmDep := by
          simp [List.filterMap_cons, srmDep]
        rw [hfm] at hfr hnd
        simp only [applyOp] at hop
        cases hcd : connOf g d with
        | none => rw [updateModule_none g d m hcd] at hop; cases hop
        | some cid =>
          cases hcv : connView g cid with
          | none => rw [updateModule_noheap g d m cid hcd hcv] at hop; cases hop
          | some conn =>
            by_cases hsm : conn.module = m
            · rw [updateModule_same g d m cid conn hcd hcv hsm] at hop
              injection hop with h1
              refine ih g1 g' hrun (h1 ▸ h) (fun d' hd' => h1 ▸ hfr d' hd') hnd
            · obtain ⟨g'', heq, hnext, hcv', hco, hin, hout, _⟩ :=
                updateModule_spec g d m cid conn hcd hcv hsm
              rw [heq] at hop
              injection hop with h1
              refine ih g1 g' hrun ?_ ?_ hnd
              · rw [← h1]
                exact strongInv_update hcd hcv hsm hnext hcv' hco hin hout h
              · intro d' hd'
                rw [← h1, hco]
                exact hfr d' hd'
      | addExplanation d e =>
        have hfm : (Op.addExplanation d e :: rest).filterMap srmDep =
            rest.filterMap srmDep := by
          simp [List.filterMap_cons, srmDep]
        rw [hfm] at hfr hnd
        simp only [applyOp] at hop
        cases hcd : connOf g d with
        | none => rw [addExplanation_none g d e hcd] at hop; cases hop
        | some cid =>
          cases hcv : connView g cid with
          | none => rw [addExplanation_noheap g d e cid hcd hcv] at hop; cases hop
          | some conn =>
            obtain ⟨g'', heq, hnext, hcv', hco, hin, hout, _⟩ :=
              addExplanation_spec g d e cid conn hcd hcv
            rw [heq] at hop
            injection hop with h1
            refine ih g1 g' hrun ?_ ?_ hnd
            · rw [← h1]
              exact strongInv_addExpl hcv hnext hcv' hco hin hout h
            · intro d' hd'
              rw [← h1, hco]
              exact hfr d' hd'
      | replaceModule o n pred =>
        have hfm : (Op.replaceModule o n pred :: rest).filterMap srmDep =
            rest.filterMap srmDep := by
          simp [List.filterMap_cons, srmDep]
        rw [hfm] at hfr hnd
        simp only [applyOp, Option.some.injEq] at hop
        refine ih g1 g' hrun ?_ ?_ hnd
        · rw [← hop]
          exact strongInv_replace o n pred h
        · intro d' hd'
          rw [← hop, replaceModule_connOf]
          exact hfr d' hd'
      | addExtraReason m e =>
        have hfm : (Op.addExtraReason m e :: rest).filterMap srmDep =
            rest.filterMap srmDep := by
          simp [List.filterMap_cons, srmDep]
        rw [hfm] at hfr hnd
        simp only [applyOp, Option.some.injEq] at hop
        refine ih g1 g' hrun ?_ ?_ hnd
        · rw [← hop]
          exact strongInv_aer m e h
        · intro d' hd'
          rw [← hop, aer_connOf]
          exact hfr d' hd'
      | setIssuer m i =>
        have hfm : (Op.setIssuer m i :: rest).filterMap srmDep =
            rest.filterMap srmDep := by
          simp [List.filterMap_cons, srmDep]
        rw [hfm] at hfr hnd
        simp only [applyOp, Option.some.injEq] at hop
        refine ih g1 g' hrun ?_ ?_ hnd
        · rw [← hop]
          refine strongInv_congr ?_ ?_ ?_ ?_ ?_ h
          · exact setIssuer_connView g m i
          · exact setIssuer_connOf g m i
          · intro x
            unfold inConns
            rw [setIssuer_mgmView]
            split <;> rfl
          · intro x
            unfold outConns
            rw [setIssuer_mgmView]
            split <;> rfl
          · exact setIssuer_nextConnId g m i
        · intro d' hd'
          rw [← hop, setIssuer_connOf]
          exact hfr d' hd'
      | setUsedExports m u =>
        have hfm : (Op.setUsedExports m u :: rest).filterMap srmDep =
            rest.filterMap srmDep := by
          simp [List.filterMap_cons, srmDep]
        rw [hfm] at hfr hnd
        simp only [applyOp, Option.some.injEq] at hop
        refine ih g1 g' hrun ?_ ?_ hnd
        · rw [← hop]
          refine strongInv_congr ?_ ?_ ?_ ?_ ?_ h
          · exact setUsedExports_connView g m u
          · exact setUsedExports_connOf g m u
          · intro x
            unfold inConns
            rw [setUsedExports_mgmView]
            split <;> rfl
          · intro x
            unfold outConns
            rw [setUsedExports_mgmView]
            split <;> rfl
          · exact setUsedExports_nextConnId g m u
        · intro d' hd'
          rw [← hop, setUsedExports_connOf]
          exact hfr d' hd'

/-- C1: edge-symmetry invariant.  Starting from an empty `ModuleGraph`, after any
sequence of `setResolvedModule` (at most once per dependency), `updateModule`,
`replaceModule`, and `addExtraReason` operations, every live connection `c` (a
dependency's current connection or a connection installed by `addExtraReason`) is a
member of the incoming-connections set of `c.module`'s record AND, unless
`c.originModule` is null, a member of the outgoing-connections set of
`c.originModule`'s record, and is a member of no other module record's incoming or
outgoing set. -/
theorem c1_edge_symmetry_invariant (ops : List Op) (g : ModuleGraph)
    (hrun : run emptyModuleGraph ops = some g)
    (_hkinds : ∀ op ∈ ops, isC1Op op = true)
    (honce : (ops.filterMap srmDep).Nodup) :
    EdgeSymmetry g := by
  have hs := run_strongInv ops emptyModuleGraph g hrun strongInv_empty
    (fun d _ => rfl) honce
  intro c _ conn hcv
  exact hs.1 c conn hcv

/-- Witness for C1 at a concrete trace exercising all four operation kinds. -/
theorem c1_edge_symmetry_invariant_witness :
    EdgeSymmetry ((run emptyModuleGraph
      [Op.setResolvedModule 0 0 1, Op.setResolvedModule 1 1 2,
        Op.addExtraReason 2 "entry", Op.updateModule 0 3,
        Op.replaceModule 1 4 (fun _ => true)]).getD emptyModuleGraph) :=
  c1_edge_symmetry_invariant
    [Op.setResolvedModule 0 0 1, Op.setResolvedModule 1 1 2,
      Op.addExtraReason 2 "entry", Op.updateModule 0 3,
      Op.replaceModule 1 4 (fun _ => true)] _ (by rfl) (by decide) (by decide)

/-!
## Chunk topology claims
-/

/-- C2: `getAllAsyncChunks` excludes the intersection of the chunk's own groups'
member sets even when those chunks are reachable through child groups.  Here chunk
`X = 10` is in exactly groups `G1 = 1` and `G2 = 2` with `G1.chunks = [X, Y]`,
`G2.chunks = [X, Y]` (`Y = 11`), `G1` has the single child group `G3 = 3` with
`G3.chunks = [Y, Z]` (`Z = 12`) and no further children: `X.getAllAsyncChunks()`
equals the set `{Z}` — `Y` is excluded because it lies in the intersection of `X`'s
own groups' chunk sets. -/
theorem c2_get_all_async_chunks_excludes_initial :
    getAllAsyncChunks
      [(1, ⟨[10, 11], [3], []⟩), (2, ⟨[10, 11], [], []⟩), (3, ⟨[11, 12], [], []⟩)]
      [1, 2] = some [12] := by
  rfl

theorem nodup_length_le_dedup {l keys : List Nat} (hnd : l.Nodup)
    (hsub : ∀ x ∈ l, x ∈ keys) : l.length ≤ keys.dedup.length := by
  have h1 : l.toFinset.card = l.length := List.toFinset_card_of_nodup hnd
  have h2 : l.toFinset ⊆ keys.toFinset := by
    intro x hx
    rw [List.mem_toFinset] at hx ⊢
    exact hsub x hx
  have h3 : keys.toFinset.card = keys.dedup.length := List.card_toFinset keys
  calc l.length = l.toFinset.card := h1.symm
    _ ≤ keys.toFinset.card := Finset.card_le_card h2
    _ = keys.dedup.length := h3

theorem mem_foldl_setAdd : ∀ (l q : List Nat) (x : Nat),
    x ∈ l.foldl setAdd q ↔ x ∈ q ∨ x ∈ l := by
  intro l
  induction l with
  | nil => intro q x; simp
  | cons a rest ih =>
    intro q x
    rw [List.foldl_cons, ih, mem_setAdd, List.mem_cons]
    tauto

theorem foldl_setAdd_nodup : ∀ (l q : List Nat), q.Nodup → (l.foldl setAdd q).Nodup := by
  intro l
  induction l with
  | nil => intro q h; exact h
  | cons a rest ih =>
    intro q h
    rw [List.foldl_cons]
    exact ih _ (setAdd_nodup h)

theorem groupOf_children_closed {env : List (Nat × ChunkGroupData)}
    (hclosed : ∀ p ∈ env, ∀ c ∈ p.2.children, c ∈ env.map Prod.fst) (gid : Nat) :
    ∀ c ∈ (groupOf env gid).children, c ∈ env.map Prod.fst := by
  intro c hc
  unfold groupOf at hc
  cases ha : assocGet env gid with
  | none =>
    rw [ha] at hc
    simp [emptyCGD] at hc
  | some grp =>
    rw [ha] at hc
    exact hclosed _ (assocGet_mem ha) c hc

theorem enqueue_fold (processed2 : List Nat) :
    ∀ (children p : List Nat), (processed2 ++ p).Nodup →
      (processed2 ++ children.foldl
        (fun p ch => if ch ∈ processed2 ∨ ch ∈ p then p else p ++ [ch]) p).Nodup ∧
      (∀ x ∈ children.foldl
        (fun p ch => if ch ∈ processed2 ∨ ch ∈ p then p else p ++ [ch]) p,
        x ∈ p ∨ x ∈ children) := by
  intro children
  induction children with
  | nil =>
    intro p h
    exact ⟨h, fun x hx => Or.inl hx⟩
  | cons ch rest ih =>
    intro p h
    rw [List.foldl_cons]
    by_cases hc : ch ∈ processed2 ∨ ch ∈ p
    · rw [if_pos hc]
      obtain ⟨ih1, ih2⟩ := ih p h
      refine ⟨ih1, fun x hx => ?_⟩
      rcases ih2 x hx with hx | hx
      · exact Or.inl hx
      · exact Or.inr (List.mem_cons_of_mem _ hx)
    · rw [if_neg hc]
      push_neg at hc
      have hnd2 : (processed2 ++ (p ++ [ch])).Nodup := by
        rw [← List.append_assoc]
        rw [List.nodup_append]
        rw [List.nodup_append] at h
        refine ⟨List.Nodup.append h.1 h.2.1 ?_, List.nodup_singleton ch, ?_⟩
        · intro a ha1 ha2
          exact h.2.2 ha1 ha2
        · intro a ha
          rw [List.mem_append] at ha
          simp only [List.mem_singleton]
          rintro rfl
          rcases ha with ha | ha
          · exact hc.1 ha
          · exact hc.2 ha
      obtain ⟨ih1, ih2⟩ := ih (p ++ [ch]) hnd2
      refine ⟨ih1, fun x hx => ?_⟩
      rcases ih2 x hx with hx | hx
      · rw [List.mem_append] at hx
        rcases hx with hx | hx
        · exact Or.inl hx
        · rw [List.mem_singleton] at hx
          exact Or.inr (hx ▸ List.mem_cons_self _ _)
      · exact Or.inr (List.mem_cons_of_mem _ hx)

theorem gaacLoop_isSome (env : List (Nat × ChunkGroupData)) (initial : List Nat)
    (hclosed : ∀ p ∈ env, ∀ c ∈ p.2.children, c ∈ env.map Prod.fst) :
    ∀ (fuel : Nat) (processed pending acc : List Nat),
      (processed ++ pending).Nodup →
      (∀ x ∈ processed ++ pending, x ∈ env.map Prod.fst) →
      (env.map Prod.fst).dedup.length ≤ fuel + processed.length →
      (gaacLoop env initial fuel processed pending acc).isSome := by
  intro fuel
  induction fuel with
  | zero =>
    intro processed pending acc hnd hsub hlen
    cases pending with
    | nil => rw [gaacLoop]; rfl
    | cons gid rest =>
      exfalso
      have := nodup_length_le_dedup hnd hsub
      rw [List.length_append, List.length_cons] at this
      omega
  | succ fuel ih =>
    intro processed pending acc hnd hsub hlen
    cases pending with
    | nil => rw [gaacLoop]; rfl
    | cons gid rest =>
      rw [gaacLoop]
      have hnd2 : (processed ++ [gid] ++ rest).Nodup := by
        rw [List.append_assoc]
        exact hnd
      have hsub2 : ∀ x ∈ processed ++ [gid] ++ rest, x ∈ env.map Prod.fst := by
        intro x hx
        rw [List.append_assoc] at hx
        exact hsub x hx
      obtain ⟨he1, he2⟩ :=
        enqueue_fold (processed ++ [gid]) (groupOf env gid).children rest hnd2
      apply ih (processed ++ [gid]) _ _ he1
      · intro x hx
        rw [List.mem_append] at hx
        rcases hx with hx | hx
        · exact hsub2 x (List.mem_append.mpr (Or.inl hx))
        · rcases he2 x hx with hx | hx
          · exact hsub2 x (List.mem_append.mpr (Or.inr hx))
          · exact groupOf_children_closed hclosed gid x hx
      · rw [List.length_append, List.length_singleton]
        omega

/-- C8: `getAllAsyncChunks()` terminates and returns a finite set for every finite
chunk-group topology whose child references stay inside the topology, including
topologies whose parent/child group adjacency contains cycles, because each group is
enqueued and processed at most once (the work-queue set doubles as the visited set).
In the embedding the work-queue loop carries fuel `env.length`, and the claim is that
this fuel never runs out (`isSome`); the result is a `List`, hence a finite set. -/
theorem c8_get_all_async_chunks_terminates (env : List (Nat × ChunkGroupData))
    (myGroups : List Nat)
    (hclosed : ∀ p ∈ env, ∀ c ∈ p.2.children, c ∈ env.map Prod.fst) :
    (getAllAsyncChunks env myGroups).isSome := by
  unfold getAllAsyncChunks
  have hseeds : ∀ (gs : List Nat) (q : List Nat), q.Nodup →
      (∀ x ∈ q, x ∈ env.map Prod.fst) →
      (gs.foldl (fun q gr => (groupOf env gr).children.foldl setAdd q) q).Nodup ∧
      (∀ x ∈ gs.foldl (fun q gr => (groupOf env gr).children.foldl setAdd q) q,
        x ∈ env.map Prod.fst) := by
    intro gs
    induction gs with
    | nil => intro q h1 h2; exact ⟨h1, h2⟩
    | cons gr rest ih =>
      intro q h1 h2
      rw [List.foldl_cons]
      apply ih
      · exact foldl_setAdd_nodup _ _ h1
      · intro x hx
        rw [mem_foldl_setAdd] at hx
        rcases hx with hx | hx
        · exact h2 x hx
        · exact groupOf_children_closed hclosed gr x hx
  obtain ⟨h1, h2⟩ := hseeds myGroups [] List.nodup_nil (fun x hx => absurd hx (List.not_mem_nil x))
  apply gaacLoop_isSome env _ hclosed env.length [] _ []
  · rw [List.nil_append]
    exact h1
  · intro x hx
    rw [List.nil_append] at hx
    exact h2 x hx
  · have hsl : (env.map Prod.fst).dedup.Sublist (env.map Prod.fst) := List.dedup_sublist _
    have := hsl.length_le
    rw [List.length_map] at this
    omega

/-- Witness for C8 at a cyclic topology: groups 1 and 2 are each other's children. -/
theorem c8_get_all_async_chunks_terminates_witness :
    (getAllAsyncChunks [(1, ⟨[5], [2], []⟩), (2, ⟨[6], [1], []⟩)] [1]).isSome :=
  c8_get_all_async_chunks_terminates
    [(1, ⟨[5], [2], []⟩), (2, ⟨[6], [1], []⟩)] [1] (by decide)

/-!
## `disconnectFromGroups`
-/

theorem groupChunksOf_chunkRemoveGroup (s : CGState) (c g x : Nat) :
    groupChunksOf (chunkRemoveGroup s c g).1 x = groupChunksOf s x := by
  unfold chunkRemoveGroup
  split <;> rfl

theorem chunkGroupsOf_chunkRemoveGroup_self (s : CGState) (c g : Nat)
    (h : g ∈ chunkGroupsOf s c) (c' : Nat) :
    chunkGroupsOf (chunkRemoveGroup s c g).1 c' =
      if c' = c then setDelete (chunkGroupsOf s c) g else chunkGroupsOf s c' := by
  unfold chunkRemoveGroup
  rw [if_pos h]
  unfold chunkGroupsOf
  by_cases hc : c' = c
  · subst hc
    simp [assocGet_assocSet_self]
  · simp [assocGet_assocSet_ne _ _ _ _ hc, hc]

theorem groupRemoveChunk_spec (s : CGState) (g c : Nat)
    (hmem : c ∈ groupChunksOf s g) (hsym : g ∈ chunkGroupsOf s c) :
    (∀ x, groupChunksOf (groupRemoveChunk s g c).1 x =
      if x = g then (groupChunksOf s g).erase c else groupChunksOf s x) ∧
    (∀ c', chunkGroupsOf (groupRemoveChunk s g c).1 c' =
      if c' = c then setDelete (chunkGroupsOf s c) g else chunkGroupsOf s c') := by
  have heq : (groupRemoveChunk s g c).1 =
      (chunkRemoveGroup
        { s with groupChunksMap :=
            assocSet s.groupChunksMap g ((groupChunksOf s g).erase c) } c g).1 := by
    unfold groupRemoveChunk
    rw [if_pos hmem]
  have hcg1 : ∀ c', chunkGroupsOf
      { s with groupChunksMap :=
          assocSet s.groupChunksMap g ((groupChunksOf s g).erase c) } c' =
      chunkGroupsOf s c' := fun _ => rfl
  have hgc1 : ∀ x, groupChunksOf
      { s with groupChunksMap :=
          assocSet s.groupChunksMap g ((groupChunksOf s g).erase c) } x =
      if x = g then (groupChunksOf s g).erase c else groupChunksOf s x := by
    intro x
    unfold groupChunksOf
    by_cases hx : x = g
    · subst hx
      simp [assocGet_assocSet_self]
    · simp [assocGet_assocSet_ne _ _ _ _ hx, hx]
  constructor
  · intro x
    rw [heq, groupChunksOf_chunkRemoveGroup]
    exact hgc1 x
  · intro c'
    rw [heq, chunkGroupsOf_chunkRemoveGroup_self _ c g (by rw [hcg1]; exact hsym) c']
    simp only [hcg1]

theorem groupRemoveChunk_frame (s : CGState) (g c x : Nat) (hx : x ≠ g) :
    groupChunksOf (groupRemoveChunk s g c).1 x = groupChunksOf s x := by
  unfold groupRemoveChunk
  split
  · show groupChunksOf (chunkRemoveGroup
      { s with groupChunksMap :=
          assocSet s.groupChunksMap g ((groupChunksOf s g).erase c) } c g).1 x = _
    rw [groupChunksOf_chunkRemoveGroup]
    unfold groupChunksOf
    simp [assocGet_assocSet_ne _ _ _ _ hx]
  · rfl

theorem dfg_fold_frame (c : Nat) :
    ∀ (l : List Nat) (st : CGState) (g0 : Nat), g0 ∉ l →
      groupChunksOf (l.foldl (fun s g => (groupRemoveChunk s g c).1) st) g0 =
        groupChunksOf st g0 := by
  intro l
  induction l with
  | nil => intro st g0 _; rfl
  | cons g rest ih =>
    intro st g0 hg0
    rw [List.foldl_cons]
    rw [ih _ g0 (fun h => hg0 (List.mem_cons_of_mem _ h))]
    exact groupRemoveChunk_frame st g c g0
      (fun h : g0 = g => hg0 (h ▸ List.mem_cons_self _ _))

theorem dfg_fold (c : Nat) :
    ∀ (l : List Nat) (st : CGState), l.Nodup → chunkGroupsOf st c = l →
      (∀ g ∈ l, c ∈ groupChunksOf st g ∧ (groupChunksOf st g).count c ≤ 1) →
      chunkGroupsOf (l.foldl (fun s g => (groupRemoveChunk s g c).1) st) c = [] ∧
      (∀ g ∈ l, c ∉ groupChunksOf
        (l.foldl (fun s g => (groupRemoveChunk s g c).1) st) g) := by
  intro l
  induction l with
  | nil =>
    intro st _ hcg _
    exact ⟨hcg, fun g hg => absurd hg (List.not_mem_nil g)⟩
  | cons g0 rest ih =>
    intro st hnd hcg hall
    have hg0r : g0 ∉ rest := (List.nodup_cons.mp hnd).1
    obtain ⟨hmem0, hcnt0⟩ := hall g0 (List.mem_cons_self _ _)
    have hsym0 : g0 ∈ chunkGroupsOf st c := by
      rw [hcg]
      exact List.mem_cons_self _ _
    obtain ⟨hgc, hcg'⟩ := groupRemoveChunk_spec st g0 c hmem0 hsym0
    have hcg1 : chunkGroupsOf (groupRemoveChunk st g0 c).1 c = rest := by
      rw [hcg' c, if_pos rfl, hcg]
      unfold setDelete
      rw [List.filter_cons, if_neg (by simp)]
      apply List.filter_eq_self.mpr
      intro a ha
      simp only [ne_eq, decide_eq_true_eq, decide_not, Bool.not_eq_true',
        decide_eq_false_iff_not]
      exact fun he => hg0r (he ▸ ha)
    have hall1 : ∀ g ∈ rest, c ∈ groupChunksOf (groupRemoveChunk st g0 c).1 g ∧
        (groupChunksOf (groupRemoveChunk st g0 c).1 g).count c ≤ 1 := by
      intro g hg
      have hgg0 : g ≠ g0 := fun he => hg0r (he ▸ hg)
      rw [hgc g, if_neg hgg0]
      exact hall g (List.mem_cons_of_mem _ hg)
    obtain ⟨ihf, ihg⟩ := ih (groupRemoveChunk st g0 c).1 hnd.of_cons hcg1 hall1
    rw [List.foldl_cons]
    refine ⟨ihf, ?_⟩
    intro g hg
    rcases List.mem_cons.mp hg with rfl | hgr
    · rw [dfg_fold_frame c rest (groupRemoveChunk st g c).1 g hg0r, hgc g, if_pos rfl]
      have hce := List.count_erase_self c (groupChunksOf st g)
      intro hmem
      have hpos := List.count_pos_iff.mpr hmem
      omega
    · exact ihg g hgr

/-- C3: for every chunk (in a state satisfying the group-membership symmetry
invariant maintained by the API: the chunk's group set is duplicate-free, and the
chunk occurs — at most once — in the member list of each group it belongs to),
calling `disconnectFromGroups()` results in `getNumberOfGroups() == 0` for that chunk
and, for every group the chunk formerly belonged to, the chunk is no longer in that
group's own chunk membership list (the group-side removal being delegated to each
group's `removeChunk`). -/
theorem c3_disconnect_from_groups (s : CGState) (c : Nat)
    (hnd : (chunkGroupsOf s c).Nodup)
    (hsym : ∀ g ∈ chunkGroupsOf s c, c ∈ groupChunksOf s g)
    (hcnt : ∀ g ∈ chunkGroupsOf s c, (groupChunksOf s g).count c ≤ 1) :
    getNumberOfGroups (disconnectFromGroups s c) c = 0 ∧
    ∀ g ∈ chunkGroupsOf s c, c ∉ groupChunksOf (disconnectFromGroups s c) g := by
  obtain ⟨h1, h2⟩ := dfg_fold c (chunkGroupsOf s c) s hnd rfl
    (fun g hg => ⟨hsym g hg, hcnt g hg⟩)
  constructor
  · unfold getNumberOfGroups disconnectFromGroups
    rw [h1]
    rfl
  · exact h2

/-- Witness for C3: chunk 7 in groups 1 and 2, symmetric membership. -/
theorem c3_disconnect_from_groups_witness :
    getNumberOfGroups (disconnectFromGroups
      ⟨[(7, [1, 2])], [(1, [7, 8]), (2, [9, 7])]⟩ 7) 7 = 0 ∧
    ∀ g ∈ chunkGroupsOf (⟨[(7, [1, 2])], [(1, [7, 8]), (2, [9, 7])]⟩ : CGState) 7,
      7 ∉ groupChunksOf (disconnectFromGroups
        ⟨[(7, [1, 2])], [(1, [7, 8]), (2, [9, 7])]⟩ 7) g :=
  c3_disconnect_from_groups ⟨[(7, [1, 2])], [(1, [7, 8]), (2, [9, 7])]⟩ 7
    (by decide) (by decide) (by decide)

/-- C4: `getChildIdsByOrders` (Chunk.js lines 290-326) collects options only from
groups in which this chunk is the last chunk of the group's ordered member list,
takes every child-group option whose name ends in `Order`, sorts each per-stripped-
name list descending by numeric order value (ties broken by `compareTo`), and emits
the first-seen de-duplicated chunk ids in that order.  First conjunct (the claim's
instance, generalised): for two child groups carrying options `{prefetchOrder: o1}`
and `{prefetchOrder: o2}` with `o1 < o2`, the result under key `prefetch` lists the
chunk ids of the higher-order group (`l2`) before those of the lower-order group
(`l1`), first-seen de-duplicated.  Second conjunct: when the chunk is not the last
member of its group, nothing is collected from that group. -/
theorem c4_child_ids_by_orders (cmpT : Nat → Nat → Int) (self w g h1 h2 : Nat)
    (cs l1 l2 : List Nat) (o1 o2 : Int)
    (hg1 : h1 ≠ g) (hg2 : h2 ≠ g) (h21 : h2 ≠ h1) (ho : o1 < o2) (hw : w ≠ self) :
    assocGet (getChildIdsByOrders
        [(g, ⟨cs ++ [self], [h1, h2], []⟩),
          (h1, ⟨l1, [], [("prefetchOrder".toList, o1)]⟩),
          (h2, ⟨l2, [], [("prefetchOrder".toList, o2)]⟩)]
        cmpT self [g]) "prefetch".toList =
      some ((l2 ++ l1).foldl setAdd []) ∧
    getChildIdsByOrders
        [(g, ⟨[self, w], [h1, h2], []⟩),
          (h1, ⟨l1, [], [("prefetchOrder".toList, o1)]⟩),
          (h2, ⟨l2, [], [("prefetchOrder".toList, o2)]⟩)]
        cmpT self [g] = [] := by
  have hne20 : o2 - o1 ≠ 0 := sub_ne_zero.mpr (ne_of_gt ho)
  have hnle : ¬(o2 - o1 ≤ 0) := by omega
  have hends : endsWithOrder
      ['p', 'r', 'e', 'f', 'e', 't', 'c', 'h', 'O', 'r', 'd', 'e', 'r'] = true := by
    decide
  have hstrip : stripOrderSuffix
      ['p', 'r', 'e', 'f', 'e', 't', 'c', 'h', 'O', 'r', 'd', 'e', 'r'] =
      ['p', 'r', 'e', 'f', 'e', 't', 'c', 'h'] := by decide
  have hlast : (cs ++ [self]).getLast? = some self := by simp
  have hlast2 : ([self, w] : List Nat).getLast? = some w := rfl
  constructor
  · simp [getChildIdsByOrders, collectOrderLists, groupOf, assocGet, assocSet,
      Ne.symm hg1, Ne.symm hg2, Ne.symm h21, hlast, hends, hstrip,
      jsSort, insertAsc, orderItemCmp, hne20, hnle, List.foldl_append]
  · simp [getChildIdsByOrders, collectOrderLists, groupOf, assocGet, hlast2, hw]

/-- Witness for C4 at the spec's example: child groups with `{prefetchOrder: 2}` and
`{prefetchOrder: 5}`; the `prefetchOrder: 5` group's chunk ids come first. -/
theorem c4_child_ids_by_orders_witness :
    assocGet (getChildIdsByOrders
        [(1, ⟨[4] ++ [0], [2, 3], []⟩),
          (2, ⟨[10, 11], [], [("prefetchOrder".toList, 2)]⟩),
          (3, ⟨[12, 10], [], [("prefetchOrder".toList, 5)]⟩)]
        (fun _ _ => 0) 0 [1]) "prefetch".toList =
      some ((([12, 10] : List Nat) ++ [10, 11]).foldl setAdd []) ∧
    getChildIdsByOrders
        [(1, ⟨[0, 9], [2, 3], []⟩),
          (2, ⟨[10, 11], [], [("prefetchOrder".toList, 2)]⟩),
          (3, ⟨[12, 10], [], [("prefetchOrder".toList, 5)]⟩)]
        (fun _ _ => 0) 0 [1] = [] :=
  c4_child_ids_by_orders (fun _ _ => 0) 0 9 1 2 3 [4] [10, 11] [12, 10] 2 5
    (by decide) (by decide) (by decide) (by decide) (by decide)
